import Mathlib

/-!
# CHIP-8 emulator (`chip8.c`): shallow embedding and verified properties

The C structures become Lean structures whose array fields are functions from
an index to a value.  Machine integers are natural numbers; every store into a
`uint8_t` or `uint16_t` object reduces modulo `2^8` or `2^16`.  An array access
outside the bounds of the C array (and a division by zero) is undefined
behaviour in C: the embedding returns `none` there, so `emulate_instruction`
is a function into `Option chip8_t`.
-/

namespace Chip8

/-! ## Data model -/

/-- The C type `config_t`. -/
structure config_t where
  window_height : Nat
  window_width : Nat
  fg_color : Nat
  bg_color : Nat
  scale_factor : Nat
  pixel_outlines : Bool
  inst_per_sec : Nat

/-- The C type `emulator_state_t`. -/
inductive emulator_state_t where
  | QUIT
  | RUNNING
  | PAUSED
  deriving DecidableEq

/-- The C type `instruction_t`: the opcode and its decoded fields. -/
structure instruction_t where
  opcode : Nat
  NNN : Nat
  NN : Nat
  N : Nat
  X : Nat
  Y : Nat
  deriving DecidableEq

/-- The C type `chip8_t`.  `ram` has 4096 cells, `display` 64*32, `stack` 12,
`V` 16 and `keypad` 16; `stack_ptr` is the index of the stack slot the C
pointer `stack_ptr` points at (the current depth). -/
structure chip8_t where
  state : emulator_state_t
  ram : Nat → Nat
  display : Nat → Bool
  stack : Nat → Nat
  stack_ptr : Nat
  V : Nat → Nat
  I : Nat
  PC : Nat
  delay_timer : Nat
  sound_timer : Nat
  keypad : Nat → Bool
  rom_name : String
  inst : instruction_t

/-- Array store `a[i] = v`. -/
def upd {α : Type} (a : Nat → α) (i : Nat) (v : α) : Nat → α :=
  fun k => if k = i then v else a k

/-- Conversion of a C `int` value to `uint8_t`. -/
def u8 (z : Int) : Nat := (z % 256).toNat

/-- Conversion of a C `int` value to `uint16_t`. -/
def u16 (z : Int) : Nat := (z % 65536).toNat

/-- Every field of the state holds a value of its C type. -/
structure InRange (s : chip8_t) : Prop where
  ram_lt : ∀ a, s.ram a < 256
  stack_lt : ∀ i, s.stack i < 65536
  V_lt : ∀ i, s.V i < 256
  I_lt : s.I < 65536
  PC_lt : s.PC < 65536
  delay_lt : s.delay_timer < 256
  sound_lt : s.sound_timer < 256

/-! ## The draw loops of `DXYN` -/

/-- Inner loop `for (int8_t j = 7; j >= 0; j--)` of the draw opcode, with
`n = j + 1` iterations left.  It threads the two objects the loop writes,
`display` and `V`. -/
def draw_row (config : config_t) (sprite_data Y_coord : Nat) :
    Nat → Nat → (Nat → Bool) → (Nat → Nat) → Option ((Nat → Bool) × (Nat → Nat))
  | 0, _, display, V => some (display, V)
  | j + 1, X_coord, display, V =>
    -- bool *pixel = &chip8->display[Y_coord*config.window_width + X_coord];
    let pixel := (Y_coord * config.window_width + X_coord) % 2 ^ 32
    if pixel < 64 * 32 then
      -- const bool sprite_bit = (sprite_data & (1 << j));
      let sprite_bit : Bool := decide (sprite_data &&& (1 <<< j) ≠ 0)
      -- if (sprite_bit && *pixel) chip8->V[0xF] = 1;
      let V1 := if (sprite_bit && display pixel) = true then upd V 0xF 1 else V
      -- *pixel ^= sprite_bit;
      let display1 := upd display pixel (xor (display pixel) sprite_bit)
      -- if (++X_coord >= config.window_width) break;
      let X1 := (X_coord + 1) % 256
      if X1 ≥ config.window_width then some (display1, V1)
      else draw_row config sprite_data Y_coord j X1 display1 V1
    else none

/-- Outer loop `for (uint8_t i = 0; i < chip8->inst.N; i++)` of the draw
opcode, with `n = N - i` iterations left (`i` stays below 16). -/
def draw_sprite (config : config_t) (ram : Nat → Nat) (I orig_X : Nat) :
    Nat → Nat → Nat → (Nat → Bool) → (Nat → Nat) → Option ((Nat → Bool) × (Nat → Nat))
  | 0, _, _, display, V => some (display, V)
  | n + 1, i, Y_coord, display, V =>
    -- const uint8_t sprite_data = chip8->ram[chip8->I + i];
    if I + i < 4096 then
      match draw_row config (ram (I + i)) Y_coord 8 orig_X display V with
      | none => none
      | some (display1, V1) =>
        -- if (++Y_coord >= config.window_height) break;
        let Y1 := (Y_coord + 1) % 256
        if Y1 ≥ config.window_height then some (display1, V1)
        else draw_sprite config ram I orig_X n (i + 1) Y1 display1 V1
    else none

/-! ## The register dump and load loops of `FX55` and `FX65` -/

/-- Loop `for (uint8_t i = 0; i <= X; i++) ram[I + i] = V[i];` with `n`
iterations left. -/
def reg_dump (V : Nat → Nat) (I : Nat) : Nat → Nat → (Nat → Nat) → Option (Nat → Nat)
  | 0, _, ram => some ram
  | n + 1, i, ram =>
    if I + i < 4096 then reg_dump V I n (i + 1) (upd ram (I + i) (V i)) else none

/-- Loop `for (uint8_t i = 0; i <= X; i++) V[i] = ram[I + i];` with `n`
iterations left. -/
def reg_load (ram : Nat → Nat) (I : Nat) : Nat → Nat → (Nat → Nat) → Option (Nat → Nat)
  | 0, _, V => some V
  | n + 1, i, V =>
    if I + i < 4096 then reg_load ram I n (i + 1) (upd V i (ram (I + i))) else none

/-! ## `emulate_instruction` -/

/-- Fetch and decode, the first statements of `emulate_instruction`: the
opcode is read big-endian from `ram[PC]` and `ram[PC+1]`, `PC` advances by 2 and
the fields of `inst` are filled in. -/
def fetch_decode (chip8 : chip8_t) : Option chip8_t :=
  -- chip8->inst.opcode = (chip8->ram[chip8->PC]<<8) | chip8->ram[chip8->PC+1];
  if chip8.PC + 1 < 4096 then
    let opcode := ((chip8.ram chip8.PC <<< 8) ||| chip8.ram (chip8.PC + 1)) % 65536
    let inst : instruction_t :=
      { opcode := opcode
        NNN := opcode &&& 0x0FFF
        NN := opcode &&& 0x0FF
        N := opcode &&& 0x0F
        X := (opcode >>> 8) &&& 0x0F
        Y := (opcode >>> 4) &&& 0x0F }
    -- chip8->PC += 2;
    some { chip8 with inst := inst, PC := (chip8.PC + 2) % 65536 }
  else none

/-- The `switch` statement of `emulate_instruction`, run on the state whose
`inst` holds the decoded instruction; `rand` is the value the call of `rand()`
returns (read by `CXNN` only). -/
def execute (chip8 : chip8_t) (config : config_t) (rand : Nat) : Option chip8_t :=
  let inst := chip8.inst
  let op := (inst.opcode >>> 12) &&& 0x0F
  let V := chip8.V
  let X := inst.X
  let Y := inst.Y
  if op = 0x00 then
    if inst.NN = 0xE0 then
      some { chip8 with display := fun _ => false }
    else if inst.NN = 0xEE then
      -- chip8->PC = *--chip8->stack_ptr;
      if 0 < chip8.stack_ptr ∧ chip8.stack_ptr - 1 < 12 then
        some { chip8 with stack_ptr := chip8.stack_ptr - 1,
                          PC := chip8.stack (chip8.stack_ptr - 1) }
      else none
    else some chip8
  else if op = 0x01 then
    some { chip8 with PC := inst.NNN }
  else if op = 0x02 then
    -- *chip8->stack_ptr++ = chip8->PC;
    if chip8.stack_ptr < 12 then
      some { chip8 with stack := upd chip8.stack chip8.stack_ptr chip8.PC,
                        stack_ptr := chip8.stack_ptr + 1,
                        PC := inst.NNN }
    else none
  else if op = 0x03 then
    if V X = inst.NN then some { chip8 with PC := (chip8.PC + 2) % 65536 }
    else some chip8
  else if op = 0x04 then
    if V X ≠ inst.NN then some { chip8 with PC := (chip8.PC + 2) % 65536 }
    else some chip8
  else if op = 0x05 then
    if inst.N ≠ 0 then some chip8
    else if V X = V Y then some { chip8 with PC := (chip8.PC + 2) % 65536 }
    else some chip8
  else if op = 0x06 then
    some { chip8 with V := upd V X inst.NN }
  else if op = 0x07 then
    some { chip8 with V := upd V X ((V X + inst.NN) % 256) }
  else if op = 0x08 then
    if inst.N = 0 then
      some { chip8 with V := upd V X (V Y) }
    else if inst.N = 1 then
      some { chip8 with V := upd V X (V X ||| V Y) }
    else if inst.N = 2 then
      some { chip8 with V := upd V X (V X &&& V Y) }
    else if inst.N = 3 then
      some { chip8 with V := upd V X (V X ^^^ V Y) }
    else if inst.N = 4 then
      -- if ((uint16_t)(V[X] + V[Y]) > 255) V[0xF] = 1;
      let V1 := if (V X + V Y) % 65536 > 255 then upd V 0xF 1 else V
      -- V[X] += V[Y];
      some { chip8 with V := upd V1 X ((V1 X + V1 Y) % 256) }
    else if inst.N = 5 then
      -- V[0xF] = V[X] >= V[Y];
      let V1 := upd V 0xF (if V X ≥ V Y then 1 else 0)
      -- V[X] -= V[Y];
      some { chip8 with V := upd V1 X (u8 ((V1 X : Int) - (V1 Y : Int))) }
    else if inst.N = 6 then
      -- V[0xF] = V[X] & 1;
      let V1 := upd V 0xF (V X &&& 1)
      -- V[X] >>= 1;
      some { chip8 with V := upd V1 X (V1 X >>> 1) }
    else if inst.N = 7 then
      -- V[0xF] = V[X] <= V[Y];
      let V1 := upd V 0xF (if V X ≤ V Y then 1 else 0)
      -- V[X] = V[Y] - V[X];
      some { chip8 with V := upd V1 X (u8 ((V1 Y : Int) - (V1 X : Int))) }
    else if inst.N = 0xE then
      -- V[0xF] = (V[X] & 0x80) >> 7;
      let V1 := upd V 0xF ((V X &&& 0x80) >>> 7)
      -- V[X] <<= 1;
      some { chip8 with V := upd V1 X ((V1 X <<< 1) % 256) }
    else some chip8
  else if op = 0x09 then
    if V X ≠ V Y then some { chip8 with PC := (chip8.PC + 2) % 65536 }
    else some chip8
  else if op = 0x0A then
    some { chip8 with I := inst.NNN }
  else if op = 0x0B then
    some { chip8 with PC := (V 0 + inst.NNN) % 65536 }
  else if op = 0x0C then
    some { chip8 with V := upd V X ((rand % 256) &&& inst.NN) }
  else if op = 0x0D then
    -- uint8_t X_coord = V[X] % config.window_width, Y_coord likewise
    if config.window_width = 0 ∨ config.window_height = 0 then none
    else
      let X_coord := (V X % config.window_width) % 256
      let Y_coord := (V Y % config.window_height) % 256
      let orig_X := X_coord
      -- chip8->V[0xF] = 0;
      match draw_sprite config chip8.ram chip8.I orig_X inst.N 0 Y_coord
          chip8.display (upd V 0xF 0) with
      | none => none
      | some (display1, V1) => some { chip8 with display := display1, V := V1 }
  else if op = 0x0E then
    if inst.NN = 0x9E then
      if V X < 16 then
        if chip8.keypad (V X) = true then some { chip8 with PC := (chip8.PC + 2) % 65536 }
        else some chip8
      else none
    else if inst.NN = 0xA1 then
      if V X < 16 then
        if chip8.keypad (V X) = false then some { chip8 with PC := (chip8.PC + 2) % 65536 }
        else some chip8
      else none
    else some chip8
  else if op = 0x0F then
    if inst.NN = 0x0A then
      -- scan of the keypad from index 0, stopping at the first pressed key
      match (List.range 16).find? (fun i => chip8.keypad i) with
      | some i => some { chip8 with V := upd V X i }
      | none => some { chip8 with PC := u16 ((chip8.PC : Int) - 2) }
    else if inst.NN = 0x1E then
      some { chip8 with I := (chip8.I + V X) % 65536 }
    else if inst.NN = 0x07 then
      some { chip8 with V := upd V X chip8.delay_timer }
    else if inst.NN = 0x15 then
      some { chip8 with delay_timer := V X }
    else if inst.NN = 0x18 then
      some { chip8 with sound_timer := V X }
    else if inst.NN = 0x29 then
      some { chip8 with I := (V X * 5) % 65536 }
    else if inst.NN = 0x33 then
      -- uint8_t BCD = V[X]; ram[I+2] = BCD % 10; BCD /= 10; ...
      if chip8.I + 2 < 4096 then
        let BCD := V X
        let ram1 := upd chip8.ram (chip8.I + 2) (BCD % 10)
        let BCD1 := BCD / 10
        let ram2 := upd ram1 (chip8.I + 1) (BCD1 % 10)
        let BCD2 := BCD1 / 10
        some { chip8 with ram := upd ram2 chip8.I BCD2 }
      else none
    else if inst.NN = 0x55 then
      match reg_dump V chip8.I (X + 1) 0 chip8.ram with
      | none => none
      | some ram1 => some { chip8 with ram := ram1 }
    else if inst.NN = 0x65 then
      match reg_load chip8.ram chip8.I (X + 1) 0 V with
      | none => none
      | some V1 => some { chip8 with V := V1 }
    else some chip8
  else some chip8

/-- The C function `emulate_instruction`: fetch, decode, then the `switch`. -/
def emulate_instruction (chip8 : chip8_t) (config : config_t) (rand : Nat) :
    Option chip8_t :=
  match fetch_decode chip8 with
  | none => none
  | some chip8 => execute chip8 config rand

/-- The C function `update_timer`. -/
def update_timer (chip8 : chip8_t) : chip8_t :=
  let chip8 : chip8_t :=
    if chip8.delay_timer > 0 then
      { chip8 with delay_timer := u8 ((chip8.delay_timer : Int) - 1) }
    else chip8
  if chip8.sound_timer > 0 then
    { chip8 with sound_timer := u8 ((chip8.sound_timer : Int) - 1) }
  else chip8

/-- The configuration `set_config_from_args` builds (it ignores its arguments). -/
def set_config_from_args : config_t :=
  { window_width := 64
    window_height := 32
    fg_color := 0xFFFFFFFF
    bg_color := 0x000000FF
    scale_factor := 20
    pixel_outlines := false
    inst_per_sec := 500 }

/-! ## Concrete states used to evaluate the code -/

/-- A power-on state: zeroed memory and registers, `PC` at the entry point. -/
def blank : chip8_t :=
  { state := emulator_state_t.RUNNING
    ram := fun _ => 0
    display := fun _ => false
    stack := fun _ => 0
    stack_ptr := 0
    V := fun _ => 0
    I := 0
    PC := 0x200
    delay_timer := 0
    sound_timer := 0
    keypad := fun _ => false
    rom_name := ""
    inst := { opcode := 0, NNN := 0, NN := 0, N := 0, X := 0, Y := 0 } }

/-- Memory holding the bytes `l` from address `base` on and `0` elsewhere. -/
def bytes_at (base : Nat) (l : List Nat) : Nat → Nat :=
  fun a => if base ≤ a then l.getD (a - base) 0 else 0

/-- Register file holding the values `l` in `V0`, `V1`, ... -/
def regs (l : List Nat) : Nat → Nat := fun i => l.getD i 0

/-- Input `8014` with `V0 = 1`, `V1 = 2` and a flag left at 1 by an earlier instruction. -/
def add_stale_flag_input : chip8_t :=
  { blank with ram := bytes_at 0x200 [0x80, 0x14]
               V := regs [1, 2, 0, 0, 0, 0, 0, 0, 0, 0, 0, 0, 0, 0, 0, 1] }

/-- Input `80F4` with `V0 = 200` and `VF = 100`: the flag register is an operand. -/
def add_flag_operand_input : chip8_t :=
  { blank with ram := bytes_at 0x200 [0x80, 0xF4]
               V := regs [200, 0, 0, 0, 0, 0, 0, 0, 0, 0, 0, 0, 0, 0, 0, 100] }

/-- Input `80F5` with `V0 = 10` and `VF = 3`: the flag register is the subtrahend. -/
def sub_flag_operand_input : chip8_t :=
  { blank with ram := bytes_at 0x200 [0x80, 0xF5]
               V := regs [10, 0, 0, 0, 0, 0, 0, 0, 0, 0, 0, 0, 0, 0, 0, 3] }

/-- Input `8F05` with `VF = 5` and `V0 = 3`: the flag register is the destination. -/
def sub_flag_target_input : chip8_t :=
  { blank with ram := bytes_at 0x200 [0x8F, 0x05]
               V := regs [3, 0, 0, 0, 0, 0, 0, 0, 0, 0, 0, 0, 0, 0, 0, 5] }

/-- Input `80F7` with `V0 = 3` and `VF = 10`: the flag register is the minuend. -/
def rsub_flag_operand_input : chip8_t :=
  { blank with ram := bytes_at 0x200 [0x80, 0xF7]
               V := regs [3, 0, 0, 0, 0, 0, 0, 0, 0, 0, 0, 0, 0, 0, 0, 10] }

/-- Input `8F07` with `VF = 3` and `V0 = 10`: the flag register is the destination. -/
def rsub_flag_target_input : chip8_t :=
  { blank with ram := bytes_at 0x200 [0x8F, 0x07]
               V := regs [10, 0, 0, 0, 0, 0, 0, 0, 0, 0, 0, 0, 0, 0, 0, 3] }

/-- Input `8F06` with `VF = 3`: shift right of the flag register itself. -/
def shr_flag_target_input : chip8_t :=
  { blank with ram := bytes_at 0x200 [0x8F, 0x06]
               V := regs [0, 0, 0, 0, 0, 0, 0, 0, 0, 0, 0, 0, 0, 0, 0, 3] }

/-- Input `8F0E` with `VF = 0x80`: shift left of the flag register itself. -/
def shl_flag_target_input : chip8_t :=
  { blank with ram := bytes_at 0x200 [0x8F, 0x0E]
               V := regs [0, 0, 0, 0, 0, 0, 0, 0, 0, 0, 0, 0, 0, 0, 0, 0x80] }

/-- The program `6102 7105` at `0x200`. -/
def load_add_input : chip8_t :=
  { blank with ram := bytes_at 0x200 [0x61, 0x02, 0x71, 0x05] }

/-- Input `7AFF` at `0x202` with `VA = 3`, a flag at 1 and both timers running. -/
def add_wrap_input : chip8_t :=
  { blank with ram := bytes_at 0x202 [0x7A, 0xFF]
               PC := 0x202
               V := regs [0, 0, 0, 0, 0, 0, 0, 0, 0, 0, 3, 0, 0, 0, 0, 1]
               delay_timer := 9
               sound_timer := 2 }

/-- Glyph 0 of the font (`F0 90 90 90 F0`) at address 0, the program
`D005 D005` at `0x200`, `I = 0`, `V0 = 0`, a clear display and a flag left at 1. -/
def glyph_input : chip8_t :=
  { blank with
    ram := fun a => if a < 5 then bytes_at 0 [0xF0, 0x90, 0x90, 0x90, 0xF0] a
                    else bytes_at 0x200 [0xD0, 0x05, 0xD0, 0x05] a
    V := regs [0, 0, 0, 0, 0, 0, 0, 0, 0, 0, 0, 0, 0, 0, 0, 1] }

/-- Input `F30A` at `0x200` with no key pressed. -/
def await_idle_input : chip8_t :=
  { blank with ram := bytes_at 0x200 [0xF3, 0x0A]
               V := regs [0, 0, 0, 9, 0, 0, 0, 0, 0, 0, 0, 0, 0, 0, 0, 0] }

/-- Input `F30A` at `0x200` with keys 7 and 0xB pressed. -/
def await_pressed_input : chip8_t :=
  { blank with ram := bytes_at 0x200 [0xF3, 0x0A]
               V := regs [0, 0, 0, 9, 0, 0, 0, 0, 0, 0, 0, 0, 0, 0, 0, 0]
               keypad := fun i => decide (i = 7 ∨ i = 0xB) }

/-- Input `F033` at `0x200` with `V0 = 156` and `I = 0x300`. -/
def bcd_input : chip8_t :=
  { blank with ram := bytes_at 0x200 [0xF0, 0x33]
               V := regs [156]
               I := 0x300 }

/-- Input `2208` at `0x200` and `00EE` at `0x208`, empty stack. -/
def call_return_input : chip8_t :=
  { blank with ram := bytes_at 0x200 [0x22, 0x08, 0, 0, 0, 0, 0, 0, 0x00, 0xEE] }

/-- Input `BFFF` at `0x200` with `V0 = 0xFF`. -/
def jump_offset_input : chip8_t :=
  { blank with ram := bytes_at 0x200 [0xBF, 0xFF]
               V := regs [0xFF] }

/-- Input with the opcode bytes `hi`, `lo` at `0x200`, some registers, timers,
a stack entry and a display cell set. -/
def opcode_input (hi lo : Nat) : chip8_t :=
  { blank with ram := bytes_at 0x200 [hi, lo]
               V := regs [1, 2, 3, 4, 5, 6, 7, 8, 9, 10, 11, 12, 13, 14, 15, 16]
               I := 0x123
               stack := regs [0x300]
               stack_ptr := 1
               delay_timer := 3
               sound_timer := 4
               display := fun k => decide (k = 5) }

/-- Input `F255` at `0x200` with `V0..V3 = 11, 22, 33, 44` and `I = 0x300`. -/
def dump_input : chip8_t :=
  { blank with ram := bytes_at 0x200 [0xF2, 0x55]
               V := regs [11, 22, 33, 44]
               I := 0x300 }

/-- Input `F265` at `0x200` after a dump of 11, 22, 33 at `0x300`, with the
registers since overwritten by 90, 91, 92, 93. -/
def load_input : chip8_t :=
  { blank with ram := fun a => if a < 0x300 then bytes_at 0x200 [0xF2, 0x65] a
                               else bytes_at 0x300 [11, 22, 33] a
               V := regs [90, 91, 92, 93]
               I := 0x300 }

/-- States the main loop can reach from `s0`: between two instructions the
input handler may rewrite the keypad and the run state, and `update_timer` may
tick. -/
inductive Reachable (config : config_t) (s0 : chip8_t) : chip8_t → Prop where
  | start : Reachable config s0 s0
  | input (s : chip8_t) (keypad : Nat → Bool) (state : emulator_state_t) :
      Reachable config s0 s →
      Reachable config s0 { s with keypad := keypad, state := state }
  | tick (s : chip8_t) : Reachable config s0 s → Reachable config s0 (update_timer s)
  | step (s t : chip8_t) (rand : Nat) :
      Reachable config s0 s → emulate_instruction s config rand = some t →
      Reachable config s0 t

/-- The font table of `init_chip8`: 16 glyphs of 5 bytes. -/
def font : List Nat :=
  [0xF0, 0x90, 0x90, 0x90, 0xF0,
   0x20, 0x60, 0x20, 0x20, 0x70,
   0xF0, 0x10, 0xF0, 0x80, 0xF0,
   0xF0, 0x10, 0xF0, 0x10, 0xF0,
   0x90, 0x90, 0xF0, 0x10, 0x10,
   0xF0, 0x80, 0xF0, 0x10, 0xF0,
   0xF0, 0x80, 0xF0, 0x90, 0xF0,
   0xF0, 0x10, 0x20, 0x40, 0x40,
   0xF0, 0x90, 0xF0, 0x90, 0xF0,
   0xF0, 0x90, 0xF0, 0x10, 0xF0,
   0xF0, 0x90, 0xF0, 0x90, 0x90,
   0xE0, 0x90, 0xE0, 0x90, 0xE0,
   0xF0, 0x80, 0x80, 0x80, 0xF0,
   0xE0, 0x90, 0x90, 0x90, 0xE0,
   0xF0, 0x80, 0xF0, 0x80, 0xF0,
   0xF0, 0x80, 0xF0, 0x80, 0x80]

/-- A freshly loaded state: the zeroed `chip8_t` of `main` after a successful
`init_chip8` on the program image `image` (font at 0, image at `0x200`,
`PC = 0x200`, empty stack, running). -/
def fresh (image : List Nat) : chip8_t :=
  { blank with ram := fun a => if a < 0x200 then bytes_at 0 font a
                               else bytes_at 0x200 image a }

/-- Input `2300` at `0x200` with a full stack (depth 12). -/
def call_full_input : chip8_t :=
  { blank with ram := bytes_at 0x200 [0x23, 0x00]
               stack_ptr := 12 }

/-- Input `00EE` at `0x200` with an empty stack (depth 0). -/
def return_empty_input : chip8_t :=
  { blank with ram := bytes_at 0x200 [0x00, 0xEE] }

/-- The zero-initialised state of `main` (`chip8_t chip8 = {0}`): every field
zero, so the run state is `QUIT`, the first enumerator. -/
def zeroed : chip8_t :=
  { blank with state := emulator_state_t.QUIT, PC := 0 }

/-- What `init_chip8` finds under `rom_name` once `fopen` has succeeded: the
bytes of the file, whose count `ftell` reports at the end of the file, and the
number of bytes the stream delivers to `fread` before it stops (all of them
when the file reads without error, fewer on a read error or a short read). -/
structure rom_file where
  bytes : List Nat
  delivered : Nat

/-- The C function `init_chip8`.  `rom` is what the file system holds under
`rom_name`: `none` when `fopen` fails, else the file.  The result is the
returned `bool` and the state `*chip8` is left in. -/
def init_chip8 (chip8 : chip8_t) (rom_name : String) (rom : Option rom_file) :
    Bool × chip8_t :=
  let entry_point := 0x200
  -- memcpy(&chip8->ram[0], font, sizeof(font));
  let chip8 : chip8_t :=
    { chip8 with ram := fun a => if a < font.length then font.getD a 0 else chip8.ram a }
  -- FILE *rom = fopen(rom_name, "rb"); if (!rom) return false;
  match rom with
  | none => (false, chip8)
  | some file =>
    -- fseek(rom, 0, SEEK_END); const size_t rom_size = ftell(rom);
    let rom_size := file.bytes.length
    let max_size := 4096 - entry_point
    -- if (rom_size > max_size) return false;
    if rom_size > max_size then (false, chip8)
    else
      -- fread(&chip8->ram[entry_point], rom_size, 1, rom): one item of rom_size
      -- bytes; the bytes that arrive are stored from ram[entry_point] on
      let got := min file.delivered rom_size
      let chip8 : chip8_t :=
        { chip8 with ram := fun a =>
            if entry_point ≤ a ∧ a < entry_point + got then file.bytes.getD (a - entry_point) 0
            else chip8.ram a }
      -- if (fread(...) != 1) return false;  fread returns 1 when the whole item
      -- arrived, and 0 when it did not or when the item size is 0
      if rom_size = 0 ∨ got < rom_size then (false, chip8)
      else
        (true, { chip8 with state := emulator_state_t.RUNNING
                            PC := entry_point
                            rom_name := rom_name
                            stack_ptr := 0 })

/-- Input `D002` at `0x200` with `I = 0xFFF`, `V0 = 0`, the sprite row `80` in
the last byte of memory and a clear display: the second sprite row would be
read from `ram[0x1000]`, one past the end of memory. -/
def draw_outside_input : chip8_t :=
  { blank with ram := fun a => if a = 0xFFF then 0x80 else bytes_at 0x200 [0xD0, 0x02] a
               I := 0xFFF }

/-! ## Fetch and decode -/

theorem getD_lt (l : List Nat) (b : Nat) (hb : 0 < b) (h : ∀ x ∈ l, x < b) (i : Nat) :
    l.getD i 0 < b := by
  by_cases hi : i < l.length
  · rw [List.getD_eq_getElem l 0 hi]
    exact h _ (List.getElem_mem hi)
  · rw [List.getD_eq_default l 0 (by omega)]
    exact hb

theorem bytes_at_lt (base : Nat) (l : List Nat) (h : ∀ x ∈ l, x < 256) (a : Nat) :
    bytes_at base l a < 256 := by
  unfold bytes_at
  split
  · exact getD_lt l 256 (by decide) h _
  · decide

theorem regs_lt (l : List Nat) (h : ∀ x ∈ l, x < 256) (i : Nat) : regs l i < 256 :=
  getD_lt l 256 (by decide) h i

theorem fetch_word (hi lo : Nat) (h1 : hi < 256) (h2 : lo < 256) :
    ((hi <<< 8) ||| lo) % 65536 = 256 * hi + lo := by
  rw [Nat.shiftLeft_eq, Nat.mul_comm, ← Nat.mul_add_lt_is_or (show lo < 2 ^ 8 by omega)]
  omega

theorem field_op (w : Nat) : (w >>> 12) &&& 0x0F = w / 4096 % 16 := by
  rw [Nat.shiftRight_eq_div_pow]; exact Nat.and_pow_two_sub_one_eq_mod _ 4

theorem field_X (w : Nat) : (w >>> 8) &&& 0x0F = w / 256 % 16 := by
  rw [Nat.shiftRight_eq_div_pow]; exact Nat.and_pow_two_sub_one_eq_mod _ 4

theorem field_Y (w : Nat) : (w >>> 4) &&& 0x0F = w / 16 % 16 := by
  rw [Nat.shiftRight_eq_div_pow]; exact Nat.and_pow_two_sub_one_eq_mod _ 4

theorem field_N (w : Nat) : w &&& 0x0F = w % 16 := Nat.and_pow_two_sub_one_eq_mod _ 4

theorem field_NN (w : Nat) : w &&& 0x0FF = w % 256 := Nat.and_pow_two_sub_one_eq_mod _ 8

theorem field_NNN (w : Nat) : w &&& 0x0FFF = w % 4096 := Nat.and_pow_two_sub_one_eq_mod _ 12

/-- Fetch and decode of the word whose high byte is `16 * T + X` and whose low
byte is `lo`: every field of `inst` as arithmetic on the two bytes. -/
theorem fetch_decode_eq (s : chip8_t) (T X lo : Nat) (hr : InRange s)
    (hpc : s.PC + 1 < 4096) (hX : X < 16)
    (hhi : s.ram s.PC = 16 * T + X) (hlo : s.ram (s.PC + 1) = lo) :
    fetch_decode s = some { s with
      inst := { opcode := 4096 * T + 256 * X + lo, NNN := 256 * X + lo, NN := lo,
                N := lo % 16, X := X, Y := lo / 16 }
      PC := s.PC + 2 } := by
  have hT : 16 * T + X < 256 := hhi ▸ hr.ram_lt _
  have hl : lo < 256 := hlo ▸ hr.ram_lt _
  have hw : ((s.ram s.PC <<< 8) ||| s.ram (s.PC + 1)) % 65536 = 4096 * T + 256 * X + lo := by
    rw [fetch_word _ _ (hr.ram_lt _) (hr.ram_lt _)]; omega
  have h2 : ((4096 * T + 256 * X + lo) >>> 8) &&& 0x0F = X := by rw [field_X]; omega
  have h5 : ((4096 * T + 256 * X + lo) >>> 4) &&& 0x0F = lo / 16 := by rw [field_Y]; omega
  have h3 : (4096 * T + 256 * X + lo) &&& 0x0FF = lo := by rw [field_NN]; omega
  have h4 : (4096 * T + 256 * X + lo) &&& 0x0FFF = 256 * X + lo := by rw [field_NNN]; omega
  have h6 : (4096 * T + 256 * X + lo) &&& 0x0F = lo % 16 := by rw [field_N]; omega
  have h7 : (s.PC + 2) % 65536 = s.PC + 2 := by omega
  unfold fetch_decode
  simp only [hw, h2, h3, h4, h5, h6, h7, if_pos hpc]

/-- Top nibble of a decoded word, the value the `switch` dispatches on. -/
theorem top_nibble (T X lo : Nat) (hT : T < 16) (hX : X < 16) (hl : lo < 256) :
    ((4096 * T + 256 * X + lo) >>> 12) &&& 0x0F = T := by
  rw [field_op]; omega

/-- One step on `6XNN`: `VX` receives `NN`. -/
theorem step_6XNN (s : chip8_t) (config : config_t) (rand X NN : Nat)
    (hr : InRange s) (hpc : s.PC + 1 < 4096) (hX : X < 16)
    (hhi : s.ram s.PC = 0x60 + X) (hlo : s.ram (s.PC + 1) = NN) :
    emulate_instruction s config rand =
      some { s with
        inst := { opcode := 4096 * 6 + 256 * X + NN, NNN := 256 * X + NN, NN := NN,
                  N := NN % 16, X := X, Y := NN / 16 }
        PC := s.PC + 2
        V := upd s.V X NN } := by
  have hl : NN < 256 := hlo ▸ hr.ram_lt _
  unfold emulate_instruction
  rw [fetch_decode_eq s 6 X NN hr hpc hX (by omega) hlo]
  simp [execute, top_nibble 6 X NN (by decide) hX hl]

/-- One step on `7XNN`: `VX` receives `(VX + NN) mod 256`. -/
theorem step_7XNN (s : chip8_t) (config : config_t) (rand X NN : Nat)
    (hr : InRange s) (hpc : s.PC + 1 < 4096) (hX : X < 16)
    (hhi : s.ram s.PC = 0x70 + X) (hlo : s.ram (s.PC + 1) = NN) :
    emulate_instruction s config rand =
      some { s with
        inst := { opcode := 4096 * 7 + 256 * X + NN, NNN := 256 * X + NN, NN := NN,
                  N := NN % 16, X := X, Y := NN / 16 }
        PC := s.PC + 2
        V := upd s.V X ((s.V X + NN) % 256) } := by
  have hl : NN < 256 := hlo ▸ hr.ram_lt _
  unfold emulate_instruction
  rw [fetch_decode_eq s 7 X NN hr hpc hX (by omega) hlo]
  simp [execute, top_nibble 7 X NN (by decide) hX hl]

/-! ## The draw loops on the 64x32 display -/

theorem sprite_bit_eq (sd j : Nat) : decide (sd &&& (1 <<< j) ≠ 0) = sd.testBit j := by
  rw [Nat.one_shiftLeft, Nat.and_two_pow]
  cases h : sd.testBit j <;> simp

/-- The flag store `if (sprite_bit && *pixel) V[0xF] = 1;`. -/
theorem flag_store (V : Nat → Nat) (b : Bool) :
    (∀ i, i ≠ 15 → (if b = true then upd V 0xF 1 else V) i = V i) ∧
    ((if b = true then upd V 0xF 1 else V) 15 = 1 ∨
      (if b = true then upd V 0xF 1 else V) 15 = V 15) ∧
    ((if b = true then upd V 0xF 1 else V) 15 = 1 ↔ V 15 = 1 ∨ b = true) := by
  cases b <;> simp [upd]
  intro i hi h
  exact absurd h hi

theorem draw_row_64 (config : config_t) (hw : config.window_width = 64) (sd Y : Nat)
    (hY : Y < 32) :
    ∀ (n X : Nat) (d : Nat → Bool) (V : Nat → Nat), X < 64 →
    ∃ d' V', draw_row config sd Y n X d V = some (d', V') ∧
      (∀ k, d' k = if k / 64 = Y ∧ X ≤ k % 64 ∧ k % 64 < X + n
                   then xor (d k) (sd.testBit (n - 1 - (k % 64 - X))) else d k) ∧
      (∀ i, i ≠ 15 → V' i = V i) ∧
      (V' 15 = 1 ∨ V' 15 = V 15) ∧
      (V' 15 = 1 ↔ V 15 = 1 ∨ ∃ k, k / 64 = Y ∧ X ≤ k % 64 ∧ k % 64 < X + n ∧
          sd.testBit (n - 1 - (k % 64 - X)) = true ∧ d k = true) := by
  intro n
  induction n with
  | zero =>
    intro X d V hX
    refine ⟨d, V, rfl, ?_, fun _ _ => rfl, Or.inr rfl, ?_⟩
    · intro k
      rw [if_neg]
      omega
    · constructor
      · exact Or.inl
      · rintro (h | ⟨k, _, h1, h2, _⟩)
        · exact h
        · omega
  | succ n ih =>
    intro X d V hX
    have hidx : (Y * 64 + X) % 2 ^ 32 = Y * 64 + X := by omega
    have hlt : Y * 64 + X < 64 * 32 := by omega
    have hX1 : (X + 1) % 256 = X + 1 := by omega
    obtain ⟨f1, f2, f3⟩ := flag_store V (sd.testBit n && d (Y * 64 + X))
    simp only [draw_row, hidx, if_pos hlt, sprite_bit_eq, hX1, hw]
    by_cases hb : X + 1 ≥ 64
    · rw [if_pos hb]
      refine ⟨_, _, rfl, ?_, f1, f2, ?_⟩
      · intro k
        by_cases hk : k = Y * 64 + X
        · subst hk
          have e1 : (Y * 64 + X) / 64 = Y := by omega
          have e2 : (Y * 64 + X) % 64 = X := by omega
          simp [upd, e1, e2]
        · have : ¬ (k / 64 = Y ∧ X ≤ k % 64 ∧ k % 64 < X + (n + 1)) := by omega
          simp [upd, hk, this]
      · rw [f3]
        constructor
        · rintro (h | h)
          · exact Or.inl h
          · simp only [Bool.and_eq_true] at h
            refine Or.inr ⟨Y * 64 + X, by omega, by omega, by omega, ?_, h.2⟩
            have : n + 1 - 1 - ((Y * 64 + X) % 64 - X) = n := by omega
            rw [this]; exact h.1
        · rintro (h | ⟨k, h1, h2, h3, h4, h5⟩)
          · exact Or.inl h
          · have hk : k = Y * 64 + X := by omega
            subst hk
            have : n + 1 - 1 - ((Y * 64 + X) % 64 - X) = n := by omega
            rw [this] at h4
            right; simp [h4, h5]
    · rw [if_neg hb]
      obtain ⟨d', V', hrun, hd, hV1, hV2, hV3⟩ := ih (X + 1)
        (upd d (Y * 64 + X) (xor (d (Y * 64 + X)) (sd.testBit n)))
        (if (sd.testBit n && d (Y * 64 + X)) = true then upd V 0xF 1 else V) (by omega)
      refine ⟨d', V', hrun, ?_, ?_, ?_, ?_⟩
      · intro k
        rw [hd k]
        by_cases hk : k = Y * 64 + X
        · subst hk
          have e1 : (Y * 64 + X) / 64 = Y := by omega
          have e2 : (Y * 64 + X) % 64 = X := by omega
          simp [upd, e1, e2]
        · by_cases hin : k / 64 = Y ∧ X + 1 ≤ k % 64 ∧ k % 64 < X + 1 + n
          · have hin2 : k / 64 = Y ∧ X ≤ k % 64 ∧ k % 64 < X + (n + 1) := by omega
            have : n - 1 - (k % 64 - (X + 1)) = n + 1 - 1 - (k % 64 - X) := by omega
            rw [if_pos hin, if_pos hin2, this]
            simp [upd, hk]
          · have hin2 : ¬ (k / 64 = Y ∧ X ≤ k % 64 ∧ k % 64 < X + (n + 1)) := by omega
            rw [if_neg hin, if_neg hin2]
            simp [upd, hk]
      · intro i hi
        rw [hV1 i hi, f1 i hi]
      · rcases hV2 with h | h
        · exact Or.inl h
        · rw [h]; exact f2
      · rw [hV3, f3]
        constructor
        · rintro ((h | h) | ⟨k, h1, h2, h3, h4, h5⟩)
          · exact Or.inl h
          · simp only [Bool.and_eq_true] at h
            refine Or.inr ⟨Y * 64 + X, by omega, by omega, by omega, ?_, h.2⟩
            have : n + 1 - 1 - ((Y * 64 + X) % 64 - X) = n := by omega
            rw [this]; exact h.1
          · have hk : k ≠ Y * 64 + X := by omega
            have : n - 1 - (k % 64 - (X + 1)) = n + 1 - 1 - (k % 64 - X) := by omega
            rw [this] at h4
            simp only [upd, if_neg hk] at h5
            exact Or.inr ⟨k, h1, by omega, by omega, h4, h5⟩
        · rintro (h | ⟨k, h1, h2, h3, h4, h5⟩)
          · exact Or.inl (Or.inl h)
          · by_cases hk : k = Y * 64 + X
            · subst hk
              have : n + 1 - 1 - ((Y * 64 + X) % 64 - X) = n := by omega
              rw [this] at h4
              left; right; simp [h4, h5]
            · right
              have : n + 1 - 1 - (k % 64 - X) = n - 1 - (k % 64 - (X + 1)) := by omega
              rw [this] at h4
              refine ⟨k, h1, by omega, by omega, h4, ?_⟩
              simp only [upd, if_neg hk]; exact h5

theorem draw_sprite_64 (config : config_t) (hw : config.window_width = 64)
    (hh : config.window_height = 32) (ram : Nat → Nat) (I x0 : Nat) (hx : x0 < 64) :
    ∀ (n i Y : Nat) (d : Nat → Bool) (V : Nat → Nat), Y < 32 → I + i + n ≤ 4096 →
    ∃ d' V', draw_sprite config ram I x0 n i Y d V = some (d', V') ∧
      (∀ k, d' k = if Y ≤ k / 64 ∧ k / 64 < Y + n ∧ k / 64 < 32 ∧ x0 ≤ k % 64 ∧ k % 64 < x0 + 8
                   then xor (d k) ((ram (I + i + (k / 64 - Y))).testBit (7 - (k % 64 - x0)))
                   else d k) ∧
      (∀ j, j ≠ 15 → V' j = V j) ∧
      (V' 15 = 1 ∨ V' 15 = V 15) ∧
      (V' 15 = 1 ↔ V 15 = 1 ∨ ∃ k, Y ≤ k / 64 ∧ k / 64 < Y + n ∧ k / 64 < 32 ∧
          x0 ≤ k % 64 ∧ k % 64 < x0 + 8 ∧
          (ram (I + i + (k / 64 - Y))).testBit (7 - (k % 64 - x0)) = true ∧ d k = true) := by
  intro n
  induction n with
  | zero =>
    intro i Y d V hY hI
    refine ⟨d, V, rfl, ?_, fun _ _ => rfl, Or.inr rfl, ?_⟩
    · intro k
      rw [if_neg]
      omega
    · constructor
      · exact Or.inl
      · rintro (h | ⟨k, h1, h2, _⟩)
        · exact h
        · omega
  | succ n ih =>
    intro i Y d V hY hI
    have hlt : I + i < 4096 := by omega
    obtain ⟨d1, V1, hrow, hd1, g1, g2, g3⟩ := draw_row_64 config hw (ram (I + i)) Y hY 8 x0 d V hx
    have hY1 : (Y + 1) % 256 = Y + 1 := by omega
    simp only [draw_sprite, if_pos hlt, hrow, hY1, hh]
    by_cases hb : Y + 1 ≥ 32
    · rw [if_pos hb]
      refine ⟨d1, V1, rfl, ?_, g1, g2, ?_⟩
      · intro k
        rw [hd1 k]
        by_cases hin : k / 64 = Y ∧ x0 ≤ k % 64 ∧ k % 64 < x0 + 8
        · have hin2 : Y ≤ k / 64 ∧ k / 64 < Y + (n + 1) ∧ k / 64 < 32 ∧ x0 ≤ k % 64 ∧
              k % 64 < x0 + 8 := by omega
          have e1 : I + i + (k / 64 - Y) = I + i := by omega
          rw [if_pos hin, if_pos hin2, e1]
        · have hin2 : ¬ (Y ≤ k / 64 ∧ k / 64 < Y + (n + 1) ∧ k / 64 < 32 ∧ x0 ≤ k % 64 ∧
              k % 64 < x0 + 8) := by omega
          rw [if_neg hin, if_neg hin2]
      · rw [g3]
        constructor
        · rintro (h | ⟨k, h1, h2, h3, h4, h5⟩)
          · exact Or.inl h
          · have e1 : I + i + (k / 64 - Y) = I + i := by omega
            exact Or.inr ⟨k, by omega, by omega, by omega, h2, h3, by rw [e1]; exact h4, h5⟩
        · rintro (h | ⟨k, h1, h2, h3, h4, h5, h6, h7⟩)
          · exact Or.inl h
          · have e1 : I + i + (k / 64 - Y) = I + i := by omega
            rw [e1] at h6
            exact Or.inr ⟨k, by omega, h4, h5, h6, h7⟩
    · rw [if_neg hb]
      obtain ⟨d', V', hrun, hd, hV1, hV2, hV3⟩ := ih (i + 1) (Y + 1) d1 V1 (by omega) (by omega)
      refine ⟨d', V', hrun, ?_, ?_, ?_, ?_⟩
      · intro k
        rw [hd k, hd1 k]
        by_cases hrow0 : k / 64 = Y ∧ x0 ≤ k % 64 ∧ k % 64 < x0 + 8
        · have hin1 : ¬ (Y + 1 ≤ k / 64 ∧ k / 64 < Y + 1 + n ∧ k / 64 < 32 ∧ x0 ≤ k % 64 ∧
              k % 64 < x0 + 8) := by omega
          have hin2 : Y ≤ k / 64 ∧ k / 64 < Y + (n + 1) ∧ k / 64 < 32 ∧ x0 ≤ k % 64 ∧
              k % 64 < x0 + 8 := by omega
          have e1 : I + i + (k / 64 - Y) = I + i := by omega
          rw [if_neg hin1, if_pos hrow0, if_pos hin2, e1]
        · rw [if_neg hrow0]
          by_cases hin1 : Y + 1 ≤ k / 64 ∧ k / 64 < Y + 1 + n ∧ k / 64 < 32 ∧ x0 ≤ k % 64 ∧
              k % 64 < x0 + 8
          · have hin2 : Y ≤ k / 64 ∧ k / 64 < Y + (n + 1) ∧ k / 64 < 32 ∧ x0 ≤ k % 64 ∧
                k % 64 < x0 + 8 := by omega
            have e1 : I + (i + 1) + (k / 64 - (Y + 1)) = I + i + (k / 64 - Y) := by omega
            rw [if_pos hin1, if_pos hin2, e1]
          · have hin2 : ¬ (Y ≤ k / 64 ∧ k / 64 < Y + (n + 1) ∧ k / 64 < 32 ∧ x0 ≤ k % 64 ∧
                k % 64 < x0 + 8) := by omega
            rw [if_neg hin1, if_neg hin2]
      · intro j hj
        rw [hV1 j hj, g1 j hj]
      · rcases hV2 with h | h
        · exact Or.inl h
        · rw [h]; exact g2
      · rw [hV3, g3]
        constructor
        · rintro ((h | ⟨k, h1, h2, h3, h4, h5⟩) | ⟨k, h1, h2, h3, h4, h5, h6, h7⟩)
          · exact Or.inl h
          · have e1 : I + i + (k / 64 - Y) = I + i := by omega
            exact Or.inr ⟨k, by omega, by omega, by omega, h2, h3, by rw [e1]; exact h4, h5⟩
          · have e1 : I + (i + 1) + (k / 64 - (Y + 1)) = I + i + (k / 64 - Y) := by omega
            rw [e1] at h6
            have hrow0 : ¬ (k / 64 = Y ∧ x0 ≤ k % 64 ∧ k % 64 < x0 + 8) := by omega
            rw [hd1 k, if_neg hrow0] at h7
            exact Or.inr ⟨k, by omega, by omega, h3, h4, h5, h6, h7⟩
        · rintro (h | ⟨k, h1, h2, h3, h4, h5, h6, h7⟩)
          · exact Or.inl (Or.inl h)
          · by_cases hk : k / 64 = Y
            · have e1 : I + i + (k / 64 - Y) = I + i := by omega
              rw [e1] at h6
              exact Or.inl (Or.inr ⟨k, hk, h4, h5, h6, h7⟩)
            · have e1 : I + i + (k / 64 - Y) = I + (i + 1) + (k / 64 - (Y + 1)) := by omega
              rw [e1] at h6
              have hrow0 : ¬ (k / 64 = Y ∧ x0 ≤ k % 64 ∧ k % 64 < x0 + 8) := by omega
              refine Or.inr ⟨k, by omega, by omega, h3, h4, h5, h6, ?_⟩
              rw [hd1 k, if_neg hrow0]; exact h7

/-! ### Properties of the draw loops that hold for every configuration -/

theorem upd_xor_rel (d e : Nat → Bool) (idx : Nat) (b : Bool) (k : Nat) :
    upd e idx (xor (e idx) b) k = xor (e k) (xor (d k) (upd d idx (xor (d idx) b) k)) := by
  unfold upd
  split
  · rename_i hk
    subst hk
    cases e k <;> cases d k <;> cases b <;> rfl
  · simp

theorem xor_chain (a1 a2 a3 a4 : Bool) :
    xor (xor a1 (xor a2 a3)) (xor a3 a4) = xor a1 (xor a2 a4) := by
  cases a1 <;> cases a2 <;> cases a3 <;> cases a4 <;> rfl

theorem draw_row_rel (config : config_t) (sd Y : Nat) :
    ∀ (n X : Nat) (d : Nat → Bool) (V : Nat → Nat) (e : Nat → Bool) (W : Nat → Nat)
      (d' : Nat → Bool) (V' : Nat → Nat),
    draw_row config sd Y n X d V = some (d', V') →
    ∃ e' W', draw_row config sd Y n X e W = some (e', W') ∧
      ∀ k, e' k = xor (e k) (xor (d k) (d' k)) := by
  intro n
  induction n with
  | zero =>
    intro X d V e W d' V' h
    simp only [draw_row, Option.some.injEq, Prod.mk.injEq] at h
    refine ⟨e, W, rfl, fun k => ?_⟩
    rw [← h.1]; simp
  | succ n ih =>
    intro X d V e W d' V' h
    simp only [draw_row] at h ⊢
    generalize (Y * config.window_width + X) % 2 ^ 32 = idx at h ⊢
    generalize decide (sd &&& (1 <<< n) ≠ 0) = b at h ⊢
    by_cases hlt : idx < 64 * 32
    · rw [if_pos hlt] at h ⊢
      by_cases hb : (X + 1) % 256 ≥ config.window_width
      · rw [if_pos hb] at h ⊢
        simp only [Option.some.injEq, Prod.mk.injEq] at h
        refine ⟨_, _, rfl, fun k => ?_⟩
        rw [← h.1]
        exact upd_xor_rel d e idx b k
      · rw [if_neg hb] at h ⊢
        obtain ⟨e', W', hrun, he⟩ := ih _ _ _ (upd e idx (xor (e idx) b))
          (if (b && e idx) = true then upd W 0xF 1 else W) _ _ h
        refine ⟨e', W', hrun, fun k => ?_⟩
        rw [he k, upd_xor_rel d e idx b k]
        exact xor_chain _ _ _ _
    · rw [if_neg hlt] at h
      exact absurd h (by simp)

theorem draw_sprite_rel (config : config_t) (ram : Nat → Nat) (I x0 : Nat) :
    ∀ (n i Y : Nat) (d : Nat → Bool) (V : Nat → Nat) (e : Nat → Bool) (W : Nat → Nat)
      (d' : Nat → Bool) (V' : Nat → Nat),
    draw_sprite config ram I x0 n i Y d V = some (d', V') →
    ∃ e' W', draw_sprite config ram I x0 n i Y e W = some (e', W') ∧
      ∀ k, e' k = xor (e k) (xor (d k) (d' k)) := by
  intro n
  induction n with
  | zero =>
    intro i Y d V e W d' V' h
    simp only [draw_sprite, Option.some.injEq, Prod.mk.injEq] at h
    refine ⟨e, W, rfl, fun k => ?_⟩
    rw [← h.1]; simp
  | succ n ih =>
    intro i Y d V e W d' V' h
    simp only [draw_sprite] at h ⊢
    by_cases hlt : I + i < 4096
    · rw [if_pos hlt] at h ⊢
      cases hrow : draw_row config (ram (I + i)) Y 8 x0 d V with
      | none => rw [hrow] at h; exact absurd h (by simp)
      | some p =>
        obtain ⟨d1, V1⟩ := p
        rw [hrow] at h
        obtain ⟨e1, W1, hrow2, he1⟩ := draw_row_rel config (ram (I + i)) Y 8 x0 d V e W d1 V1 hrow
        rw [hrow2]
        simp only at h ⊢
        by_cases hb : (Y + 1) % 256 ≥ config.window_height
        · rw [if_pos hb] at h ⊢
          simp only [Option.some.injEq, Prod.mk.injEq] at h
          refine ⟨e1, W1, rfl, fun k => ?_⟩
          rw [← h.1]; exact he1 k
        · rw [if_neg hb] at h ⊢
          obtain ⟨e', W', hrun, he⟩ := ih _ _ _ _ e1 W1 _ _ h
          refine ⟨e', W', hrun, fun k => ?_⟩
          rw [he k, he1 k]
          exact xor_chain _ _ _ _
    · rw [if_neg hlt] at h
      exact absurd h (by simp)

/-- The flag ends at 1 when it was 1 or when some cell went from set to clear. -/
theorem draw_row_flag (config : config_t) (sd Y : Nat) :
    ∀ (n X : Nat) (e : Nat → Bool) (W : Nat → Nat) (e' : Nat → Bool) (W' : Nat → Nat),
    draw_row config sd Y n X e W = some (e', W') →
    (W 15 = 1 ∨ ∃ k, e k = true ∧ e' k = false) → W' 15 = 1 := by
  intro n
  induction n with
  | zero =>
    intro X e W e' W' h hc
    simp only [draw_row, Option.some.injEq, Prod.mk.injEq] at h
    rcases hc with hc | ⟨k, h1, h2⟩
    · rw [← h.2]; exact hc
    · rw [← h.1, h1] at h2; exact absurd h2 (by simp)
  | succ n ih =>
    intro X e W e' W' h hc
    simp only [draw_row] at h
    generalize (Y * config.window_width + X) % 2 ^ 32 = idx at h
    generalize decide (sd &&& (1 <<< n) ≠ 0) = b at h
    obtain ⟨f1, f2, f3⟩ := flag_store W (b && e idx)
    have key : (if (b && e idx) = true then upd W 0xF 1 else W) 15 = 1 ∨
        ∃ k, upd e idx (xor (e idx) b) k = true ∧ e' k = false ∨
          (upd e idx (xor (e idx) b) k = false ∧ e k = true ∧ e' k = false) := by
      rcases hc with hc | ⟨k, h1, h2⟩
      · exact Or.inl (f3.mpr (Or.inl hc))
      · right
        refine ⟨k, ?_⟩
        cases hu : upd e idx (xor (e idx) b) k
        · exact Or.inr ⟨rfl, h1, h2⟩
        · exact Or.inl ⟨rfl, h2⟩
    have key2 : (if (b && e idx) = true then upd W 0xF 1 else W) 15 = 1 ∨
        ∃ k, upd e idx (xor (e idx) b) k = true ∧ e' k = false := by
      rcases key with hk | ⟨k, hk | ⟨hk1, hk2, hk3⟩⟩
      · exact Or.inl hk
      · exact Or.inr ⟨k, hk⟩
      · left
        apply f3.mpr
        right
        unfold upd at hk1
        by_cases hki : k = idx
        · subst hki
          rw [if_pos rfl, hk2] at hk1
          rw [hk2]
          cases b
          · simp at hk1
          · rfl
        · rw [if_neg hki, hk2] at hk1
          exact absurd hk1 (by simp)
    by_cases hlt : idx < 64 * 32
    · rw [if_pos hlt] at h
      by_cases hb : (X + 1) % 256 ≥ config.window_width
      · rw [if_pos hb] at h
        simp only [Option.some.injEq, Prod.mk.injEq] at h
        rcases key2 with hk | ⟨k, hk1, hk2⟩
        · rw [← h.2]; exact hk
        · rw [← h.1, hk1] at hk2
          exact absurd hk2 (by simp)
      · rw [if_neg hb] at h
        exact ih _ _ _ _ _ h key2
    · rw [if_neg hlt] at h
      exact absurd h (by simp)

theorem draw_sprite_flag (config : config_t) (ram : Nat → Nat) (I x0 : Nat) :
    ∀ (n i Y : Nat) (e : Nat → Bool) (W : Nat → Nat) (e' : Nat → Bool) (W' : Nat → Nat),
    draw_sprite config ram I x0 n i Y e W = some (e', W') →
    (W 15 = 1 ∨ ∃ k, e k = true ∧ e' k = false) → W' 15 = 1 := by
  intro n
  induction n with
  | zero =>
    intro i Y e W e' W' h hc
    simp only [draw_sprite, Option.some.injEq, Prod.mk.injEq] at h
    rcases hc with hc | ⟨k, h1, h2⟩
    · rw [← h.2]; exact hc
    · rw [← h.1, h1] at h2; exact absurd h2 (by simp)
  | succ n ih =>
    intro i Y e W e' W' h hc
    simp only [draw_sprite] at h
    by_cases hlt : I + i < 4096
    · rw [if_pos hlt] at h
      cases hrow : draw_row config (ram (I + i)) Y 8 x0 e W with
      | none => rw [hrow] at h; exact absurd h (by simp)
      | some p =>
        obtain ⟨e1, W1⟩ := p
        rw [hrow] at h
        simp only at h
        have key : W1 15 = 1 ∨ ∃ k, e1 k = true ∧ e' k = false := by
          rcases hc with hc | ⟨k, h1, h2⟩
          · exact Or.inl (draw_row_flag config _ Y 8 x0 e W e1 W1 hrow (Or.inl hc))
          · cases hu : e1 k
            · exact Or.inl (draw_row_flag config _ Y 8 x0 e W e1 W1 hrow (Or.inr ⟨k, h1, hu⟩))
            · exact Or.inr ⟨k, hu, h2⟩
        by_cases hb : (Y + 1) % 256 ≥ config.window_height
        · rw [if_pos hb] at h
          simp only [Option.some.injEq, Prod.mk.injEq] at h
          rcases key with hk | ⟨k, hk1, hk2⟩
          · rw [← h.2]; exact hk
          · rw [← h.1, hk1] at hk2
            exact absurd hk2 (by simp)
        · rw [if_neg hb] at h
          exact ih _ _ _ _ _ _ h key
    · rw [if_neg hlt] at h
      exact absurd h (by simp)

/-- The draw loop reads `ram` at the sprite bytes only. -/
theorem draw_sprite_congr (config : config_t) (ram1 ram2 : Nat → Nat) (I x0 : Nat) :
    ∀ (n i Y : Nat) (d : Nat → Bool) (V : Nat → Nat),
    (∀ j, j < n → ram1 (I + (i + j)) = ram2 (I + (i + j))) →
    draw_sprite config ram1 I x0 n i Y d V = draw_sprite config ram2 I x0 n i Y d V := by
  intro n
  induction n with
  | zero => intro i Y d V _; rfl
  | succ n ih =>
    intro i Y d V h
    have h0 : ram1 (I + i) = ram2 (I + i) := h 0 (by omega)
    have hn : ∀ (Y1 : Nat) (d1 : Nat → Bool) (V1 : Nat → Nat),
        draw_sprite config ram1 I x0 n (i + 1) Y1 d1 V1 =
          draw_sprite config ram2 I x0 n (i + 1) Y1 d1 V1 := by
      intro Y1 d1 V1
      apply ih
      intro j hj
      have := h (j + 1) (by omega)
      rw [show i + 1 + j = i + (j + 1) by omega]
      exact this
    simp only [draw_sprite, h0, hn]

/-! ### One step on `DXYN` -/

theorem step_DXYN (s : chip8_t) (config : config_t) (rand X Y N : Nat)
    (hr : InRange s) (hpc : s.PC + 1 < 4096) (hX : X < 16) (hY : Y < 16) (hN : N < 16)
    (hhi : s.ram s.PC = 0xD0 + X) (hlo : s.ram (s.PC + 1) = 16 * Y + N) :
    emulate_instruction s config rand =
      if config.window_width = 0 ∨ config.window_height = 0 then none
      else
        (draw_sprite config s.ram s.I (s.V X % config.window_width % 256) N 0
            (s.V Y % config.window_height % 256) s.display (upd s.V 0xF 0)).map
          (fun p => { s with
            inst := { opcode := 4096 * 13 + 256 * X + (16 * Y + N), NNN := 256 * X + (16 * Y + N),
                      NN := 16 * Y + N, N := N, X := X, Y := Y }
            PC := s.PC + 2
            display := p.1
            V := p.2 }) := by
  have e1 : (16 * Y + N) % 16 = N := by omega
  have e2 : (16 * Y + N) / 16 = Y := by omega
  unfold emulate_instruction
  rw [fetch_decode_eq s 13 X (16 * Y + N) hr hpc hX (by omega) hlo]
  simp only [e1, e2]
  simp only [execute, top_nibble 13 X (16 * Y + N) (by decide) hX (by omega)]
  by_cases hc : config.window_width = 0 ∨ config.window_height = 0
  · simp [hc]
  · simp only [if_neg hc]
    cases draw_sprite config s.ram s.I (s.V X % config.window_width % 256) N 0
        (s.V Y % config.window_height % 256) s.display (upd s.V 0xF 0) with
    | none => simp
    | some p => simp

/-- One step on `DXYN` with the 64x32 display and the sprite inside memory:
the resulting state, its display cell by cell and its flag. -/
theorem step_DXYN_64 (s : chip8_t) (config : config_t) (rand X Y N : Nat)
    (hr : InRange s) (hpc : s.PC + 1 < 4096) (hX : X < 16) (hY : Y < 16) (hN : N < 16)
    (hhi : s.ram s.PC = 0xD0 + X) (hlo : s.ram (s.PC + 1) = 16 * Y + N)
    (hw : config.window_width = 64) (hh : config.window_height = 32)
    (hI : s.I + N ≤ 4096) :
    ∃ d' V', emulate_instruction s config rand = some { s with
        inst := { opcode := 4096 * 13 + 256 * X + (16 * Y + N), NNN := 256 * X + (16 * Y + N),
                  NN := 16 * Y + N, N := N, X := X, Y := Y }
        PC := s.PC + 2
        display := d'
        V := V' } ∧
      (∀ k, d' k = if s.V Y % 32 ≤ k / 64 ∧ k / 64 < s.V Y % 32 + N ∧ k / 64 < 32 ∧
                      s.V X % 64 ≤ k % 64 ∧ k % 64 < s.V X % 64 + 8
                   then xor (s.display k)
                     ((s.ram (s.I + (k / 64 - s.V Y % 32))).testBit (7 - (k % 64 - s.V X % 64)))
                   else s.display k) ∧
      (∀ j, j ≠ 15 → V' j = s.V j) ∧
      (V' 15 = 1 ∨ V' 15 = 0) ∧
      (V' 15 = 1 ↔ ∃ k, s.V Y % 32 ≤ k / 64 ∧ k / 64 < s.V Y % 32 + N ∧ k / 64 < 32 ∧
          s.V X % 64 ≤ k % 64 ∧ k % 64 < s.V X % 64 + 8 ∧
          (s.ram (s.I + (k / 64 - s.V Y % 32))).testBit (7 - (k % 64 - s.V X % 64)) = true ∧
          s.display k = true) := by
  have hx0 : s.V X % 64 % 256 = s.V X % 64 := by omega
  have hy0 : s.V Y % 32 % 256 = s.V Y % 32 := by omega
  obtain ⟨d', V', hrun, hd, hV1, hV2, hV3⟩ :=
    draw_sprite_64 config hw hh s.ram s.I (s.V X % 64) (by omega) N 0 (s.V Y % 32)
      s.display (upd s.V 0xF 0) (by omega) (by omega)
  simp only [Nat.add_zero] at hd hV3
  refine ⟨d', V', ?_, ?_, ?_, ?_, ?_⟩
  · rw [step_DXYN s config rand X Y N hr hpc hX hY hN hhi hlo, if_neg (by rw [hw, hh]; decide),
      hw, hh, hx0, hy0, hrun]
    rfl
  · intro k
    rw [hd k]
  · intro j hj
    rw [hV1 j hj]
    simp [upd, hj]
  · rcases hV2 with h | h
    · exact Or.inl h
    · right; rw [h]; simp [upd]
  · rw [hV3]
    have h0 : ¬ upd s.V 0xF 0 15 = 1 := by simp [upd]
    simp only [h0, false_or]


/-! ## Register arithmetic: `8XY4`, `8XY5`, `8XY7`, `8XY6`, `8XYE` -/

/-- One step on `8XYN`: the state the `switch` runs on. -/
theorem emulate_8XYN (s : chip8_t) (config : config_t) (rand X Y N : Nat)
    (hr : InRange s) (hpc : s.PC + 1 < 4096) (hX : X < 16) (hN : N < 16)
    (hhi : s.ram s.PC = 0x80 + X) (hlo : s.ram (s.PC + 1) = 16 * Y + N) :
    emulate_instruction s config rand =
      execute { s with
        inst := { opcode := 4096 * 8 + 256 * X + (16 * Y + N), NNN := 256 * X + (16 * Y + N),
                  NN := 16 * Y + N, N := N, X := X, Y := Y }
        PC := s.PC + 2 } config rand := by
  have e1 : (16 * Y + N) % 16 = N := by omega
  have e2 : (16 * Y + N) / 16 = Y := by omega
  unfold emulate_instruction
  rw [fetch_decode_eq s 8 X (16 * Y + N) hr hpc hX (by omega) hlo]
  simp only [e1, e2]

theorem bit7 (v : Nat) (h : v < 256) : (v &&& 0x80) >>> 7 = v / 128 := by
  have h1 := Nat.and_two_pow v 7
  have h2 : v.testBit 7 = decide (v / 128 % 2 = 1) := by
    rw [Nat.testBit_to_div_mod]
  rw [show (0x80 : Nat) = 2 ^ 7 from rfl, h1, h2, Nat.shiftRight_eq_div_pow]
  by_cases h3 : v / 128 % 2 = 1
  · rw [decide_eq_true h3]
    show 1 * 2 ^ 7 / 2 ^ 7 = v / 128
    omega
  · rw [decide_eq_false h3]
    show 0 * 2 ^ 7 / 2 ^ 7 = v / 128
    omega

/-- What `8XY4` does when neither register is `VF`: the sum is stored modulo
256, the flag becomes 1 on a carry and keeps its old value otherwise. -/
theorem add_8XY4_off_flag (s : chip8_t) (config : config_t) (rand X Y : Nat)
    (hr : InRange s) (hpc : s.PC + 1 < 4096) (hX : X < 15) (hY : Y < 15)
    (hhi : s.ram s.PC = 0x80 + X) (hlo : s.ram (s.PC + 1) = 16 * Y + 4) :
    ∃ s1, emulate_instruction s config rand = some s1 ∧
      s1.V X = (s.V X + s.V Y) % 256 ∧
      s1.V 0xF = (if s.V X + s.V Y > 255 then 1 else s.V 0xF) := by
  have hx := hr.V_lt X
  have hy := hr.V_lt Y
  have h16 : (s.V X + s.V Y) % 65536 = s.V X + s.V Y := by omega
  rw [emulate_8XYN s config rand X Y 4 hr hpc (by omega) (by decide) hhi hlo]
  simp only [execute, top_nibble 8 X (16 * Y + 4) (by decide) (by omega) (by omega)]
  refine ⟨_, rfl, ?_, ?_⟩
  · by_cases hc : s.V X + s.V Y > 255 <;>
      simp [upd, h16, hc, show X ≠ 15 by omega, show Y ≠ 15 by omega]
  · by_cases hc : s.V X + s.V Y > 255 <;>
      simp [upd, h16, hc, show X ≠ 15 by omega, show Y ≠ 15 by omega, show 15 ≠ X by omega]

/-- What `8XY5` does when neither register is `VF`: the difference is stored
modulo 256 and the flag is 1 exactly when `VX ≥ VY`, both on the old values. -/
theorem sub_8XY5_off_flag (s : chip8_t) (config : config_t) (rand X Y : Nat)
    (hr : InRange s) (hpc : s.PC + 1 < 4096) (hX : X < 15) (hY : Y < 15)
    (hhi : s.ram s.PC = 0x80 + X) (hlo : s.ram (s.PC + 1) = 16 * Y + 5) :
    ∃ s1, emulate_instruction s config rand = some s1 ∧
      s1.V X = (s.V X + 256 - s.V Y) % 256 ∧
      s1.V 0xF = (if s.V X ≥ s.V Y then 1 else 0) := by
  have hx := hr.V_lt X
  have hy := hr.V_lt Y
  have hu : u8 ((s.V X : Int) - (s.V Y : Int)) = (s.V X + 256 - s.V Y) % 256 := by
    unfold u8; omega
  rw [emulate_8XYN s config rand X Y 5 hr hpc (by omega) (by decide) hhi hlo]
  simp only [execute, top_nibble 8 X (16 * Y + 5) (by decide) (by omega) (by omega)]
  refine ⟨_, rfl, ?_, ?_⟩
  · simp [upd, hu, show X ≠ 15 by omega, show Y ≠ 15 by omega]
  · simp [upd, show 15 ≠ X by omega]

/-- What `8XY7` does when neither register is `VF`: the difference is stored
modulo 256 and the flag is 1 exactly when `VX ≤ VY`, both on the old values. -/
theorem rsub_8XY7_off_flag (s : chip8_t) (config : config_t) (rand X Y : Nat)
    (hr : InRange s) (hpc : s.PC + 1 < 4096) (hX : X < 15) (hY : Y < 15)
    (hhi : s.ram s.PC = 0x80 + X) (hlo : s.ram (s.PC + 1) = 16 * Y + 7) :
    ∃ s1, emulate_instruction s config rand = some s1 ∧
      s1.V X = (s.V Y + 256 - s.V X) % 256 ∧
      s1.V 0xF = (if s.V X ≤ s.V Y then 1 else 0) := by
  have hx := hr.V_lt X
  have hy := hr.V_lt Y
  have hu : u8 ((s.V Y : Int) - (s.V X : Int)) = (s.V Y + 256 - s.V X) % 256 := by
    unfold u8; omega
  rw [emulate_8XYN s config rand X Y 7 hr hpc (by omega) (by decide) hhi hlo]
  simp only [execute, top_nibble 8 X (16 * Y + 7) (by decide) (by omega) (by omega)]
  refine ⟨_, rfl, ?_, ?_⟩
  · simp [upd, hu, show X ≠ 15 by omega, show Y ≠ 15 by omega]
  · simp [upd, show 15 ≠ X by omega]

/-- What the shifts do when `X` is not `0xF`: `VX` is shifted and the flag is
the bit of the old `VX` that was shifted out. -/
theorem shift_off_flag (s : chip8_t) (config : config_t) (rand X Y : Nat)
    (hr : InRange s) (hpc : s.PC + 1 < 4096) (hX : X < 15) (hY : Y < 16)
    (hhi : s.ram s.PC = 0x80 + X) :
    (s.ram (s.PC + 1) = 16 * Y + 6 →
      ∃ s1, emulate_instruction s config rand = some s1 ∧
        s1.V X = s.V X / 2 ∧ s1.V 0xF = s.V X % 2) ∧
    (s.ram (s.PC + 1) = 16 * Y + 0xE →
      ∃ s1, emulate_instruction s config rand = some s1 ∧
        s1.V X = (2 * s.V X) % 256 ∧ s1.V 0xF = s.V X / 128) := by
  have hx := hr.V_lt X
  constructor
  · intro hlo
    rw [emulate_8XYN s config rand X Y 6 hr hpc (by omega) (by decide) hhi hlo]
    simp only [execute, top_nibble 8 X (16 * Y + 6) (by decide) (by omega) (by omega)]
    refine ⟨_, rfl, ?_, ?_⟩
    · simp [upd, show X ≠ 15 by omega, Nat.shiftRight_eq_div_pow]
    · simp [upd, show 15 ≠ X by omega, Nat.and_one_is_mod]
  · intro hlo
    rw [emulate_8XYN s config rand X Y 0xE hr hpc (by omega) (by decide) hhi hlo]
    simp only [execute, top_nibble 8 X (16 * Y + 0xE) (by decide) (by omega) (by omega)]
    refine ⟨_, rfl, ?_, ?_⟩
    · simp [upd, show X ≠ 15 by omega, Nat.shiftLeft_eq, Nat.mul_comm]
    · simp [upd, show 15 ≠ X by omega, bit7 _ hx]

/-- C1, evaluated: `8XY4` stores 1 into `VF` on a carry and otherwise leaves
`VF` as it was.  On `8014` with `V0 = 1`, `V1 = 2`, `VF = 1` the sum 3 does not
exceed 255 and `VF` is still 1 afterwards; on `80F4` with `V0 = 200`,
`VF = 100` the flag is stored first and then added, so `V0` ends as 201, not
`(200 + 100) mod 256 = 44`. -/
theorem add_8XY4_flag_evaluated :
    (emulate_instruction add_stale_flag_input set_config_from_args 0).map
        (fun s => (s.V 0, s.V 0xF)) = some (3, 1) ∧
    (emulate_instruction add_flag_operand_input set_config_from_args 0).map
        (fun s => (s.V 0, s.V 0xF)) = some (201, 1) := by
  decide

/-- C2, evaluated: `8XY5` stores the flag into `VF` before it subtracts.  On
`80F5` with `V0 = 10`, `VF = 3` the subtrahend read is the flag 1, so `V0` ends
as 9, not 7; on `8F05` with `VF = 5`, `V0 = 3` the difference overwrites the
flag, so `VF` ends as `(1 - 3) mod 256 = 254`, not 1. -/
theorem sub_8XY5_flag_evaluated :
    (emulate_instruction sub_flag_operand_input set_config_from_args 0).map
        (fun s => (s.V 0, s.V 0xF)) = some (9, 1) ∧
    (emulate_instruction sub_flag_target_input set_config_from_args 0).map
        (fun s => (s.V 0, s.V 0xF)) = some (3, 254) := by
  decide

/-- C3, evaluated: `8XY7` stores the flag into `VF` before it subtracts.  On
`80F7` with `V0 = 3`, `VF = 10` the minuend read is the flag 1, so `V0` ends as
`(1 - 3) mod 256 = 254`, not 7; on `8F07` with `VF = 3`, `V0 = 10` the
difference overwrites the flag, so `VF` ends as `10 - 1 = 9`, not 1. -/
theorem rsub_8XY7_flag_evaluated :
    (emulate_instruction rsub_flag_operand_input set_config_from_args 0).map
        (fun s => (s.V 0, s.V 0xF)) = some (254, 1) ∧
    (emulate_instruction rsub_flag_target_input set_config_from_args 0).map
        (fun s => (s.V 0, s.V 0xF)) = some (10, 9) := by
  decide

/-- C4, evaluated: the shifts store the outgoing bit into `VF` and then shift
`VX`; with `X = 0xF` the shift acts on the bit just stored.  On `8F06` with
`VF = 3` the bit shifted out is 1 and `VF` ends as 0; on `8F0E` with
`VF = 0x80` bit 7 is 1 and `VF` ends as 2. -/
theorem shift_flag_evaluated :
    (emulate_instruction shr_flag_target_input set_config_from_args 0).map
        (fun s => s.V 0xF) = some 0 ∧
    (emulate_instruction shl_flag_target_input set_config_from_args 0).map
        (fun s => s.V 0xF) = some 2 := by
  decide

/-! ## Add immediate: `7XNN` -/

/-- C5: `7XNN` puts `(VX + NN) mod 256` into `VX`, advances `PC` by 2 and
leaves every other register, `I`, memory, the stack, the display, the timers,
the keypad and the run state unchanged; and `6XNN` followed by `7XKK` leaves
`VX = (NN + KK) mod 256` with `PC` advanced by 4. -/
theorem add_immediate_7XNN (s : chip8_t) (config : config_t) (rand X NN : Nat)
    (hr : InRange s) (hpc : s.PC + 1 < 4096) (hX : X < 16) :
    (s.ram s.PC = 0x70 + X → s.ram (s.PC + 1) = NN →
      ∃ s1, emulate_instruction s config rand = some s1 ∧
        s1.V X = (s.V X + NN) % 256 ∧ s1.PC = s.PC + 2 ∧
        (∀ i, i ≠ X → s1.V i = s.V i) ∧ s1.I = s.I ∧ s1.ram = s.ram ∧
        s1.stack = s.stack ∧ s1.stack_ptr = s.stack_ptr ∧ s1.display = s.display ∧
        s1.delay_timer = s.delay_timer ∧ s1.sound_timer = s.sound_timer ∧
        s1.keypad = s.keypad ∧ s1.state = s.state) ∧
    (∀ KK rand2, s.PC + 3 < 4096 → s.ram s.PC = 0x60 + X → s.ram (s.PC + 1) = NN →
      s.ram (s.PC + 2) = 0x70 + X → s.ram (s.PC + 3) = KK →
      ∃ s1 s2, emulate_instruction s config rand = some s1 ∧
        emulate_instruction s1 config rand2 = some s2 ∧
        s2.V X = (NN + KK) % 256 ∧ s2.PC = s.PC + 4) := by
  constructor
  · intro hhi hlo
    refine ⟨_, step_7XNN s config rand X NN hr hpc hX hhi hlo, ?_⟩
    refine ⟨by simp [upd], rfl, fun i hi => ?_, rfl, rfl, rfl, rfl, rfl, rfl, rfl, rfl, rfl⟩
    simp [upd, hi]
  · intro KK rand2 hpc3 h0 h1 h2 h3
    have hN : NN < 256 := h1 ▸ hr.ram_lt _
    have hr1 : InRange { s with
        inst := { opcode := 4096 * 6 + 256 * X + NN, NNN := 256 * X + NN, NN := NN,
                  N := NN % 16, X := X, Y := NN / 16 }
        PC := s.PC + 2
        V := upd s.V X NN } := by
      refine ⟨hr.ram_lt, hr.stack_lt, fun i => ?_, hr.I_lt, ?_, hr.delay_lt, hr.sound_lt⟩
      · show upd s.V X NN i < 256
        unfold upd
        split
        · exact hN
        · exact hr.V_lt i
      · show s.PC + 2 < 65536
        omega
    refine ⟨_, _, step_6XNN s config rand X NN hr hpc hX h0 h1,
      step_7XNN _ config rand2 X KK hr1 (by show s.PC + 2 + 1 < 4096; omega) hX h2 h3, ?_, ?_⟩
    · simp [upd]
    · show s.PC + 2 + 2 = s.PC + 4
      omega

theorem inRange_load_add_input : InRange load_add_input :=
  ⟨bytes_at_lt _ _ (by decide), fun _ => (by decide : (0 : Nat) < 65536),
    fun _ => (by decide : (0 : Nat) < 256), by decide, by decide, by decide, by decide⟩

theorem inRange_add_wrap_input : InRange add_wrap_input :=
  ⟨bytes_at_lt _ _ (by decide), fun _ => (by decide : (0 : Nat) < 65536),
    regs_lt _ (by decide), by decide, by decide, by decide, by decide⟩

/-- C5 at concrete inputs: `6102` then `7105` at `0x200` gives `V1 = 7` and
`PC = 0x204`; `7AFF` with `VA = 3` gives `VA = 2` and leaves `VF = 1`. -/
theorem add_immediate_7XNN_witness :
    (∃ s1 s2, emulate_instruction load_add_input set_config_from_args 0 = some s1 ∧
      emulate_instruction s1 set_config_from_args 0 = some s2 ∧
      s2.V 1 = 7 ∧ s2.PC = 0x204) ∧
    (∃ s1, emulate_instruction add_wrap_input set_config_from_args 0 = some s1 ∧
      s1.V 0xA = 2 ∧ s1.PC = 0x204 ∧ s1.V 0xF = 1) := by
  constructor
  · obtain ⟨s1, s2, h1, h2, h3, h4⟩ :=
      (add_immediate_7XNN load_add_input set_config_from_args 0 1 2
        inRange_load_add_input (by decide) (by decide)).2 5 0
        (by decide) (by decide) (by decide) (by decide) (by decide)
    exact ⟨s1, s2, h1, h2, h3, h4⟩
  · obtain ⟨s1, h1, h2, h3, h4, _⟩ :=
      (add_immediate_7XNN add_wrap_input set_config_from_args 0 0xA 0xFF
        inRange_add_wrap_input (by decide) (by decide)).1 (by decide) (by decide)
    exact ⟨s1, h1, h2, h3, (h4 0xF (by decide)).trans (by decide)⟩

/-! ## Draw sprite: `DXYN` -/

/-- C6: `DXYN` on the 64x32 display with the sprite inside memory.  With
`x0 = VX mod 64` and `y0 = VY mod 32`, the cell in row `r` and column `c` becomes
its old value XOR bit `7 - (c - x0)` of `ram[I + (r - y0)]` when
`y0 ≤ r < min (y0 + N) 32` and `x0 ≤ c < min (x0 + 8) 64`, and keeps its value
otherwise. -/
theorem draw_DXYN_cells (s : chip8_t) (config : config_t) (rand X Y N : Nat)
    (hr : InRange s) (hpc : s.PC + 1 < 4096) (hX : X < 16) (hY : Y < 16) (hN : N < 16)
    (hhi : s.ram s.PC = 0xD0 + X) (hlo : s.ram (s.PC + 1) = 16 * Y + N)
    (hw : config.window_width = 64) (hh : config.window_height = 32)
    (hI : s.I + N ≤ 4096) :
    ∃ s1, emulate_instruction s config rand = some s1 ∧
      ∀ r c, r < 32 → c < 64 →
        s1.display (r * 64 + c) =
          if s.V Y % 32 ≤ r ∧ r < min (s.V Y % 32 + N) 32 ∧
              s.V X % 64 ≤ c ∧ c < min (s.V X % 64 + 8) 64
          then xor (s.display (r * 64 + c))
            ((s.ram (s.I + (r - s.V Y % 32))).testBit (7 - (c - s.V X % 64)))
          else s.display (r * 64 + c) := by
  obtain ⟨d', V', hrun, hd, -, -, -⟩ :=
    step_DXYN_64 s config rand X Y N hr hpc hX hY hN hhi hlo hw hh hI
  refine ⟨_, hrun, fun r c hr' hc => ?_⟩
  show d' (r * 64 + c) = _
  have e1 : (r * 64 + c) / 64 = r := by omega
  have e2 : (r * 64 + c) % 64 = c := by omega
  rw [hd (r * 64 + c), e1, e2]
  by_cases hin : s.V Y % 32 ≤ r ∧ r < s.V Y % 32 + N ∧ r < 32 ∧
      s.V X % 64 ≤ c ∧ c < s.V X % 64 + 8
  · rw [if_pos hin, if_pos (by omega)]
  · rw [if_neg hin, if_neg (by omega)]

/-- C7: `DXYN` on the 64x32 display with the sprite inside memory ends with
`VF = 1` exactly when some sprite bit equal to 1 inside the clipped region
falls on a cell that was set before the draw, and with `VF = 0` otherwise,
whatever `VF` held before. -/
theorem draw_DXYN_collision (s : chip8_t) (config : config_t) (rand X Y N : Nat)
    (hr : InRange s) (hpc : s.PC + 1 < 4096) (hX : X < 16) (hY : Y < 16) (hN : N < 16)
    (hhi : s.ram s.PC = 0xD0 + X) (hlo : s.ram (s.PC + 1) = 16 * Y + N)
    (hw : config.window_width = 64) (hh : config.window_height = 32)
    (hI : s.I + N ≤ 4096) :
    ∃ s1, emulate_instruction s config rand = some s1 ∧
      (s1.V 0xF = 1 ↔ ∃ r c, s.V Y % 32 ≤ r ∧ r < min (s.V Y % 32 + N) 32 ∧
          s.V X % 64 ≤ c ∧ c < min (s.V X % 64 + 8) 64 ∧
          (s.ram (s.I + (r - s.V Y % 32))).testBit (7 - (c - s.V X % 64)) = true ∧
          s.display (r * 64 + c) = true) ∧
      (s1.V 0xF = 1 ∨ s1.V 0xF = 0) := by
  obtain ⟨d', V', hrun, -, -, hV2, hV3⟩ :=
    step_DXYN_64 s config rand X Y N hr hpc hX hY hN hhi hlo hw hh hI
  refine ⟨_, hrun, ?_, hV2⟩
  show V' 15 = 1 ↔ _
  rw [hV3]
  constructor
  · rintro ⟨k, h1, h2, h3, h4, h5, h6, h7⟩
    refine ⟨k / 64, k % 64, h1, by omega, h4, by omega, h6, ?_⟩
    rw [Nat.div_add_mod' k 64]; exact h7
  · rintro ⟨r, c, h1, h2, h3, h4, h5, h6⟩
    have e1 : (r * 64 + c) / 64 = r := by omega
    have e2 : (r * 64 + c) % 64 = c := by omega
    refine ⟨r * 64 + c, ?_, ?_, ?_, ?_, ?_, ?_, h6⟩
    · rw [e1]; exact h1
    · rw [e1]; omega
    · rw [e1]; omega
    · rw [e2]; exact h3
    · rw [e2]; omega
    · rw [e1, e2]; exact h5

/-- On the 32-row display the outer draw loop leaves after the row that reaches
the bottom edge: asking for `n` rows from row `Y` runs `min n (32 - Y)` rows. -/
theorem draw_sprite_clip (config : config_t) (hh : config.window_height = 32)
    (ram : Nat → Nat) (I x0 : Nat) :
    ∀ (n i Y : Nat) (d : Nat → Bool) (V : Nat → Nat), Y < 32 →
    draw_sprite config ram I x0 n i Y d V =
      draw_sprite config ram I x0 (min n (32 - Y)) i Y d V := by
  intro n
  induction n with
  | zero => intro i Y d V _; rw [Nat.zero_min]
  | succ n ih =>
    intro i Y d V hY
    rw [show min (n + 1) (32 - Y) = min n (31 - Y) + 1 by omega]
    unfold draw_sprite
    by_cases hI : I + i < 4096
    · rw [if_pos hI, if_pos hI]
      cases draw_row config (ram (I + i)) Y 8 x0 d V with
      | none => rfl
      | some p =>
        obtain ⟨d1, V1⟩ := p
        simp only [hh]
        rw [show (Y + 1) % 256 = Y + 1 by omega]
        by_cases hb : Y + 1 ≥ 32
        · rw [if_pos hb, if_pos hb]
        · rw [if_neg hb, if_neg hb, ih (i + 1) (Y + 1) d1 V1 (by omega),
            show 32 - (Y + 1) = 31 - Y by omega]
    · rw [if_neg hI, if_neg hI]

/-- C8, refuted as stated: with `I = 0xFFF` the draw `D002` takes its first
sprite row `80` from `ram[0xFFF]` and reads its second row from `ram[0x1000]`,
outside the 4096-byte memory, so already the first draw has no defined result
and no state with the display restored follows.  (The byte behind `ram` in
`chip8_t` is `display[0]`, the cell the first row has just set, so the two
draws would not even use the same second row.) -/
theorem draw_twice_refuted :
    draw_outside_input.ram draw_outside_input.PC = 0xD0 ∧
    draw_outside_input.ram (draw_outside_input.PC + 1) = 0x02 ∧
    draw_outside_input.ram draw_outside_input.I = 0x80 ∧
    draw_outside_input.I + 2 = 4097 ∧
    (emulate_instruction draw_outside_input set_config_from_args 0).isSome = false := by
  decide

/-- C8, amended: on the 64x32 display, when every sprite row the draw reads
lies inside memory (`I + i < 4096` for each row `i < N` above the bottom edge),
a `DXYN` returns a state, and a second `DXYN` with the same `X`, `Y`, `N`, run
on the resulting display with the same `I`, the same `VX` and `VY` and the same
sprite bytes in those rows, returns a state too, whose display is exactly the
display before the first draw. -/
theorem draw_twice_restores (s : chip8_t) (config : config_t) (rand X Y N : Nat)
    (hr : InRange s) (hpc : s.PC + 1 < 4096) (hX : X < 16) (hY : Y < 16) (hN : N < 16)
    (hhi : s.ram s.PC = 0xD0 + X) (hlo : s.ram (s.PC + 1) = 16 * Y + N)
    (hw : config.window_width = 64) (hh : config.window_height = 32)
    (hI : ∀ i, i < N → i < 32 - s.V Y % 32 → s.I + i < 4096) :
    ∃ s1, emulate_instruction s config rand = some s1 ∧
      ∀ (t : chip8_t) (rand2 : Nat), InRange t → t.PC + 1 < 4096 →
        t.ram t.PC = 0xD0 + X → t.ram (t.PC + 1) = 16 * Y + N →
        t.display = s1.display → t.I = s.I → t.V X = s.V X → t.V Y = s.V Y →
        (∀ i, i < N → i < 32 - s.V Y % 32 → t.ram (s.I + i) = s.ram (s.I + i)) →
        ∃ t1, emulate_instruction t config rand2 = some t1 ∧ t1.display = s.display := by
  have hc : ¬ (config.window_width = 0 ∨ config.window_height = 0) := by
    rw [hw, hh]; decide
  have hx0 : s.V X % 64 % 256 = s.V X % 64 := by omega
  have hy0 : s.V Y % 32 % 256 = s.V Y % 32 := by omega
  have hy : s.V Y % 32 < 32 := Nat.mod_lt _ (by decide)
  -- the first draw returns
  have hex : ∃ d1 V1, draw_sprite config s.ram s.I (s.V X % 64) N 0 (s.V Y % 32) s.display
      (upd s.V 0xF 0) = some (d1, V1) := by
    rw [draw_sprite_clip config hh s.ram s.I _ N 0 _ _ _ hy]
    by_cases h0 : min N (32 - s.V Y % 32) = 0
    · rw [h0]; exact ⟨_, _, rfl⟩
    · have hlast := hI (min N (32 - s.V Y % 32) - 1) (by omega) (by omega)
      obtain ⟨d1, V1, hrun, -⟩ := draw_sprite_64 config hw hh s.ram s.I (s.V X % 64)
        (Nat.mod_lt _ (by decide)) (min N (32 - s.V Y % 32)) 0 (s.V Y % 32) s.display
        (upd s.V 0xF 0) hy (by omega)
      exact ⟨d1, V1, hrun⟩
  obtain ⟨d1, V1, hrun⟩ := hex
  have hs1 : emulate_instruction s config rand = some { s with
      inst := { opcode := 4096 * 13 + 256 * X + (16 * Y + N), NNN := 256 * X + (16 * Y + N),
                NN := 16 * Y + N, N := N, X := X, Y := Y }
      PC := s.PC + 2
      display := d1
      V := V1 } := by
    rw [step_DXYN s config rand X Y N hr hpc hX hY hN hhi hlo, if_neg hc, hw, hh, hx0, hy0,
      hrun]
    rfl
  refine ⟨_, hs1, ?_⟩
  · intro t rand2 ht hpc2 hhi2 hlo2 hdisp hIt hVX hVY hram
    have hd1 : t.display = d1 := hdisp
    obtain ⟨e', W', hrun2, he⟩ := draw_sprite_rel config s.ram s.I _ N 0 _ s.display
      (upd s.V 0xF 0) d1 (upd t.V 0xF 0) d1 V1 hrun
    have hcongr : draw_sprite config t.ram s.I (s.V X % 64) N 0 (s.V Y % 32) d1
        (upd t.V 0xF 0) =
        draw_sprite config s.ram s.I (s.V X % 64) N 0 (s.V Y % 32) d1 (upd t.V 0xF 0) := by
      rw [draw_sprite_clip config hh t.ram s.I _ N 0 _ _ _ hy,
        draw_sprite_clip config hh s.ram s.I _ N 0 _ _ _ hy]
      exact draw_sprite_congr config t.ram s.ram s.I _ _ 0 _ d1 _
        (fun j hj => by rw [Nat.zero_add]; exact hram j (by omega) (by omega))
    rw [step_DXYN t config rand2 X Y N ht hpc2 hX hY hN hhi2 hlo2, if_neg hc, hw, hh,
      hIt, hVX, hVY, hx0, hy0, hd1, hcongr, hrun2]
    refine ⟨_, rfl, ?_⟩
    funext k
    show e' k = s.display k
    rw [he k]
    cases s.display k <;> cases d1 k <;> rfl

/-- C9: in the setting of C8, when the first draw turned some display cell
from off to on, the second draw ends with `VF = 1`. -/
theorem draw_twice_collides (s t s1 : chip8_t) (config : config_t)
    (rand rand2 X Y N : Nat)
    (hr : InRange s) (hpc : s.PC + 1 < 4096) (hX : X < 16) (hY : Y < 16) (hN : N < 16)
    (hhi : s.ram s.PC = 0xD0 + X) (hlo : s.ram (s.PC + 1) = 16 * Y + N)
    (ht : InRange t) (hpc2 : t.PC + 1 < 4096)
    (hhi2 : t.ram t.PC = 0xD0 + X) (hlo2 : t.ram (t.PC + 1) = 16 * Y + N)
    (h1 : emulate_instruction s config rand = some s1)
    (hdisp : t.display = s1.display) (hI : t.I = s.I)
    (hVX : t.V X = s.V X) (hVY : t.V Y = s.V Y)
    (hram : ∀ i, i < N → t.ram (s.I + i) = s.ram (s.I + i))
    (hon : ∃ k, k < 64 * 32 ∧ s.display k = false ∧ s1.display k = true) :
    ∃ t1, emulate_instruction t config rand2 = some t1 ∧ t1.V 0xF = 1 := by
  rw [step_DXYN s config rand X Y N hr hpc hX hY hN hhi hlo] at h1
  rw [step_DXYN t config rand2 X Y N ht hpc2 hX hY hN hhi2 hlo2]
  by_cases hc : config.window_width = 0 ∨ config.window_height = 0
  · rw [if_pos hc] at h1
    exact absurd h1 (by simp)
  · rw [if_neg hc] at h1
    rw [if_neg hc]
    cases hrun : draw_sprite config s.ram s.I (s.V X % config.window_width % 256) N 0
        (s.V Y % config.window_height % 256) s.display (upd s.V 0xF 0) with
    | none => rw [hrun] at h1; exact absurd h1 (by simp)
    | some p =>
      obtain ⟨d1, V1⟩ := p
      rw [hrun] at h1
      simp only [Option.map_some', Option.some.injEq] at h1
      have hs1 : s1.display = d1 := by rw [← h1]
      have hd1 : t.display = d1 := by rw [hdisp, hs1]
      obtain ⟨e', W', hrun2, he⟩ := draw_sprite_rel config s.ram s.I _ N 0 _ s.display
        (upd s.V 0xF 0) d1 (upd t.V 0xF 0) d1 V1 hrun
      rw [hI, hVX, hVY, hd1, draw_sprite_congr config t.ram s.ram s.I _ N 0 _ d1 _
        (fun j hj => by rw [Nat.zero_add]; exact hram j hj), hrun2]
      refine ⟨_, rfl, ?_⟩
      show W' 15 = 1
      obtain ⟨k, -, hk1, hk2⟩ := hon
      rw [hs1] at hk2
      refine draw_sprite_flag config s.ram s.I _ N 0 _ d1 _ e' W' hrun2 (Or.inr ⟨k, hk2, ?_⟩)
      rw [he k, hk1, hk2]
      rfl

theorem inRange_glyph_input : InRange glyph_input := by
  refine ⟨fun a => ?_, fun _ => (by decide : (0 : Nat) < 65536), regs_lt _ (by decide),
    by decide, by decide, by decide, by decide⟩
  show (if a < 5 then bytes_at 0 [0xF0, 0x90, 0x90, 0x90, 0xF0] a
    else bytes_at 0x200 [0xD0, 0x05, 0xD0, 0x05] a) < 256
  split
  · exact bytes_at_lt _ _ (by decide) a
  · exact bytes_at_lt _ _ (by decide) a

/-- C6 at a concrete input: glyph 0 drawn at column 0, row 0 with height 5 on a
clear display sets columns 0..3 of the top row and leaves columns 4..7 clear. -/
theorem draw_DXYN_cells_witness :
    ∃ s1, emulate_instruction glyph_input set_config_from_args 0 = some s1 ∧
      (List.range 8).map s1.display = [true, true, true, true, false, false, false, false] := by
  obtain ⟨s1, h1, h2⟩ := draw_DXYN_cells glyph_input set_config_from_args 0 0 0 5
    inRange_glyph_input (by decide) (by decide) (by decide) (by decide) (by decide)
    (by decide) rfl rfl (by decide)
  refine ⟨s1, h1, ?_⟩
  have e : ∀ c, c < 8 → s1.display c = decide (c < 4) := by
    intro c hc
    have h := h2 0 c (by decide) (by omega)
    rw [Nat.zero_mul, Nat.zero_add] at h
    rw [h]
    interval_cases c <;> decide
  show [s1.display 0, s1.display 1, s1.display 2, s1.display 3, s1.display 4, s1.display 5,
    s1.display 6, s1.display 7] = _
  rw [e 0 (by decide), e 1 (by decide), e 2 (by decide), e 3 (by decide), e 4 (by decide),
    e 5 (by decide), e 6 (by decide), e 7 (by decide)]
  decide

/-- C7 at a concrete input: the draw of glyph 0 on a clear display, started
with `VF = 1`, ends with `VF = 0`. -/
theorem draw_DXYN_collision_witness :
    glyph_input.V 0xF = 1 ∧
    ∃ s1, emulate_instruction glyph_input set_config_from_args 0 = some s1 ∧ s1.V 0xF = 0 := by
  obtain ⟨s1, h1, h2, h3⟩ := draw_DXYN_collision glyph_input set_config_from_args 0 0 0 5
    inRange_glyph_input (by decide) (by decide) (by decide) (by decide) (by decide)
    (by decide) rfl rfl (by decide)
  refine ⟨by decide, s1, h1, ?_⟩
  rcases h3 with h | h
  · obtain ⟨r, c, -, -, -, -, -, hset⟩ := h2.mp h
    exact absurd hset Bool.false_ne_true
  · exact h

/-- The state after the first `D005` of `glyph_input`. -/
theorem glyph_first_draw :
    ∃ s1, emulate_instruction glyph_input set_config_from_args 0 = some s1 ∧
      InRange s1 ∧ s1.PC = 0x202 ∧ s1.ram = glyph_input.ram ∧ s1.I = 0 ∧ s1.V 0 = 0 ∧
      s1.display 0 = true := by
  obtain ⟨d', V', hrun, hd, hV1, hV2, -⟩ :=
    step_DXYN_64 glyph_input set_config_from_args 0 0 0 5
      inRange_glyph_input (by decide) (by decide) (by decide) (by decide) (by decide)
      (by decide) rfl rfl (by decide)
  refine ⟨_, hrun, ⟨inRange_glyph_input.ram_lt, fun _ => (by decide : (0 : Nat) < 65536),
    fun j => ?_, inRange_glyph_input.I_lt, (by decide : glyph_input.PC + 2 < 65536),
    inRange_glyph_input.delay_lt, inRange_glyph_input.sound_lt⟩, rfl, rfl, rfl,
    (hV1 0 (by decide)).trans (by decide), ?_⟩
  · show V' j < 256
    by_cases hj : j = 15
    · subst hj
      rcases hV2 with h | h <;> omega
    · rw [hV1 j hj]
      exact inRange_glyph_input.V_lt j
  · show d' 0 = true
    rw [hd 0]
    decide

/-- C8 (amended) at a concrete input: `D005` twice on glyph 0 gives back the
clear display. -/
theorem draw_twice_restores_witness :
    ∃ s1 t1, emulate_instruction glyph_input set_config_from_args 0 = some s1 ∧
      emulate_instruction s1 set_config_from_args 0 = some t1 ∧
      t1.display = glyph_input.display := by
  obtain ⟨s1, h1, h2⟩ := draw_twice_restores glyph_input set_config_from_args 0 0 0 5
    inRange_glyph_input (by decide) (by decide) (by decide) (by decide) (by decide)
    (by decide) rfl rfl (fun i hi _ => by
      show 0 + i < 4096
      omega)
  obtain ⟨s1', h1', hr1, hpc1, hram1, hI1, hV1, -⟩ := glyph_first_draw
  have e : s1' = s1 := Option.some.inj (h1'.symm.trans h1)
  subst e
  obtain ⟨t1, h3, h4⟩ := h2 s1' 0 hr1 (by rw [hpc1]; decide) (by rw [hpc1, hram1]; decide)
    (by rw [hpc1, hram1]; decide) rfl hI1 hV1 hV1 (fun i _ _ => by rw [hram1])
  exact ⟨s1', t1, h1, h3, h4⟩

/-- C9 at a concrete input: the first `D005` sets cell 0 of the clear display,
and the second `D005` ends with `VF = 1`. -/
theorem draw_twice_collides_witness :
    ∃ s1 t1, emulate_instruction glyph_input set_config_from_args 0 = some s1 ∧
      emulate_instruction s1 set_config_from_args 0 = some t1 ∧
      glyph_input.display 0 = false ∧ s1.display 0 = true ∧ t1.V 0xF = 1 := by
  obtain ⟨s1, h1, hr1, hpc1, hram1, hI1, hV1, hon⟩ := glyph_first_draw
  obtain ⟨t1, h2, h3⟩ := draw_twice_collides glyph_input s1 s1 set_config_from_args 0 0 0 0 5
    inRange_glyph_input (by decide) (by decide) (by decide) (by decide) (by decide)
    (by decide) hr1 (by rw [hpc1]; decide) (by rw [hpc1, hram1]; decide)
    (by rw [hpc1, hram1]; decide) h1 rfl hI1 hV1 hV1 (fun i _ => by rw [hram1])
    ⟨0, by decide, rfl, hon⟩
  exact ⟨s1, t1, h1, h2, rfl, hon, h3⟩

/-! ## Timers: `update_timer` -/

/-- One tick: each timer goes down by one unless it is already zero. -/
theorem update_timer_eq (s : chip8_t) (hd : s.delay_timer < 256) (hs : s.sound_timer < 256) :
    update_timer s =
      { s with delay_timer := s.delay_timer - 1, sound_timer := s.sound_timer - 1 } := by
  have e1 : 0 < s.delay_timer → u8 ((s.delay_timer : Int) - 1) = s.delay_timer - 1 := by
    unfold u8; omega
  have e2 : 0 < s.sound_timer → u8 ((s.sound_timer : Int) - 1) = s.sound_timer - 1 := by
    unfold u8; omega
  have z1 : ¬ 0 < s.delay_timer → s.delay_timer = s.delay_timer - 1 := by omega
  have z2 : ¬ 0 < s.sound_timer → s.sound_timer = s.sound_timer - 1 := by omega
  unfold update_timer
  by_cases h1 : 0 < s.delay_timer <;> by_cases h2 : 0 < s.sound_timer
  · simp only [gt_iff_lt, h1, h2, if_true, e1 h1, e2 h2]
  · simp only [gt_iff_lt, h1, h2, if_true, if_false, e1 h1, ← z2 h2]
  · simp only [gt_iff_lt, h1, h2, if_true, if_false, e2 h2, ← z1 h1]
  · simp only [gt_iff_lt, h1, h2, if_false, ← z1 h1, ← z2 h2]

/-- Any number of ticks, as one state update. -/
theorem update_timer_iterate_eq (n : Nat) (s : chip8_t) (hd : s.delay_timer < 256)
    (hs : s.sound_timer < 256) :
    update_timer^[n] s =
      { s with delay_timer := s.delay_timer - n, sound_timer := s.sound_timer - n } := by
  induction n generalizing s with
  | zero => rfl
  | succ n ih =>
    rw [Function.iterate_succ_apply, update_timer_eq s hd hs, ih _ (show s.delay_timer - 1 < 256 by omega)
      (show s.sound_timer - 1 < 256 by omega)]
    simp only [Nat.sub_sub, Nat.add_comm 1 n]

/-- C10: after `n` calls of `update_timer` the delay timer is `max (d - n) 0`
and the sound timer is `max (s - n) 0` (one tick lowers a non-zero timer by 1
and keeps a zero timer at 0), and every other field of the state is the one
it was. -/
theorem update_timer_ticks (n : Nat) (s : chip8_t) (hd : s.delay_timer < 256)
    (hs : s.sound_timer < 256) :
    ((update_timer^[n] s).delay_timer : Int) = max ((s.delay_timer : Int) - n) 0 ∧
    ((update_timer^[n] s).sound_timer : Int) = max ((s.sound_timer : Int) - n) 0 ∧
    (update_timer s).delay_timer = (if s.delay_timer = 0 then 0 else s.delay_timer - 1) ∧
    (update_timer s).sound_timer = (if s.sound_timer = 0 then 0 else s.sound_timer - 1) ∧
    update_timer^[n] s =
      { s with delay_timer := (update_timer^[n] s).delay_timer,
               sound_timer := (update_timer^[n] s).sound_timer } := by
  rw [update_timer_iterate_eq n s hd hs, update_timer_eq s hd hs]
  refine ⟨?_, ?_, ?_, ?_, rfl⟩
  · show ((s.delay_timer - n : Nat) : Int) = _
    omega
  · show ((s.sound_timer - n : Nat) : Int) = _
    omega
  · show s.delay_timer - 1 = _
    split <;> omega
  · show s.sound_timer - 1 = _
    split <;> omega

/-- C10 at a concrete input: from `delay_timer = 9`, `sound_timer = 2`, five
ticks leave 4 and 0. -/
theorem update_timer_ticks_witness :
    ((update_timer^[5] add_wrap_input).delay_timer : Int) = 4 ∧
    ((update_timer^[5] add_wrap_input).sound_timer : Int) = 0 := by
  have h := update_timer_ticks 5 add_wrap_input (by decide) (by decide)
  exact ⟨h.1.trans (by decide), h.2.1.trans (by decide)⟩

/-! ## Await key, BCD, call and return, jump with offset -/

/-- One step, as the `switch` run on the decoded state. -/
theorem emulate_eq_execute (s : chip8_t) (config : config_t) (rand T X lo : Nat)
    (hr : InRange s) (hpc : s.PC + 1 < 4096) (hX : X < 16)
    (hhi : s.ram s.PC = 16 * T + X) (hlo : s.ram (s.PC + 1) = lo) :
    emulate_instruction s config rand =
      execute { s with
        inst := { opcode := 4096 * T + 256 * X + lo, NNN := 256 * X + lo, NN := lo,
                  N := lo % 16, X := X, Y := lo / 16 }
        PC := s.PC + 2 } config rand := by
  unfold emulate_instruction
  rw [fetch_decode_eq s T X lo hr hpc hX hhi hlo]

/-- The keypad scan of `FX0A`: the first pressed key, if any. -/
theorem find_range (p : Nat → Bool) (n : Nat) :
    ((List.range n).find? p = none ∧ ∀ j, j < n → p j = false) ∨
    ∃ k, (List.range n).find? p = some k ∧ k < n ∧ p k = true ∧ ∀ j, j < k → p j = false := by
  induction n with
  | zero => left; exact ⟨rfl, fun j hj => absurd hj (Nat.not_lt_zero j)⟩
  | succ n ih =>
    rw [List.range_succ, List.find?_append]
    rcases ih with ⟨h1, h2⟩ | ⟨k, h1, h2, h3, h4⟩
    · rw [h1]
      cases hp : p n
      · left
        refine ⟨by simp [hp], fun j hj => ?_⟩
        by_cases hjn : j = n
        · rw [hjn]; exact hp
        · exact h2 j (by omega)
      · right
        exact ⟨n, by simp [hp], by omega, hp, h2⟩
    · right
      exact ⟨k, by simp [h1], by omega, h3, h4⟩

/-- One step on `FX0A`. -/
theorem step_FX0A (s : chip8_t) (config : config_t) (rand X : Nat)
    (hr : InRange s) (hpc : s.PC + 1 < 4096) (hX : X < 16)
    (hhi : s.ram s.PC = 0xF0 + X) (hlo : s.ram (s.PC + 1) = 0x0A) :
    emulate_instruction s config rand =
      match (List.range 16).find? (fun i => s.keypad i) with
      | some i => some { s with
          inst := { opcode := 4096 * 15 + 256 * X + 0x0A, NNN := 256 * X + 0x0A, NN := 0x0A,
                    N := 0x0A, X := X, Y := 0 }
          PC := s.PC + 2
          V := upd s.V X i }
      | none => some { s with
          inst := { opcode := 4096 * 15 + 256 * X + 0x0A, NNN := 256 * X + 0x0A, NN := 0x0A,
                    N := 0x0A, X := X, Y := 0 }
          PC := s.PC } := by
  rw [emulate_eq_execute s config rand 15 X 0x0A hr hpc hX (by omega) hlo]
  have hu : u16 (((s.PC + 2 : Nat) : Int) - 2) = s.PC := by unfold u16; omega
  simp only [execute, top_nibble 15 X 0x0A (by decide) hX (by decide)]
  simp only [hu]
  rfl

/-- C11: `FX0A` with no key pressed leaves `PC` where it was before the
instruction and changes no register; with a key pressed it puts the smallest
pressed index into `VX` and advances `PC` by 2. -/
theorem await_key_FX0A (s : chip8_t) (config : config_t) (rand X : Nat)
    (hr : InRange s) (hpc : s.PC + 1 < 4096) (hX : X < 16)
    (hhi : s.ram s.PC = 0xF0 + X) (hlo : s.ram (s.PC + 1) = 0x0A) :
    ((∀ i, i < 16 → s.keypad i = false) →
      ∃ s1, emulate_instruction s config rand = some s1 ∧
        s1.PC = s.PC ∧ s1.V = s.V ∧ s1.I = s.I) ∧
    ((∃ i, i < 16 ∧ s.keypad i = true) →
      ∃ s1 k, emulate_instruction s config rand = some s1 ∧
        k < 16 ∧ s.keypad k = true ∧ (∀ j, j < k → s.keypad j = false) ∧
        s1.V X = k ∧ s1.PC = s.PC + 2) := by
  rw [step_FX0A s config rand X hr hpc hX hhi hlo]
  rcases find_range (fun i => s.keypad i) 16 with ⟨h1, h2⟩ | ⟨k, h1, h2, h3, h4⟩
  · rw [h1]
    constructor
    · intro _
      exact ⟨_, rfl, rfl, rfl, rfl⟩
    · rintro ⟨i, hi, hk⟩
      rw [h2 i hi] at hk
      exact absurd hk (by decide)
  · rw [h1]
    constructor
    · intro hnone
      have := hnone k h2
      rw [this] at h3
      exact absurd h3 (by decide)
    · intro _
      exact ⟨_, k, rfl, h2, h3, h4, by simp [upd], rfl⟩

theorem inRange_await_idle_input : InRange await_idle_input :=
  ⟨bytes_at_lt _ _ (by decide), fun _ => (by decide : (0 : Nat) < 65536),
    regs_lt _ (by decide), by decide, by decide, by decide, by decide⟩

theorem inRange_await_pressed_input : InRange await_pressed_input :=
  ⟨bytes_at_lt _ _ (by decide), fun _ => (by decide : (0 : Nat) < 65536),
    regs_lt _ (by decide), by decide, by decide, by decide, by decide⟩

/-- C11 at concrete inputs: `F30A` with no key pressed keeps `PC = 0x200` and
`V3 = 9`; with keys 7 and 0xB pressed it gives `V3 = 7` and `PC = 0x202`. -/
theorem await_key_FX0A_witness :
    (∃ s1, emulate_instruction await_idle_input set_config_from_args 0 = some s1 ∧
      s1.PC = 0x200 ∧ s1.V 3 = 9) ∧
    (∃ s1, emulate_instruction await_pressed_input set_config_from_args 0 = some s1 ∧
      s1.V 3 = 7 ∧ s1.PC = 0x202) := by
  constructor
  · obtain ⟨s1, h1, h2, h3, -⟩ :=
      (await_key_FX0A await_idle_input set_config_from_args 0 3
        inRange_await_idle_input (by decide) (by decide) (by decide) (by decide)).1
        (fun _ _ => rfl)
    exact ⟨s1, h1, h2, by rw [h3]; decide⟩
  · obtain ⟨s1, k, h1, h2, h3, h4, h5, h6⟩ :=
      (await_key_FX0A await_pressed_input set_config_from_args 0 3
        inRange_await_pressed_input (by decide) (by decide) (by decide) (by decide)).2
        ⟨7, by decide, by decide⟩
    refine ⟨s1, h1, ?_, h6⟩
    rw [h5]
    have h7 : ¬ 7 < k := fun h => absurd (h4 7 h) (by decide)
    have h8 : ¬ k < 7 := by
      intro h
      have hk : await_pressed_input.keypad k = decide (k = 7 ∨ k = 0xB) := rfl
      rw [hk] at h3
      have := of_decide_eq_true h3
      omega
    omega

/-- One step on `FX33`. -/
theorem step_FX33 (s : chip8_t) (config : config_t) (rand X : Nat)
    (hr : InRange s) (hpc : s.PC + 1 < 4096) (hX : X < 16)
    (hhi : s.ram s.PC = 0xF0 + X) (hlo : s.ram (s.PC + 1) = 0x33)
    (hI : s.I + 2 < 4096) :
    emulate_instruction s config rand = some { s with
      inst := { opcode := 4096 * 15 + 256 * X + 0x33, NNN := 256 * X + 0x33, NN := 0x33,
                N := 3, X := X, Y := 3 }
      PC := s.PC + 2
      ram := upd (upd (upd s.ram (s.I + 2) (s.V X % 10)) (s.I + 1) (s.V X / 10 % 10))
        s.I (s.V X / 10 / 10) } := by
  rw [emulate_eq_execute s config rand 15 X 0x33 hr hpc hX (by omega) hlo]
  simp only [execute, top_nibble 15 X 0x33 (by decide) hX (by decide)]
  simp [hI]

/-- C12: `FX33` with `I + 2 ≤ 4095` stores the hundreds, tens and ones digits
of `VX` at `ram[I]`, `ram[I+1]`, `ram[I+2]` and leaves every other memory byte,
every register and `I` unchanged. -/
theorem bcd_FX33 (s : chip8_t) (config : config_t) (rand X : Nat)
    (hr : InRange s) (hpc : s.PC + 1 < 4096) (hX : X < 16)
    (hhi : s.ram s.PC = 0xF0 + X) (hlo : s.ram (s.PC + 1) = 0x33)
    (hI : s.I + 2 ≤ 4095) :
    ∃ s1, emulate_instruction s config rand = some s1 ∧
      s1.ram s.I = s.V X / 100 ∧ s1.ram (s.I + 1) = s.V X / 10 % 10 ∧
      s1.ram (s.I + 2) = s.V X % 10 ∧
      s1.ram s.I ≤ 9 ∧ s1.ram (s.I + 1) ≤ 9 ∧ s1.ram (s.I + 2) ≤ 9 ∧
      100 * s1.ram s.I + 10 * s1.ram (s.I + 1) + s1.ram (s.I + 2) = s.V X ∧
      (∀ a, a ≠ s.I → a ≠ s.I + 1 → a ≠ s.I + 2 → s1.ram a = s.ram a) ∧
      s1.V = s.V ∧ s1.I = s.I := by
  have hv := hr.V_lt X
  refine ⟨_, step_FX33 s config rand X hr hpc hX hhi hlo (by omega), ?_⟩
  have e0 : upd (upd (upd s.ram (s.I + 2) (s.V X % 10)) (s.I + 1) (s.V X / 10 % 10))
      s.I (s.V X / 10 / 10) s.I = s.V X / 100 := by
    simp [upd]; omega
  have e1 : upd (upd (upd s.ram (s.I + 2) (s.V X % 10)) (s.I + 1) (s.V X / 10 % 10))
      s.I (s.V X / 10 / 10) (s.I + 1) = s.V X / 10 % 10 := by
    simp [upd]
  have e2 : upd (upd (upd s.ram (s.I + 2) (s.V X % 10)) (s.I + 1) (s.V X / 10 % 10))
      s.I (s.V X / 10 / 10) (s.I + 2) = s.V X % 10 := by
    simp [upd]
  refine ⟨e0, e1, e2, ?_, ?_, ?_, ?_, ?_, rfl, rfl⟩
  · dsimp only; omega
  · dsimp only; omega
  · dsimp only; omega
  · dsimp only; omega
  · intro a h0 h1 h2
    simp [upd, h0, h1, h2]

theorem inRange_bcd_input : InRange bcd_input :=
  ⟨bytes_at_lt _ _ (by decide), fun _ => (by decide : (0 : Nat) < 65536),
    regs_lt _ (by decide), by decide, by decide, by decide, by decide⟩

/-- C12 at a concrete input: `V0 = 156`, `I = 0x300` gives 1, 5, 6. -/
theorem bcd_FX33_witness :
    ∃ s1, emulate_instruction bcd_input set_config_from_args 0 = some s1 ∧
      s1.ram 0x300 = 1 ∧ s1.ram 0x301 = 5 ∧ s1.ram 0x302 = 6 := by
  obtain ⟨s1, h, h0, h1, h2, -⟩ := bcd_FX33 bcd_input set_config_from_args 0 0
    inRange_bcd_input (by decide) (by decide) (by decide) (by decide) (by decide)
  exact ⟨s1, h, h0.trans (by decide), h1.trans (by decide), h2.trans (by decide)⟩

/-- One step on `2NNN` with room on the stack, `NNN = 256 * X + NN`. -/
theorem step_2NNN (s : chip8_t) (config : config_t) (rand X NN : Nat)
    (hr : InRange s) (hpc : s.PC + 1 < 4096) (hX : X < 16)
    (hhi : s.ram s.PC = 0x20 + X) (hlo : s.ram (s.PC + 1) = NN)
    (hd : s.stack_ptr < 12) :
    emulate_instruction s config rand = some { s with
      inst := { opcode := 4096 * 2 + 256 * X + NN, NNN := 256 * X + NN, NN := NN,
                N := NN % 16, X := X, Y := NN / 16 }
      PC := 256 * X + NN
      stack := upd s.stack s.stack_ptr (s.PC + 2)
      stack_ptr := s.stack_ptr + 1 } := by
  have hl : NN < 256 := hlo ▸ hr.ram_lt _
  rw [emulate_eq_execute s config rand 2 X NN hr hpc hX (by omega) hlo]
  simp only [execute, top_nibble 2 X NN (by decide) hX hl]
  simp [hd]

/-- One step on `0XEE` with a non-empty stack. -/
theorem step_0XEE (s : chip8_t) (config : config_t) (rand X : Nat)
    (hr : InRange s) (hpc : s.PC + 1 < 4096) (hX : X < 16)
    (hhi : s.ram s.PC = 0x00 + X) (hlo : s.ram (s.PC + 1) = 0xEE)
    (hd : 0 < s.stack_ptr) (hd2 : s.stack_ptr ≤ 12) :
    emulate_instruction s config rand = some { s with
      inst := { opcode := 4096 * 0 + 256 * X + 0xEE, NNN := 256 * X + 0xEE, NN := 0xEE,
                N := 0xE, X := X, Y := 0xE }
      PC := s.stack (s.stack_ptr - 1)
      stack_ptr := s.stack_ptr - 1 } := by
  rw [emulate_eq_execute s config rand 0 X 0xEE hr hpc hX (by omega) hlo]
  simp only [execute, top_nibble 0 X 0xEE (by decide) hX (by decide)]
  have h : 0 < s.stack_ptr ∧ s.stack_ptr - 1 < 12 := ⟨hd, by omega⟩
  simp [h]

/-- C13: a call `2NNN` at `p` with stack depth below 12, followed by a return
`00EE` at `NNN`, ends with `PC = p + 2` and the depth it started from, with
registers, `I`, memory and display unchanged (`NNN = 256 * X + NN`). -/
theorem call_then_return (s : chip8_t) (config : config_t) (rand rand2 X NN : Nat)
    (hr : InRange s) (hpc : s.PC + 1 < 4096) (hX : X < 16)
    (hhi : s.ram s.PC = 0x20 + X) (hlo : s.ram (s.PC + 1) = NN)
    (hd : s.stack_ptr < 12)
    (ht : 256 * X + NN + 1 < 4096)
    (hr0 : s.ram (256 * X + NN) = 0x00) (hr1 : s.ram (256 * X + NN + 1) = 0xEE) :
    ∃ s1 s2, emulate_instruction s config rand = some s1 ∧
      emulate_instruction s1 config rand2 = some s2 ∧
      s1.PC = 256 * X + NN ∧ s1.stack_ptr = s.stack_ptr + 1 ∧
      s2.PC = s.PC + 2 ∧ s2.stack_ptr = s.stack_ptr ∧
      s2.V = s.V ∧ s2.I = s.I ∧ s2.ram = s.ram ∧ s2.display = s.display := by
  have hr1' : InRange { s with
      inst := { opcode := 4096 * 2 + 256 * X + NN, NNN := 256 * X + NN, NN := NN,
                N := NN % 16, X := X, Y := NN / 16 }
      PC := 256 * X + NN
      stack := upd s.stack s.stack_ptr (s.PC + 2)
      stack_ptr := s.stack_ptr + 1 } := by
    refine ⟨hr.ram_lt, fun i => ?_, hr.V_lt, hr.I_lt, ?_, hr.delay_lt, hr.sound_lt⟩
    · show upd s.stack s.stack_ptr (s.PC + 2) i < 65536
      unfold upd
      split
      · omega
      · exact hr.stack_lt i
    · show 256 * X + NN < 65536
      omega
  refine ⟨_, _, step_2NNN s config rand X NN hr hpc hX hhi hlo hd,
    step_0XEE _ config rand2 0 hr1' ht (by decide) hr0 hr1
      (by show 0 < s.stack_ptr + 1; omega) (by show s.stack_ptr + 1 ≤ 12; omega),
    rfl, rfl, ?_, ?_, rfl, rfl, rfl, rfl⟩
  · show upd s.stack s.stack_ptr (s.PC + 2) (s.stack_ptr + 1 - 1) = s.PC + 2
    simp [upd]
  · show s.stack_ptr + 1 - 1 = s.stack_ptr
    omega

theorem inRange_call_return_input : InRange call_return_input :=
  ⟨bytes_at_lt _ _ (by decide), fun _ => (by decide : (0 : Nat) < 65536),
    fun _ => (by decide : (0 : Nat) < 256), by decide, by decide, by decide, by decide⟩

/-- C13 at a concrete input: `2208` at `0x200` and `00EE` at `0x208` give
`PC = 0x202` and depth 0. -/
theorem call_then_return_witness :
    ∃ s1 s2, emulate_instruction call_return_input set_config_from_args 0 = some s1 ∧
      emulate_instruction s1 set_config_from_args 0 = some s2 ∧
      s1.PC = 0x208 ∧ s1.stack_ptr = 1 ∧ s2.PC = 0x202 ∧ s2.stack_ptr = 0 := by
  obtain ⟨s1, s2, h1, h2, h3, h4, h5, h6, -⟩ :=
    call_then_return call_return_input set_config_from_args 0 0 2 8
      inRange_call_return_input (by decide) (by decide) (by decide) (by decide) (by decide)
      (by decide) (by decide) (by decide)
  exact ⟨s1, s2, h1, h2, h3, h4, h5, h6⟩

/-- One step on `BNNN`, `NNN = 256 * X + NN`. -/
theorem step_BNNN (s : chip8_t) (config : config_t) (rand X NN : Nat)
    (hr : InRange s) (hpc : s.PC + 1 < 4096) (hX : X < 16)
    (hhi : s.ram s.PC = 0xB0 + X) (hlo : s.ram (s.PC + 1) = NN) :
    emulate_instruction s config rand = some { s with
      inst := { opcode := 4096 * 11 + 256 * X + NN, NNN := 256 * X + NN, NN := NN,
                N := NN % 16, X := X, Y := NN / 16 }
      PC := s.V 0 + (256 * X + NN) } := by
  have hl : NN < 256 := hlo ▸ hr.ram_lt _
  have hv := hr.V_lt 0
  have hm : (s.V 0 + (256 * X + NN)) % 65536 = s.V 0 + (256 * X + NN) := by omega
  rw [emulate_eq_execute s config rand 11 X NN hr hpc hX (by omega) hlo]
  simp only [execute, top_nibble 11 X NN (by decide) hX hl]
  simp [hm]

/-- C14, refuted as stated: on `BFFF` with `V0 = 0xFF` the code ends with
`PC = 4350`, while `(V0 + NNN) mod 4096` is 254; the next fetch address 4350
lies outside the 4096-byte memory. -/
theorem jump_offset_not_masked :
    (emulate_instruction jump_offset_input set_config_from_args 0).map (fun s => s.PC)
      = some 4350 ∧
    (jump_offset_input.V 0 + 0xFFF) % 4096 = 254 ∧
    ((emulate_instruction jump_offset_input set_config_from_args 0).bind
      (fun s => emulate_instruction s set_config_from_args 0)).isSome = false := by
  decide

/-- C14, amended: after `BNNN` the program counter is the plain sum
`V0 + NNN` (at most 4350), not reduced modulo 4096; it is a valid fetch address
only when the sum is below 4095.  Nothing else but `inst` changes. -/
theorem jump_offset_BNNN (s : chip8_t) (config : config_t) (rand X NN : Nat)
    (hr : InRange s) (hpc : s.PC + 1 < 4096) (hX : X < 16)
    (hhi : s.ram s.PC = 0xB0 + X) (hlo : s.ram (s.PC + 1) = NN) :
    ∃ s1, emulate_instruction s config rand = some s1 ∧
      s1.PC = s.V 0 + (256 * X + NN) ∧ s1.PC ≤ 4350 ∧
      (s.V 0 + (256 * X + NN) < 4096 → s1.PC = (s.V 0 + (256 * X + NN)) % 4096) ∧
      s1.V = s.V ∧ s1.I = s.I ∧ s1.ram = s.ram ∧ s1.stack = s.stack ∧
      s1.stack_ptr = s.stack_ptr ∧ s1.display = s.display := by
  have hl : NN < 256 := hlo ▸ hr.ram_lt _
  have hv := hr.V_lt 0
  refine ⟨_, step_BNNN s config rand X NN hr hpc hX hhi hlo, rfl, ?_, ?_,
    rfl, rfl, rfl, rfl, rfl, rfl⟩
  · show s.V 0 + (256 * X + NN) ≤ 4350
    omega
  · intro h
    show s.V 0 + (256 * X + NN) = _
    omega

theorem inRange_jump_offset_input : InRange jump_offset_input :=
  ⟨bytes_at_lt _ _ (by decide), fun _ => (by decide : (0 : Nat) < 65536),
    regs_lt _ (by decide), by decide, by decide, by decide, by decide⟩

/-- C14 (amended) at a concrete input: `BFFF` with `V0 = 0xFF` gives `PC = 4350`. -/
theorem jump_offset_BNNN_witness :
    ∃ s1, emulate_instruction jump_offset_input set_config_from_args 0 = some s1 ∧
      s1.PC = 4350 := by
  obtain ⟨s1, h1, h2, -⟩ := jump_offset_BNNN jump_offset_input set_config_from_args 0 0xF 0xFF
    inRange_jump_offset_input (by decide) (by decide) (by decide) (by decide)
  exact ⟨s1, h1, h2.trans (by decide)⟩

/-! ## Undefined sub-codes, decode, register dump and load -/

theorem inRange_opcode_input (hi lo : Nat) (h1 : hi < 256) (h2 : lo < 256) :
    InRange (opcode_input hi lo) := by
  refine ⟨bytes_at_lt _ _ ?_, getD_lt _ 65536 (by decide) (by decide), regs_lt _ (by decide),
    (by decide : (0x123 : Nat) < 65536), (by decide : (0x200 : Nat) < 65536),
    (by decide : (3 : Nat) < 256), (by decide : (4 : Nat) < 256)⟩
  intro x hx
  simp only [List.mem_cons, List.mem_singleton, List.not_mem_nil, or_false] at hx
  rcases hx with rfl | rfl
  · exact h1
  · exact h2

/-- C17: an opcode of class 5, 8, E or F whose sub-code is not defined is a
silent no-op: the step returns the state with `PC` advanced by 2 and, apart
from the decoded `inst`, every field as it was. -/
theorem undefined_subcode_no_op (s : chip8_t) (config : config_t) (rand X lo : Nat)
    (hr : InRange s) (hpc : s.PC + 1 < 4096) (hX : X < 16)
    (hlo : s.ram (s.PC + 1) = lo) :
    (s.ram s.PC = 0x50 + X → lo % 16 ≠ 0 →
      ∃ i, emulate_instruction s config rand = some { s with inst := i, PC := s.PC + 2 }) ∧
    (s.ram s.PC = 0x80 + X → lo % 16 ∈ [8, 9, 0xA, 0xB, 0xC, 0xD, 0xF] →
      ∃ i, emulate_instruction s config rand = some { s with inst := i, PC := s.PC + 2 }) ∧
    (s.ram s.PC = 0xE0 + X → lo ∉ [0x9E, 0xA1] →
      ∃ i, emulate_instruction s config rand = some { s with inst := i, PC := s.PC + 2 }) ∧
    (s.ram s.PC = 0xF0 + X →
      lo ∉ [0x07, 0x0A, 0x15, 0x18, 0x1E, 0x29, 0x33, 0x55, 0x65] →
      ∃ i, emulate_instruction s config rand = some { s with inst := i, PC := s.PC + 2 }) := by
  have hl : lo < 256 := hlo ▸ hr.ram_lt _
  refine ⟨fun hhi hn => ?_, fun hhi hn => ?_, fun hhi hn => ?_, fun hhi hn => ?_⟩
  · rw [emulate_eq_execute s config rand 5 X lo hr hpc hX (by omega) hlo]
    simp only [execute, top_nibble 5 X lo (by decide) hX hl]
    exact ⟨⟨4096 * 5 + 256 * X + lo, 256 * X + lo, lo, lo % 16, X, lo / 16⟩,
      by simp [hn]⟩
  · rw [emulate_eq_execute s config rand 8 X lo hr hpc hX (by omega) hlo]
    simp only [execute, top_nibble 8 X lo (by decide) hX hl]
    simp only [List.mem_cons, List.mem_singleton, List.not_mem_nil, or_false] at hn
    refine ⟨⟨4096 * 8 + 256 * X + lo, 256 * X + lo, lo, lo % 16, X, lo / 16⟩,
      ?_⟩
    rcases hn with h | h | h | h | h | h | h <;> simp [h]
  · rw [emulate_eq_execute s config rand 14 X lo hr hpc hX (by omega) hlo]
    simp only [execute, top_nibble 14 X lo (by decide) hX hl]
    simp only [List.mem_cons, List.mem_singleton, List.not_mem_nil, or_false, not_or] at hn
    exact ⟨⟨4096 * 14 + 256 * X + lo, 256 * X + lo, lo, lo % 16, X, lo / 16⟩,
      by simp [hn.1, hn.2]⟩
  · rw [emulate_eq_execute s config rand 15 X lo hr hpc hX (by omega) hlo]
    simp only [execute, top_nibble 15 X lo (by decide) hX hl]
    simp only [List.mem_cons, List.mem_singleton, List.not_mem_nil, or_false, not_or] at hn
    obtain ⟨h1, h2, h3, h4, h5, h6, h7, h8, h9⟩ := hn
    exact ⟨⟨4096 * 15 + 256 * X + lo, 256 * X + lo, lo, lo % 16, X, lo / 16⟩,
      by simp [h1, h2, h3, h4, h5, h6, h7, h8, h9]⟩

/-- C17 at concrete inputs: `5121`, `8128`, `E100` and `F1FF` leave `PC` at
`0x202` and `V1`, the display cell 5 and the stack depth as they were. -/
theorem undefined_subcode_no_op_witness :
    (∃ s1, emulate_instruction (opcode_input 0x51 0x21) set_config_from_args 0 = some s1 ∧
      s1.PC = 0x202 ∧ s1.V 1 = 2 ∧ s1.display 5 = true ∧ s1.stack_ptr = 1) ∧
    (∃ s1, emulate_instruction (opcode_input 0x81 0x28) set_config_from_args 0 = some s1 ∧
      s1.PC = 0x202 ∧ s1.V 1 = 2 ∧ s1.display 5 = true ∧ s1.stack_ptr = 1) ∧
    (∃ s1, emulate_instruction (opcode_input 0xE1 0x00) set_config_from_args 0 = some s1 ∧
      s1.PC = 0x202 ∧ s1.V 1 = 2 ∧ s1.display 5 = true ∧ s1.stack_ptr = 1) ∧
    (∃ s1, emulate_instruction (opcode_input 0xF1 0xFF) set_config_from_args 0 = some s1 ∧
      s1.PC = 0x202 ∧ s1.V 1 = 2 ∧ s1.display 5 = true ∧ s1.stack_ptr = 1) := by
  refine ⟨?_, ?_, ?_, ?_⟩
  · obtain ⟨i, h⟩ := (undefined_subcode_no_op (opcode_input 0x51 0x21) set_config_from_args 0 1
      0x21 (inRange_opcode_input _ _ (by decide) (by decide)) (by decide) (by decide)
      (by decide)).1 (by decide) (by decide)
    exact ⟨_, h, rfl, rfl, rfl, rfl⟩
  · obtain ⟨i, h⟩ := (undefined_subcode_no_op (opcode_input 0x81 0x28) set_config_from_args 0 1
      0x28 (inRange_opcode_input _ _ (by decide) (by decide)) (by decide) (by decide)
      (by decide)).2.1 (by decide) (by decide)
    exact ⟨_, h, rfl, rfl, rfl, rfl⟩
  · obtain ⟨i, h⟩ := (undefined_subcode_no_op (opcode_input 0xE1 0x00) set_config_from_args 0 1
      0x00 (inRange_opcode_input _ _ (by decide) (by decide)) (by decide) (by decide)
      (by decide)).2.2.1 (by decide) (by decide)
    exact ⟨_, h, rfl, rfl, rfl, rfl⟩
  · obtain ⟨i, h⟩ := (undefined_subcode_no_op (opcode_input 0xF1 0xFF) set_config_from_args 0 1
      0xFF (inRange_opcode_input _ _ (by decide) (by decide)) (by decide) (by decide)
      (by decide)).2.2.2 (by decide) (by decide)
    exact ⟨_, h, rfl, rfl, rfl, rfl⟩

/-- C18, refuted as stated: `01E0` is not `00E0`, yet it clears the display
(cell 5 goes from set to clear); `07EE` is not `00EE`, yet it returns (`PC`
becomes the stacked `0x300`, the depth goes from 1 to 0). -/
theorem zero_class_aliases :
    (opcode_input 0x01 0xE0).display 5 = true ∧
    (emulate_instruction (opcode_input 0x01 0xE0) set_config_from_args 0).map
      (fun s => s.display 5) = some false ∧
    (opcode_input 0x07 0xEE).stack_ptr = 1 ∧
    (emulate_instruction (opcode_input 0x07 0xEE) set_config_from_args 0).map
      (fun s => (s.PC, s.stack_ptr)) = some (0x300, 0) := by
  decide

/-- C18, amended: an opcode `0XNN` whose low byte `NN` is neither `E0` nor `EE`
is a silent no-op (`PC` advanced by 2, every field but the decoded `inst` as it
was); `0XE0` clears the display and `0XEE` returns, for every `X`. -/
theorem zero_class_no_op (s : chip8_t) (config : config_t) (rand X lo : Nat)
    (hr : InRange s) (hpc : s.PC + 1 < 4096) (hX : X < 16)
    (hhi : s.ram s.PC = 0x00 + X) (hlo : s.ram (s.PC + 1) = lo) :
    (lo ≠ 0xE0 → lo ≠ 0xEE →
      ∃ i, emulate_instruction s config rand = some { s with inst := i, PC := s.PC + 2 }) ∧
    (lo = 0xE0 →
      ∃ i, emulate_instruction s config rand =
        some { s with inst := i, PC := s.PC + 2, display := fun _ => false }) ∧
    (lo = 0xEE → 0 < s.stack_ptr → s.stack_ptr ≤ 12 →
      ∃ i, emulate_instruction s config rand =
        some { s with inst := i, PC := s.stack (s.stack_ptr - 1),
                      stack_ptr := s.stack_ptr - 1 }) := by
  have hl : lo < 256 := hlo ▸ hr.ram_lt _
  rw [emulate_eq_execute s config rand 0 X lo hr hpc hX (by omega) hlo]
  simp only [execute, top_nibble 0 X lo (by decide) hX hl]
  refine ⟨fun h1 h2 => ?_, fun h1 => ?_, fun h1 h2 h3 => ?_⟩
  · exact ⟨⟨4096 * 0 + 256 * X + lo, 256 * X + lo, lo, lo % 16, X, lo / 16⟩,
      by simp [h1, h2]⟩
  · exact ⟨⟨4096 * 0 + 256 * X + lo, 256 * X + lo, lo, lo % 16, X, lo / 16⟩,
      by simp [h1]⟩
  · have h4 : 0 < s.stack_ptr ∧ s.stack_ptr - 1 < 12 := ⟨h2, by omega⟩
    exact ⟨⟨4096 * 0 + 256 * X + lo, 256 * X + lo, lo, lo % 16, X, lo / 16⟩,
      by simp [h1, h4]⟩

/-- C18 (amended) at concrete inputs: `0123` leaves `PC = 0x202`, the display
cell 5 set and the depth at 1; `01E0` clears cell 5. -/
theorem zero_class_no_op_witness :
    (∃ s1, emulate_instruction (opcode_input 0x01 0x23) set_config_from_args 0 = some s1 ∧
      s1.PC = 0x202 ∧ s1.display 5 = true ∧ s1.stack_ptr = 1 ∧ s1.V 1 = 2) ∧
    (∃ s1, emulate_instruction (opcode_input 0x01 0xE0) set_config_from_args 0 = some s1 ∧
      s1.PC = 0x202 ∧ s1.display 5 = false) := by
  constructor
  · obtain ⟨i, h⟩ := (zero_class_no_op (opcode_input 0x01 0x23) set_config_from_args 0 1 0x23
      (inRange_opcode_input _ _ (by decide) (by decide)) (by decide) (by decide)
      (by decide) (by decide)).1 (by decide) (by decide)
    exact ⟨_, h, rfl, rfl, rfl, rfl⟩
  · obtain ⟨i, h⟩ := (zero_class_no_op (opcode_input 0x01 0xE0) set_config_from_args 0 1 0xE0
      (inRange_opcode_input _ _ (by decide) (by decide)) (by decide) (by decide)
      (by decide) (by decide)).2.1 (by decide)
    exact ⟨_, h, rfl, rfl⟩

theorem bytes_at_first (base a : Nat) (l : List Nat) : bytes_at base (a :: l) base = a := by
  simp [bytes_at]

theorem bytes_at_second (base a b : Nat) (l : List Nat) :
    bytes_at base (a :: b :: l) (base + 1) = b := by
  simp [bytes_at]

theorem opcode_input_hi (hi lo : Nat) :
    (opcode_input hi lo).ram (opcode_input hi lo).PC = hi := by
  have e1 : (opcode_input hi lo).PC = 0x200 := rfl
  have e2 : (opcode_input hi lo).ram = bytes_at 0x200 [hi, lo] := rfl
  rw [e1, e2]
  exact bytes_at_first 0x200 hi [lo]

theorem opcode_input_lo (hi lo : Nat) :
    (opcode_input hi lo).ram ((opcode_input hi lo).PC + 1) = lo := by
  have e1 : (opcode_input hi lo).PC = 0x200 := rfl
  have e2 : (opcode_input hi lo).ram = bytes_at 0x200 [hi, lo] := rfl
  rw [e1, e2]
  exact bytes_at_second 0x200 hi lo []

/-- C19: the decode step on the bytes `hi = ram[PC]`, `lo = ram[PC+1]` yields
`opcode = 256 * hi + lo`, `NNN = opcode mod 4096`, `NN = lo`, `N = lo mod 16`,
`X = hi mod 16`, `Y = lo / 16`; the word is `4096 * (hi / 16) + 256 * X + 16 * Y + N`
with `NNN = 256 * X + NN` and `NN = 16 * Y + N`; and every word below 65536 is
the opcode of some decode. -/
theorem decode_fields (s : chip8_t) (hr : InRange s) (hpc : s.PC + 1 < 4096) :
    (∃ c, fetch_decode s = some c ∧
      c.inst.opcode = 256 * s.ram s.PC + s.ram (s.PC + 1) ∧
      c.inst.NNN = c.inst.opcode % 4096 ∧
      c.inst.NN = s.ram (s.PC + 1) ∧
      c.inst.N = s.ram (s.PC + 1) % 16 ∧
      c.inst.X = s.ram s.PC % 16 ∧
      c.inst.Y = s.ram (s.PC + 1) / 16 ∧
      c.inst.opcode =
        4096 * (s.ram s.PC / 16) + 256 * c.inst.X + 16 * c.inst.Y + c.inst.N ∧
      c.inst.NNN = 256 * c.inst.X + c.inst.NN ∧
      c.inst.NN = 16 * c.inst.Y + c.inst.N ∧
      c.inst.opcode < 65536) ∧
    (∀ w, w < 65536 → ∃ t c, InRange t ∧ fetch_decode t = some c ∧ c.inst.opcode = w) := by
  have h1 := hr.ram_lt s.PC
  have h2 := hr.ram_lt (s.PC + 1)
  constructor
  · refine ⟨_, fetch_decode_eq s (s.ram s.PC / 16) (s.ram s.PC % 16) (s.ram (s.PC + 1)) hr hpc
      (by omega) (by omega) rfl, ?_⟩
    dsimp only
    omega
  · intro w hw
    have hr' := inRange_opcode_input (w / 256) (w % 256) (by omega) (by omega)
    refine ⟨opcode_input (w / 256) (w % 256), _, hr',
      fetch_decode_eq (opcode_input (w / 256) (w % 256)) (w / 256 / 16) (w / 256 % 16)
        (w % 256) hr' (by decide : (0x200 : Nat) + 1 < 4096) (by omega) ?_ ?_, ?_⟩
    · rw [opcode_input_hi]
      omega
    · exact opcode_input_lo _ _
    · dsimp only
      omega

/-- C19 at a concrete input: the bytes `D0 05` of `glyph_input` decode to
opcode `0xD005`, `NNN = 5`, `NN = 5`, `N = 5`, `X = 0`, `Y = 0`. -/
theorem decode_fields_witness :
    ∃ c, fetch_decode glyph_input = some c ∧
      c.inst = { opcode := 0xD005, NNN := 5, NN := 5, N := 5, X := 0, Y := 0 } := by
  obtain ⟨c, h, h1, h2, h3, h4, h5, h6, -⟩ :=
    (decode_fields glyph_input inRange_glyph_input (by decide)).1
  refine ⟨c, h, ?_⟩
  have e1 : c.inst.opcode = 0xD005 := h1.trans (by decide)
  have e2 : c.inst.NNN = 5 := by rw [h2, e1]
  have e3 : c.inst.NN = 5 := h3.trans (by decide)
  have e4 : c.inst.N = 5 := h4.trans (by decide)
  have e5 : c.inst.X = 0 := h5.trans (by decide)
  have e6 : c.inst.Y = 0 := h6.trans (by decide)
  cases hc : c.inst with
  | mk o a b n x y =>
    rw [hc] at e1 e2 e3 e4 e5 e6
    simp only at e1 e2 e3 e4 e5 e6
    rw [e1, e2, e3, e4, e5, e6]

/-- The dump loop writes `V[i]` at `ram[I + i]` for the indices it runs over. -/
theorem reg_dump_eq (V : Nat → Nat) (I : Nat) :
    ∀ (n i : Nat) (ram : Nat → Nat), I + i + n ≤ 4096 →
    ∃ ram1, reg_dump V I n i ram = some ram1 ∧
      ∀ a, ram1 a = if I + i ≤ a ∧ a < I + i + n then V (a - I) else ram a := by
  intro n
  induction n with
  | zero =>
    intro i ram _
    refine ⟨ram, rfl, fun a => ?_⟩
    rw [if_neg (by omega)]
  | succ n ih =>
    intro i ram h
    obtain ⟨ram1, h1, h2⟩ := ih (i + 1) (upd ram (I + i) (V i)) (by omega)
    refine ⟨ram1, ?_, fun a => ?_⟩
    · simp only [reg_dump, if_pos (show I + i < 4096 by omega), h1]
    · rw [h2 a]
      by_cases ha : a = I + i
      · subst ha
        rw [if_neg (by omega), if_pos (by omega)]
        simp [upd]
      · by_cases hin : I + (i + 1) ≤ a ∧ a < I + (i + 1) + n
        · rw [if_pos hin, if_pos (by omega)]
        · rw [if_neg hin, if_neg (by omega)]
          simp [upd, ha]

/-- The load loop writes `ram[I + i]` into `V[i]` for the indices it runs over. -/
theorem reg_load_eq (ram : Nat → Nat) (I : Nat) :
    ∀ (n i : Nat) (V : Nat → Nat), I + i + n ≤ 4096 →
    ∃ V1, reg_load ram I n i V = some V1 ∧
      ∀ j, V1 j = if i ≤ j ∧ j < i + n then ram (I + j) else V j := by
  intro n
  induction n with
  | zero =>
    intro i V _
    refine ⟨V, rfl, fun j => ?_⟩
    rw [if_neg (by omega)]
  | succ n ih =>
    intro i V h
    obtain ⟨V1, h1, h2⟩ := ih (i + 1) (upd V i (ram (I + i))) (by omega)
    refine ⟨V1, ?_, fun j => ?_⟩
    · simp only [reg_load, if_pos (show I + i < 4096 by omega), h1]
    · rw [h2 j]
      by_cases hj : j = i
      · subst hj
        rw [if_neg (by omega), if_pos (by omega)]
        simp [upd]
      · by_cases hin : i + 1 ≤ j ∧ j < i + 1 + n
        · rw [if_pos hin, if_pos (by omega)]
        · rw [if_neg hin, if_neg (by omega)]
          simp [upd, hj]

/-- One step on `FX55` with the dump inside memory. -/
theorem step_FX55 (s : chip8_t) (config : config_t) (rand X : Nat)
    (hr : InRange s) (hpc : s.PC + 1 < 4096) (hX : X < 16)
    (hhi : s.ram s.PC = 0xF0 + X) (hlo : s.ram (s.PC + 1) = 0x55)
    (hI : s.I + X ≤ 4095) :
    ∃ ram1, emulate_instruction s config rand = some { s with
        inst := { opcode := 4096 * 15 + 256 * X + 0x55, NNN := 256 * X + 0x55, NN := 0x55,
                  N := 5, X := X, Y := 5 }
        PC := s.PC + 2
        ram := ram1 } ∧
      ∀ a, ram1 a = if s.I ≤ a ∧ a ≤ s.I + X then s.V (a - s.I) else s.ram a := by
  obtain ⟨ram1, h1, h2⟩ := reg_dump_eq s.V s.I (X + 1) 0 s.ram (by omega)
  refine ⟨ram1, ?_, fun a => ?_⟩
  · rw [emulate_eq_execute s config rand 15 X 0x55 hr hpc hX (by omega) hlo]
    simp only [execute, top_nibble 15 X 0x55 (by decide) hX (by decide)]
    simp [h1]
  · rw [h2 a]
    by_cases hin : s.I ≤ a ∧ a ≤ s.I + X
    · rw [if_pos hin, if_pos (by omega)]
    · rw [if_neg hin, if_neg (by omega)]

/-- One step on `FX65` with the loaded bytes inside memory. -/
theorem step_FX65 (s : chip8_t) (config : config_t) (rand X : Nat)
    (hr : InRange s) (hpc : s.PC + 1 < 4096) (hX : X < 16)
    (hhi : s.ram s.PC = 0xF0 + X) (hlo : s.ram (s.PC + 1) = 0x65)
    (hI : s.I + X ≤ 4095) :
    ∃ V1, emulate_instruction s config rand = some { s with
        inst := { opcode := 4096 * 15 + 256 * X + 0x65, NNN := 256 * X + 0x65, NN := 0x65,
                  N := 5, X := X, Y := 6 }
        PC := s.PC + 2
        V := V1 } ∧
      ∀ j, V1 j = if j ≤ X then s.ram (s.I + j) else s.V j := by
  obtain ⟨V1, h1, h2⟩ := reg_load_eq s.ram s.I (X + 1) 0 s.V (by omega)
  refine ⟨V1, ?_, fun j => ?_⟩
  · rw [emulate_eq_execute s config rand 15 X 0x65 hr hpc hX (by omega) hlo]
    simp only [execute, top_nibble 15 X 0x65 (by decide) hX (by decide)]
    simp [h1]
  · rw [h2 j]
    by_cases hin : j ≤ X
    · rw [if_pos hin, if_pos (by omega)]
    · rw [if_neg hin, if_neg (by omega)]

/-- C20: with `I + X ≤ 4095`, `FX55` stores `V0..VX` at `ram[I..I+X]` and
leaves every other byte, every register and `I` unchanged; an `FX65` run later
with the same `X` and `I` on a memory that still holds those bytes at
`ram[I..I+X]` puts the dumped values back into `V0..VX`, whatever the registers
hold by then, and leaves `V(X+1)..VF` and `I` untouched. -/
theorem dump_then_load (s : chip8_t) (config : config_t) (rand X : Nat)
    (hr : InRange s) (hpc : s.PC + 1 < 4096) (hX : X < 16)
    (hhi : s.ram s.PC = 0xF0 + X) (hlo : s.ram (s.PC + 1) = 0x55)
    (hI : s.I + X ≤ 4095) :
    ∃ s1, emulate_instruction s config rand = some s1 ∧
      (∀ i, i ≤ X → s1.ram (s.I + i) = s.V i) ∧
      (∀ a, a < s.I ∨ s.I + X < a → s1.ram a = s.ram a) ∧
      s1.V = s.V ∧ s1.I = s.I ∧
      ∀ (t : chip8_t) (rand2 : Nat), InRange t → t.PC + 1 < 4096 →
        t.ram t.PC = 0xF0 + X → t.ram (t.PC + 1) = 0x65 → t.I = s.I →
        (∀ i, i ≤ X → t.ram (s.I + i) = s1.ram (s.I + i)) →
        ∃ t1, emulate_instruction t config rand2 = some t1 ∧
          (∀ i, i ≤ X → t1.V i = s.V i) ∧
          (∀ j, X < j → t1.V j = t.V j) ∧
          t1.I = t.I ∧ t1.ram = t.ram := by
  obtain ⟨ram1, h1, h2⟩ := step_FX55 s config rand X hr hpc hX hhi hlo hI
  have hd : ∀ i, i ≤ X → ram1 (s.I + i) = s.V i := by
    intro i hi
    rw [h2 (s.I + i), if_pos (by omega), Nat.add_sub_cancel_left]
  refine ⟨_, h1, hd, fun a ha => ?_, rfl, rfl, ?_⟩
  · show ram1 a = s.ram a
    rw [h2 a, if_neg (by omega)]
  · intro t rand2 ht hpc2 hhi2 hlo2 hIt hsame
    obtain ⟨V1, g1, g2⟩ := step_FX65 t config rand2 X ht hpc2 hX hhi2 hlo2 (by omega)
    refine ⟨_, g1, fun i hi => ?_, fun j hj => ?_, rfl, rfl⟩
    · show V1 i = s.V i
      rw [g2 i, if_pos hi, hIt, hsame i hi]
      exact hd i hi
    · show V1 j = t.V j
      rw [g2 j, if_neg (by omega)]

theorem inRange_dump_input : InRange dump_input :=
  ⟨bytes_at_lt _ _ (by decide), fun _ => (by decide : (0 : Nat) < 65536),
    regs_lt _ (by decide), by decide, by decide, by decide, by decide⟩

theorem inRange_load_input : InRange load_input := by
  refine ⟨fun a => ?_, fun _ => (by decide : (0 : Nat) < 65536),
    regs_lt _ (by decide), by decide, by decide, by decide, by decide⟩
  show (if a < 0x300 then bytes_at 0x200 [0xF2, 0x65] a
    else bytes_at 0x300 [11, 22, 33] a) < 256
  split
  · exact bytes_at_lt _ _ (by decide) a
  · exact bytes_at_lt _ _ (by decide) a

/-- C20 at concrete inputs: `F255` with `V0..V2 = 11, 22, 33` at `I = 0x300`
stores them at `0x300..0x302`; `F265` on that memory, with the registers
overwritten meanwhile, gives `V0..V2 = 11, 22, 33` and keeps `V3 = 93`. -/
theorem dump_then_load_witness :
    ∃ s1 t1, emulate_instruction dump_input set_config_from_args 0 = some s1 ∧
      emulate_instruction load_input set_config_from_args 0 = some t1 ∧
      s1.ram 0x300 = 11 ∧ s1.ram 0x301 = 22 ∧ s1.ram 0x302 = 33 ∧
      t1.V 0 = 11 ∧ t1.V 1 = 22 ∧ t1.V 2 = 33 ∧ t1.V 3 = 93 := by
  obtain ⟨s1, h1, h2, -, -, -, h3⟩ := dump_then_load dump_input set_config_from_args 0 2
    inRange_dump_input (by decide) (by decide) (by decide) (by decide) (by decide)
  have hsame : ∀ i, i ≤ 2 → load_input.ram (dump_input.I + i) = s1.ram (dump_input.I + i) := by
    intro i hi
    rw [h2 i hi]
    interval_cases i <;> decide
  obtain ⟨t1, g1, g2, g3, -⟩ := h3 load_input 0 inRange_load_input (by decide) (by decide)
    (by decide) rfl hsame
  exact ⟨s1, t1, h1, g1, (h2 0 (by decide)).trans (by decide),
    (h2 1 (by decide)).trans (by decide), (h2 2 (by decide)).trans (by decide),
    (g2 0 (by decide)).trans (by decide), (g2 1 (by decide)).trans (by decide),
    (g2 2 (by decide)).trans (by decide), (g3 3 (by decide)).trans (by decide)⟩

/-! ## What every instruction preserves -/

theorem upd_lt (V : Nat → Nat) (X v b : Nat) (hV : ∀ i, V i < b) (hv : v < b) :
    ∀ i, upd V X v i < b := by
  intro i
  unfold upd
  split
  · exact hv
  · exact hV i

theorem u8_lt (z : Int) : u8 z < 256 := by
  unfold u8; omega

theorem u16_lt (z : Int) : u16 z < 65536 := by
  unfold u16; omega

/-- The draw loops write nothing but 1 into `VF`. -/
theorem draw_row_V (config : config_t) (sd Y : Nat) :
    ∀ (n X : Nat) (d : Nat → Bool) (V : Nat → Nat) (d' : Nat → Bool) (V' : Nat → Nat),
    draw_row config sd Y n X d V = some (d', V') →
    ∀ i, V' i = V i ∨ V' i = 1 := by
  intro n
  induction n with
  | zero =>
    intro X d V d' V' h i
    simp only [draw_row, Option.some.injEq, Prod.mk.injEq] at h
    rw [← h.2]; exact Or.inl rfl
  | succ n ih =>
    intro X d V d' V' h i
    simp only [draw_row] at h
    generalize (Y * config.window_width + X) % 2 ^ 32 = idx at h
    generalize decide (sd &&& (1 <<< n) ≠ 0) = b at h
    have hstep : (if (b && d idx) = true then upd V 0xF 1 else V) i = V i ∨
        (if (b && d idx) = true then upd V 0xF 1 else V) i = 1 := by
      split
      · unfold upd
        split
        · exact Or.inr rfl
        · exact Or.inl rfl
      · exact Or.inl rfl
    by_cases hlt : idx < 64 * 32
    · rw [if_pos hlt] at h
      by_cases hb : (X + 1) % 256 ≥ config.window_width
      · rw [if_pos hb] at h
        simp only [Option.some.injEq, Prod.mk.injEq] at h
        rw [← h.2]; exact hstep
      · rw [if_neg hb] at h
        rcases ih _ _ _ _ _ h i with h1 | h1
        · rw [h1]; exact hstep
        · exact Or.inr h1
    · rw [if_neg hlt] at h
      exact absurd h (by simp)

theorem draw_sprite_V (config : config_t) (ram : Nat → Nat) (I x0 : Nat) :
    ∀ (n i Y : Nat) (d : Nat → Bool) (V : Nat → Nat) (d' : Nat → Bool) (V' : Nat → Nat),
    draw_sprite config ram I x0 n i Y d V = some (d', V') →
    ∀ j, V' j = V j ∨ V' j = 1 := by
  intro n
  induction n with
  | zero =>
    intro i Y d V d' V' h j
    simp only [draw_sprite, Option.some.injEq, Prod.mk.injEq] at h
    rw [← h.2]; exact Or.inl rfl
  | succ n ih =>
    intro i Y d V d' V' h j
    simp only [draw_sprite] at h
    by_cases hlt : I + i < 4096
    · rw [if_pos hlt] at h
      cases hrow : draw_row config (ram (I + i)) Y 8 x0 d V with
      | none => rw [hrow] at h; exact absurd h (by simp)
      | some p =>
        obtain ⟨d1, V1⟩ := p
        rw [hrow] at h
        simp only at h
        have hstep := draw_row_V config _ Y 8 x0 d V d1 V1 hrow j
        by_cases hb : (Y + 1) % 256 ≥ config.window_height
        · rw [if_pos hb] at h
          simp only [Option.some.injEq, Prod.mk.injEq] at h
          rw [← h.2]; exact hstep
        · rw [if_neg hb] at h
          rcases ih _ _ _ _ _ _ h j with h1 | h1
          · rw [h1]; exact hstep
          · exact Or.inr h1
    · rw [if_neg hlt] at h
      exact absurd h (by simp)

/-- The dump loop stores register values only. -/
theorem reg_dump_lt (V : Nat → Nat) (I : Nat) (hV : ∀ i, V i < 256) :
    ∀ (n i : Nat) (ram ram1 : Nat → Nat), reg_dump V I n i ram = some ram1 →
    (∀ a, ram a < 256) → ∀ a, ram1 a < 256 := by
  intro n
  induction n with
  | zero =>
    intro i ram ram1 h hram
    simp only [reg_dump, Option.some.injEq] at h
    rw [← h]; exact hram
  | succ n ih =>
    intro i ram ram1 h hram
    simp only [reg_dump] at h
    split at h
    · exact ih _ _ _ h (upd_lt ram _ _ 256 hram (hV i))
    · exact absurd h (by simp)

/-- The load loop stores memory bytes only. -/
theorem reg_load_lt (ram : Nat → Nat) (I : Nat) (hram : ∀ a, ram a < 256) :
    ∀ (n i : Nat) (V V1 : Nat → Nat), reg_load ram I n i V = some V1 →
    (∀ j, V j < 256) → ∀ j, V1 j < 256 := by
  intro n
  induction n with
  | zero =>
    intro i V V1 h hV
    simp only [reg_load, Option.some.injEq] at h
    rw [← h]; exact hV
  | succ n ih =>
    intro i V V1 h hV
    simp only [reg_load] at h
    split at h
    · exact ih _ _ _ h (upd_lt V _ _ 256 hV (hram _))
    · exact absurd h (by simp)

theorem find_range_lt (p : Nat → Bool) (n k : Nat) (h : (List.range n).find? p = some k) :
    k < n :=
  List.mem_range.mp (List.mem_of_find?_eq_some h)

theorem or_lt_256 (a b : Nat) (ha : a < 256) (hb : b < 256) : a ||| b < 256 :=
  Nat.or_lt_two_pow (show a < 2 ^ 8 from ha) (show b < 2 ^ 8 from hb)

theorem xor_lt_256 (a b : Nat) (ha : a < 256) (hb : b < 256) : a ^^^ b < 256 :=
  Nat.xor_lt_two_pow (show a < 2 ^ 8 from ha) (show b < 2 ^ 8 from hb)

theorem and_lt_256 (a b : Nat) (ha : a < 256) : a &&& b < 256 :=
  lt_of_le_of_lt Nat.and_le_left ha

theorem shr_lt_256 (a k : Nat) (ha : a < 256) : a >>> k < 256 := by
  rw [Nat.shiftRight_eq_div_pow]
  exact lt_of_le_of_lt (Nat.div_le_self _ _) ha

set_option maxHeartbeats 4000000 in
/-- The `switch` keeps the memory bytes, the registers, `I` and the timers
inside their C types. -/
theorem execute_ranges (c : chip8_t) (config : config_t) (rand : Nat) (t : chip8_t)
    (h : execute c config rand = some t)
    (hram : ∀ a, c.ram a < 256) (hV : ∀ i, c.V i < 256) (hI : c.I < 65536)
    (hd : c.delay_timer < 256) (hs : c.sound_timer < 256)
    (hNN : c.inst.NN < 256) (hNNN : c.inst.NNN < 4096) :
    (∀ a, t.ram a < 256) ∧ (∀ i, t.V i < 256) ∧ t.I < 65536 ∧
      t.delay_timer < 256 ∧ t.sound_timer < 256 := by
  have hop : (c.inst.opcode >>> 12) &&& 0x0F < 16 := by rw [field_op]; omega
  have hflag : ∀ b : Nat, b < 256 → ∀ i, upd c.V 0xF b i < 256 :=
    fun b hb => upd_lt c.V _ _ 256 hV hb
  unfold execute at h
  simp only [] at h
  generalize (c.inst.opcode >>> 12) &&& 0x0F = op at hop h
  interval_cases op <;> simp only [↓reduceIte, Nat.reduceEqDiff] at h
  -- 0: clear, return, no-op
  · split_ifs at h <;> (cases h; exact ⟨hram, hV, hI, hd, hs⟩)
  -- 1
  · cases h; exact ⟨hram, hV, hI, hd, hs⟩
  -- 2
  · split_ifs at h
    cases h; exact ⟨hram, hV, hI, hd, hs⟩
  -- 3, 4, 5
  · split_ifs at h <;> (cases h; exact ⟨hram, hV, hI, hd, hs⟩)
  · split_ifs at h <;> (cases h; exact ⟨hram, hV, hI, hd, hs⟩)
  · split_ifs at h <;> (cases h; exact ⟨hram, hV, hI, hd, hs⟩)
  -- 6, 7
  · cases h; exact ⟨hram, upd_lt _ _ _ 256 hV hNN, hI, hd, hs⟩
  · cases h; exact ⟨hram, upd_lt _ _ _ 256 hV (Nat.mod_lt _ (by decide)), hI, hd, hs⟩
  -- 8
  · split_ifs at h <;>
      (cases h
       refine ⟨hram, fun i => ?_, hI, hd, hs⟩
       first
         | exact hV i
         | (simp only [upd]
            split_ifs <;> first
              | exact hV _
              | omega
              | exact u8_lt _
              | exact or_lt_256 _ _ (hV _) (hV _)
              | exact xor_lt_256 _ _ (hV _) (hV _)
              | exact and_lt_256 _ _ (hV _)
              | exact shr_lt_256 _ _ (hV _)
              | exact shr_lt_256 _ _ (and_lt_256 _ _ (hV _))))
  -- 9
  · split_ifs at h <;> (cases h; exact ⟨hram, hV, hI, hd, hs⟩)
  -- A
  · cases h; exact ⟨hram, hV, lt_trans hNNN (by decide), hd, hs⟩
  -- B
  · cases h; exact ⟨hram, hV, hI, hd, hs⟩
  -- C
  · cases h
    exact ⟨hram, upd_lt _ _ _ 256 hV
      (lt_of_le_of_lt Nat.and_le_left (Nat.mod_lt _ (by decide))), hI, hd, hs⟩
  -- D
  · split_ifs at h
    split at h
    · exact absurd h (by simp)
    · rename_i d1 V1 hdraw
      cases h
      refine ⟨hram, fun i => ?_, hI, hd, hs⟩
      rcases draw_sprite_V _ _ _ _ _ _ _ _ _ _ _ hdraw i with h1 | h1
      · show V1 i < 256
        rw [h1]; exact hflag 0 (by decide) i
      · show V1 i < 256
        rw [h1]; decide
  -- E
  · split_ifs at h <;> (cases h; exact ⟨hram, hV, hI, hd, hs⟩)
  -- F
  · split_ifs at h
    · split at h
      · rename_i k hk
        cases h
        exact ⟨hram, upd_lt _ _ _ 256 hV (lt_trans (find_range_lt _ _ _ hk) (by decide)),
          hI, hd, hs⟩
      · cases h; exact ⟨hram, hV, hI, hd, hs⟩
    · cases h; exact ⟨hram, hV, Nat.mod_lt _ (by decide), hd, hs⟩
    · cases h; exact ⟨hram, upd_lt _ _ _ 256 hV hd, hI, hd, hs⟩
    · cases h; exact ⟨hram, hV, hI, hV _, hs⟩
    · cases h; exact ⟨hram, hV, hI, hd, hV _⟩
    · cases h; exact ⟨hram, hV, Nat.mod_lt _ (by decide), hd, hs⟩
    · cases h
      have h10 : ∀ v : Nat, v % 10 < 256 := fun v => by omega
      have h100 : c.V c.inst.X / 10 / 10 < 256 := by have := hV c.inst.X; omega
      exact ⟨upd_lt _ _ _ 256 (upd_lt _ _ _ 256 (upd_lt _ _ _ 256 hram (h10 _)) (h10 _)) h100,
        hV, hI, hd, hs⟩
    · split at h
      · exact absurd h (by simp)
      · rename_i ram1 hdump
        cases h
        exact ⟨reg_dump_lt _ _ hV _ _ _ _ hdump hram, hV, hI, hd, hs⟩
    · split at h
      · exact absurd h (by simp)
      · rename_i V1 hload
        cases h
        exact ⟨hram, reg_load_lt _ _ hram _ _ _ _ hload hV, hI, hd, hs⟩
    · cases h; exact ⟨hram, hV, hI, hd, hs⟩

set_option maxHeartbeats 4000000 in
/-- The effect of the `switch` on the stack and on `PC`: a plain instruction
leaves the stack alone and moves `PC` in one of five ways, a call pushes, a
return pops. -/
theorem execute_stack_pc (c : chip8_t) (config : config_t) (rand : Nat) (t : chip8_t)
    (h : execute c config rand = some t) :
    (t.stack_ptr = c.stack_ptr ∧ t.stack = c.stack ∧
      (t.PC = c.PC ∨ t.PC = (c.PC + 2) % 65536 ∨ t.PC = c.inst.NNN ∨
        t.PC = (c.V 0 + c.inst.NNN) % 65536 ∨ t.PC = u16 ((c.PC : Int) - 2))) ∨
    (c.stack_ptr < 12 ∧ t.stack_ptr = c.stack_ptr + 1 ∧
      t.stack = upd c.stack c.stack_ptr c.PC ∧ t.PC = c.inst.NNN) ∨
    (0 < c.stack_ptr ∧ c.stack_ptr ≤ 12 ∧ t.stack_ptr = c.stack_ptr - 1 ∧
      t.stack = c.stack ∧ t.PC = c.stack (c.stack_ptr - 1)) := by
  have hop : (c.inst.opcode >>> 12) &&& 0x0F < 16 := by rw [field_op]; omega
  unfold execute at h
  simp only [] at h
  generalize (c.inst.opcode >>> 12) &&& 0x0F = op at hop h
  interval_cases op <;> simp only [↓reduceIte, Nat.reduceEqDiff] at h
  all_goals
    first
    | (split_ifs at h <;> first
        | (cases h; simp; omega)
        | (cases h; simp)
        | (split at h <;> first | (cases h; simp) | (exact absurd h (by simp))))
    | (cases h; simp)

set_option maxHeartbeats 4000000 in
/-- The effect of the `switch` on the stack depth, by instruction: class 2 (the
call) pushes one entry, class 0 with the low byte `EE` (the return) pops one,
and every other instruction leaves the stack and its depth as they were. -/
theorem execute_depth (c : chip8_t) (config : config_t) (rand : Nat) (t : chip8_t)
    (h : execute c config rand = some t) :
    ((c.inst.opcode >>> 12) &&& 0x0F = 2 →
      c.stack_ptr < 12 ∧ t.stack_ptr = c.stack_ptr + 1) ∧
    ((c.inst.opcode >>> 12) &&& 0x0F = 0 → c.inst.NN = 0xEE →
      0 < c.stack_ptr ∧ c.stack_ptr ≤ 12 ∧ t.stack_ptr = c.stack_ptr - 1) ∧
    ((c.inst.opcode >>> 12) &&& 0x0F ≠ 2 →
      ¬ ((c.inst.opcode >>> 12) &&& 0x0F = 0 ∧ c.inst.NN = 0xEE) →
      t.stack_ptr = c.stack_ptr ∧ t.stack = c.stack) := by
  have hop : (c.inst.opcode >>> 12) &&& 0x0F < 16 := by rw [field_op]; omega
  unfold execute at h
  simp only [] at h
  generalize (c.inst.opcode >>> 12) &&& 0x0F = op at hop h ⊢
  interval_cases op <;> simp only [↓reduceIte, Nat.reduceEqDiff] at h
  all_goals
    first
    | (split_ifs at h <;> first
        | (cases h; simp [*]; done)
        | (cases h; simp [*]; omega)
        | (split at h <;> first | (cases h; simp [*]) | (exact absurd h (by simp))))
    | (cases h; simp [*])

/-! ## Program counter and stack depth across steps -/

/-- A step that returns a state fetched inside memory and ran the `switch` on
the decoded state. -/
theorem emulate_some (s : chip8_t) (config : config_t) (rand : Nat) (t : chip8_t)
    (h : emulate_instruction s config rand = some t) :
    s.PC + 1 < 4096 ∧ ∃ inst : instruction_t, inst.NN < 256 ∧ inst.NNN < 4096 ∧
      execute { s with inst := inst, PC := s.PC + 2 } config rand = some t := by
  unfold emulate_instruction fetch_decode at h
  by_cases hpc : s.PC + 1 < 4096
  · rw [if_pos hpc] at h
    simp only at h
    rw [show (s.PC + 2) % 65536 = s.PC + 2 by omega] at h
    refine ⟨hpc, _, ?_, ?_, h⟩
    · exact lt_of_le_of_lt Nat.and_le_right (by decide)
    · exact lt_of_le_of_lt Nat.and_le_right (by decide)
  · rw [if_neg hpc] at h
    exact absurd h (by simp)

/-- The invariant of the main loop: every field inside its C type, `PC` at most
`0xFFF + 0xFF`, at most 12 stacked return addresses, each at most 4096. -/
theorem step_invariant (s : chip8_t) (config : config_t) (rand : Nat) (t : chip8_t)
    (h : emulate_instruction s config rand = some t)
    (hr : InRange s) (hsp : s.stack_ptr ≤ 12)
    (hst : ∀ i, i < s.stack_ptr → s.stack i ≤ 4096) :
    InRange t ∧ t.PC ≤ 4350 ∧ t.stack_ptr ≤ 12 ∧ (∀ i, i < t.stack_ptr → t.stack i ≤ 4096) ∧
      (t.stack_ptr = s.stack_ptr ∨ (s.stack_ptr < 12 ∧ t.stack_ptr = s.stack_ptr + 1) ∨
        (0 < s.stack_ptr ∧ t.stack_ptr = s.stack_ptr - 1)) := by
  obtain ⟨hpc, inst, hNN, hNNN, hex⟩ := emulate_some s config rand t h
  obtain ⟨g1, g2, g3, g4, g5⟩ := execute_ranges _ config rand t hex hr.ram_lt hr.V_lt hr.I_lt
    hr.delay_lt hr.sound_lt hNN hNNN
  have hv0 := hr.V_lt 0
  rcases execute_stack_pc _ config rand t hex with ⟨e1, e2, e3⟩ | ⟨e0, e1, e2, e3⟩ |
      ⟨e0, e0', e1, e2, e3⟩
  · have hPC : t.PC ≤ 4350 := by
      rcases e3 with e | e | e | e | e
      · rw [e]; show s.PC + 2 ≤ 4350; omega
      · rw [e]; show (s.PC + 2 + 2) % 65536 ≤ 4350; omega
      · rw [e]; show inst.NNN ≤ 4350; omega
      · rw [e]; show (s.V 0 + inst.NNN) % 65536 ≤ 4350; omega
      · rw [e]; show u16 (((s.PC + 2 : Nat) : Int) - 2) ≤ 4350; unfold u16; omega
    refine ⟨⟨g1, ?_, g2, g3, by omega, g4, g5⟩, hPC, ?_, ?_, Or.inl e1⟩
    · rw [e2]; exact hr.stack_lt
    · rw [e1]; exact hsp
    · rw [e1, e2]; exact hst
  · have hPC : t.PC ≤ 4350 := by rw [e3]; show inst.NNN ≤ 4350; omega
    have hstk : ∀ i, i < t.stack_ptr → t.stack i ≤ 4096 := by
      intro i hi
      rw [e2]
      show upd s.stack s.stack_ptr (s.PC + 2) i ≤ 4096
      unfold upd
      split
      · omega
      · apply hst
        rw [e1] at hi
        show i < s.stack_ptr
        have : s.stack_ptr = ({ s with inst := inst, PC := s.PC + 2 } : chip8_t).stack_ptr := rfl
        omega
    refine ⟨⟨g1, ?_, g2, g3, by omega, g4, g5⟩, hPC, ?_, hstk, Or.inr (Or.inl ⟨e0, e1⟩)⟩
    · rw [e2]
      exact upd_lt _ _ _ 65536 hr.stack_lt (show s.PC + 2 < 65536 by omega)
    · rw [e1]; show s.stack_ptr + 1 ≤ 12
      exact e0
  · have hlive : t.PC ≤ 4096 := by
      rw [e3]
      exact hst _ (show s.stack_ptr - 1 < s.stack_ptr from Nat.sub_lt e0 (by decide))
    refine ⟨⟨g1, ?_, g2, g3, by omega, g4, g5⟩, by omega, ?_, ?_, Or.inr (Or.inr ⟨e0, e1⟩)⟩
    · rw [e2]; exact hr.stack_lt
    · rw [e1]; show s.stack_ptr - 1 ≤ 12; omega
    · intro i hi
      rw [e2]
      apply hst
      rw [e1] at hi
      show i < s.stack_ptr
      have : ({ s with inst := inst, PC := s.PC + 2 } : chip8_t).stack_ptr - 1 < s.stack_ptr :=
        Nat.sub_lt e0 (by decide)
      omega

theorem inRange_fresh (image : List Nat) (h : ∀ x ∈ image, x < 256) : InRange (fresh image) := by
  refine ⟨fun a => ?_, fun _ => (by decide : (0 : Nat) < 65536),
    fun _ => (by decide : (0 : Nat) < 256), (by decide : (0 : Nat) < 65536),
    (by decide : (0x200 : Nat) < 65536), (by decide : (0 : Nat) < 256),
    (by decide : (0 : Nat) < 256)⟩
  show (if a < 0x200 then bytes_at 0 font a else bytes_at 0x200 image a) < 256
  split
  · exact bytes_at_lt _ _ (by decide) a
  · exact bytes_at_lt _ _ h a

/-- One step on `1NNN`, `NNN = 256 * X + NN`. -/
theorem step_1NNN (s : chip8_t) (config : config_t) (rand X NN : Nat)
    (hr : InRange s) (hpc : s.PC + 1 < 4096) (hX : X < 16)
    (hhi : s.ram s.PC = 0x10 + X) (hlo : s.ram (s.PC + 1) = NN) :
    emulate_instruction s config rand = some { s with
      inst := { opcode := 4096 * 1 + 256 * X + NN, NNN := 256 * X + NN, NN := NN,
                N := NN % 16, X := X, Y := NN / 16 }
      PC := 256 * X + NN } := by
  have hl : NN < 256 := hlo ▸ hr.ram_lt _
  rw [emulate_eq_execute s config rand 1 X NN hr hpc hX (by omega) hlo]
  simp only [execute, top_nibble 1 X NN (by decide) hX hl]
  simp

/-- C15, refuted as stated: from the freshly loaded image `1001` one step
reaches `PC = 1`, which is odd and below `0x200`; from the image `1FFF` one
step reaches `PC = 4095`, which is odd and above 4094. -/
theorem pc_invariant_refuted :
    (∃ t, Reachable set_config_from_args (fresh [0x10, 0x01]) t ∧ t.PC = 1) ∧
    (∃ t, Reachable set_config_from_args (fresh [0x1F, 0xFF]) t ∧ t.PC = 4095) ∧
    (fresh [0x10, 0x01]).PC = 0x200 ∧ (fresh [0x1F, 0xFF]).PC = 0x200 := by
  refine ⟨⟨_, Reachable.step _ _ 0 Reachable.start
      (step_1NNN (fresh [0x10, 0x01]) set_config_from_args 0 0 1
        (inRange_fresh _ (by decide)) (by decide) (by decide) (by decide) (by decide)), rfl⟩,
    ⟨_, Reachable.step _ _ 0 Reachable.start
      (step_1NNN (fresh [0x1F, 0xFF]) set_config_from_args 0 0xF 0xFF
        (inRange_fresh _ (by decide)) (by decide) (by decide) (by decide) (by decide)), rfl⟩,
    rfl, rfl⟩

/-- C15, amended: in every state reachable from a state with every field in
range, `PC = 0x200` and an empty stack, whatever the program image, the keypad
inputs and the timer ticks, `PC` is at most 4350 (`0xFFF + 0xFF`), every field
is in range and the stack holds at most 12 return addresses. -/
theorem reachable_pc_bound (config : config_t) (s0 s : chip8_t)
    (hr : InRange s0) (hpc : s0.PC = 0x200) (hsp : s0.stack_ptr = 0)
    (h : Reachable config s0 s) :
    s.PC ≤ 4350 ∧ InRange s ∧ s.stack_ptr ≤ 12 := by
  have key : InRange s ∧ s.PC ≤ 4350 ∧ s.stack_ptr ≤ 12 ∧
      ∀ i, i < s.stack_ptr → s.stack i ≤ 4096 := by
    induction h with
    | start =>
      refine ⟨hr, by omega, by omega, fun i hi => ?_⟩
      omega
    | input s keypad state _ ih =>
      obtain ⟨i1, i2, i3, i4⟩ := ih
      exact ⟨⟨i1.ram_lt, i1.stack_lt, i1.V_lt, i1.I_lt, i1.PC_lt, i1.delay_lt, i1.sound_lt⟩,
        i2, i3, i4⟩
    | tick s _ ih =>
      obtain ⟨i1, i2, i3, i4⟩ := ih
      rw [update_timer_eq s i1.delay_lt i1.sound_lt]
      refine ⟨⟨i1.ram_lt, i1.stack_lt, i1.V_lt, i1.I_lt, i1.PC_lt, ?_, ?_⟩, i2, i3, i4⟩
      · show s.delay_timer - 1 < 256
        have := i1.delay_lt
        omega
      · show s.sound_timer - 1 < 256
        have := i1.sound_lt
        omega
    | step s t rand _ hstep ih =>
      obtain ⟨i1, _, i3, i4⟩ := ih
      obtain ⟨j1, j2, j3, j4, _⟩ := step_invariant s config rand t hstep i1 i3 i4
      exact ⟨j1, j2, j3, j4⟩
  exact ⟨key.2.1, key.1, key.2.2.1⟩

/-- C15 (amended) at a concrete input: the state reached from the image `1001`
by one step has `PC = 1`, within the bound. -/
theorem reachable_pc_bound_witness :
    ∃ t, Reachable set_config_from_args (fresh [0x10, 0x01]) t ∧ t.PC = 1 ∧ t.PC ≤ 4350 := by
  have hreach : Reachable set_config_from_args (fresh [0x10, 0x01]) _ :=
    Reachable.step _ _ 0 Reachable.start
      (step_1NNN (fresh [0x10, 0x01]) set_config_from_args 0 0 1
        (inRange_fresh _ (by decide)) (by decide) (by decide) (by decide) (by decide))
  exact ⟨_, hreach, rfl,
    (reachable_pc_bound set_config_from_args (fresh [0x10, 0x01]) _
      (inRange_fresh _ (by decide)) rfl rfl hreach).1⟩

/-- C16, refuted as stated: a call at depth 12 and a return at depth 0 do not
end in a state with a depth between 0 and 12.  The call stores to `stack[12]`,
past the end of the 12-entry array, and the return reads below `stack[0]`; the
step has no defined result there. -/
theorem stack_bounds_refuted :
    call_full_input.stack_ptr = 12 ∧
    (emulate_instruction call_full_input set_config_from_args 0).isSome = false ∧
    return_empty_input.stack_ptr = 0 ∧
    (emulate_instruction return_empty_input set_config_from_args 0).isSome = false := by
  decide

/-- C16, amended: from a depth between 0 and 12, every step that returns a
state leaves the depth between 0 and 12, and the depth moves by instruction: a
call `2NNN` (high nibble of the first byte 2) gives one more, a return `0XEE`
(high nibble 0, second byte `EE`) one less, every other instruction leaves it
as it was.  A call at a depth below 12 and a return at a depth above 0 do
return a state; a call at depth 12 and a return at depth 0 return none. -/
theorem stack_depth_step (s : chip8_t) (config : config_t) (rand : Nat)
    (hr : InRange s) (hsp : s.stack_ptr ≤ 12) :
    (∀ t, emulate_instruction s config rand = some t →
      t.stack_ptr ≤ 12 ∧
      (s.ram s.PC / 16 = 2 → s.stack_ptr < 12 ∧ t.stack_ptr = s.stack_ptr + 1) ∧
      (s.ram s.PC / 16 = 0 → s.ram (s.PC + 1) = 0xEE →
        0 < s.stack_ptr ∧ t.stack_ptr = s.stack_ptr - 1) ∧
      (s.ram s.PC / 16 ≠ 2 → ¬ (s.ram s.PC / 16 = 0 ∧ s.ram (s.PC + 1) = 0xEE) →
        t.stack_ptr = s.stack_ptr)) ∧
    (∀ X NN, s.PC + 1 < 4096 → X < 16 → s.ram s.PC = 0x20 + X → s.ram (s.PC + 1) = NN →
      (s.stack_ptr < 12 →
        ∃ t, emulate_instruction s config rand = some t ∧ t.stack_ptr = s.stack_ptr + 1) ∧
      (s.stack_ptr = 12 → emulate_instruction s config rand = none)) ∧
    (∀ X, s.PC + 1 < 4096 → X < 16 → s.ram s.PC = 0x00 + X → s.ram (s.PC + 1) = 0xEE →
      (0 < s.stack_ptr →
        ∃ t, emulate_instruction s config rand = some t ∧ t.stack_ptr = s.stack_ptr - 1) ∧
      (s.stack_ptr = 0 → emulate_instruction s config rand = none)) := by
  refine ⟨fun t h => ?_, fun X NN hpc hX hhi hlo => ⟨fun hd => ?_, fun hd => ?_⟩,
    fun X hpc hX hhi hlo => ⟨fun hd => ?_, fun hd => ?_⟩⟩
  · obtain ⟨hpc, -⟩ := emulate_some s config rand t h
    have hb : s.ram s.PC < 256 := hr.ram_lt _
    have hl : s.ram (s.PC + 1) < 256 := hr.ram_lt _
    have hX : s.ram s.PC % 16 < 16 := Nat.mod_lt _ (by decide)
    have hT : s.ram s.PC / 16 < 16 := by omega
    rw [emulate_eq_execute s config rand (s.ram s.PC / 16) (s.ram s.PC % 16)
      (s.ram (s.PC + 1)) hr hpc hX (by omega) rfl] at h
    obtain ⟨d1, d2, d3⟩ := execute_depth _ config rand t h
    rw [show ({ s with
        inst := { opcode := 4096 * (s.ram s.PC / 16) + 256 * (s.ram s.PC % 16) +
                    s.ram (s.PC + 1),
                  NNN := 256 * (s.ram s.PC % 16) + s.ram (s.PC + 1),
                  NN := s.ram (s.PC + 1), N := s.ram (s.PC + 1) % 16,
                  X := s.ram s.PC % 16, Y := s.ram (s.PC + 1) / 16 }
        PC := s.PC + 2 } : chip8_t).inst.opcode =
          4096 * (s.ram s.PC / 16) + 256 * (s.ram s.PC % 16) + s.ram (s.PC + 1) from rfl,
      top_nibble _ _ _ hT hX hl] at d1 d2 d3
    have c1 : s.ram s.PC / 16 = 2 → s.stack_ptr < 12 ∧ t.stack_ptr = s.stack_ptr + 1 := d1
    have c2 : s.ram s.PC / 16 = 0 → s.ram (s.PC + 1) = 0xEE →
        0 < s.stack_ptr ∧ s.stack_ptr ≤ 12 ∧ t.stack_ptr = s.stack_ptr - 1 := d2
    have c3 : s.ram s.PC / 16 ≠ 2 → ¬ (s.ram s.PC / 16 = 0 ∧ s.ram (s.PC + 1) = 0xEE) →
        t.stack_ptr = s.stack_ptr ∧ t.stack = s.stack := d3
    refine ⟨?_, c1, fun a b => ⟨(c2 a b).1, (c2 a b).2.2⟩, fun a b => (c3 a b).1⟩
    by_cases a : s.ram s.PC / 16 = 2
    · have := c1 a; omega
    · by_cases b : s.ram s.PC / 16 = 0 ∧ s.ram (s.PC + 1) = 0xEE
      · have := c2 b.1 b.2; omega
      · have := c3 a b; omega
  · exact ⟨_, step_2NNN s config rand X NN hr hpc hX hhi hlo hd, rfl⟩
  · have hl : NN < 256 := hlo ▸ hr.ram_lt _
    rw [emulate_eq_execute s config rand 2 X NN hr hpc hX (by omega) hlo]
    simp only [execute, top_nibble 2 X NN (by decide) hX hl]
    simp [hd]
  · exact ⟨_, step_0XEE s config rand X hr hpc hX hhi hlo hd hsp, rfl⟩
  · rw [emulate_eq_execute s config rand 0 X 0xEE hr hpc hX (by omega) hlo]
    simp only [execute, top_nibble 0 X 0xEE (by decide) hX (by decide)]
    simp [hd]

theorem inRange_call_full_input : InRange call_full_input :=
  ⟨bytes_at_lt _ _ (by decide), fun _ => (by decide : (0 : Nat) < 65536),
    fun _ => (by decide : (0 : Nat) < 256), by decide, by decide, by decide, by decide⟩

/-- C16 (amended) at concrete inputs: `2208` at depth 0 gives depth 1, within
the bound; `6102` at depth 1 leaves the depth at 1; `2300` at depth 12 returns
no state. -/
theorem stack_depth_step_witness :
    (∃ t, emulate_instruction call_return_input set_config_from_args 0 = some t ∧
      t.stack_ptr = 1 ∧ t.stack_ptr ≤ 12) ∧
    (∃ t, emulate_instruction (opcode_input 0x61 0x02) set_config_from_args 0 = some t ∧
      (opcode_input 0x61 0x02).stack_ptr = 1 ∧ t.stack_ptr = 1) ∧
    emulate_instruction call_full_input set_config_from_args 0 = none := by
  have T := stack_depth_step call_return_input set_config_from_args 0
    inRange_call_return_input (by decide)
  obtain ⟨t, h1, h2⟩ := (T.2.1 2 8 (by decide) (by decide) (by decide) (by decide)).1
    (by decide)
  have U := stack_depth_step (opcode_input 0x61 0x02) set_config_from_args 0
    (inRange_opcode_input _ _ (by decide) (by decide)) (by decide)
  have hu := step_6XNN (opcode_input 0x61 0x02) set_config_from_args 0 1 2
    (inRange_opcode_input _ _ (by decide) (by decide)) (by decide) (by decide)
    (opcode_input_hi _ _) (opcode_input_lo _ _)
  exact ⟨⟨t, h1, h2, (T.1 t h1).1⟩,
    ⟨_, hu, rfl, (U.1 _ hu).2.2.2 (by rw [opcode_input_hi]; decide)
      (by rw [opcode_input_hi]; decide)⟩,
    ((stack_depth_step call_full_input set_config_from_args 0 inRange_call_full_input
      (by decide)).2.1 3 0 (by decide) (by decide) (by decide) (by decide)).2 rfl⟩

/-! ## Skip on immediate: `3XNN`, `4XNN` -/

/-- One step on `3XNN`. -/
theorem step_3XNN (s : chip8_t) (config : config_t) (rand X NN : Nat)
    (hr : InRange s) (hpc : s.PC + 1 < 4096) (hX : X < 16)
    (hhi : s.ram s.PC = 0x30 + X) (hlo : s.ram (s.PC + 1) = NN) :
    emulate_instruction s config rand = some { s with
      inst := { opcode := 4096 * 3 + 256 * X + NN, NNN := 256 * X + NN, NN := NN,
                N := NN % 16, X := X, Y := NN / 16 }
      PC := if s.V X = NN then s.PC + 4 else s.PC + 2 } := by
  have hl : NN < 256 := hlo ▸ hr.ram_lt _
  have h4 : (s.PC + 2 + 2) % 65536 = s.PC + 4 := by omega
  rw [emulate_eq_execute s config rand 3 X NN hr hpc hX (by omega) hlo]
  simp only [execute, top_nibble 3 X NN (by decide) hX hl, h4]
  by_cases h : s.V X = NN <;> simp [h]

/-- One step on `4XNN`. -/
theorem step_4XNN (s : chip8_t) (config : config_t) (rand X NN : Nat)
    (hr : InRange s) (hpc : s.PC + 1 < 4096) (hX : X < 16)
    (hhi : s.ram s.PC = 0x40 + X) (hlo : s.ram (s.PC + 1) = NN) :
    emulate_instruction s config rand = some { s with
      inst := { opcode := 4096 * 4 + 256 * X + NN, NNN := 256 * X + NN, NN := NN,
                N := NN % 16, X := X, Y := NN / 16 }
      PC := if s.V X ≠ NN then s.PC + 4 else s.PC + 2 } := by
  have hl : NN < 256 := hlo ▸ hr.ram_lt _
  have h4 : (s.PC + 2 + 2) % 65536 = s.PC + 4 := by omega
  rw [emulate_eq_execute s config rand 4 X NN hr hpc hX (by omega) hlo]
  simp only [execute, top_nibble 4 X NN (by decide) hX hl, h4]
  by_cases h : s.V X = NN <;> simp [h]

/-- C21: `3XNN` advances `PC` by 4 when `VX = NN` and by 2 otherwise, `4XNN`
by 4 when `VX ≠ NN` and by 2 otherwise; apart from `PC` and the decoded `inst`
every field is as it was; and of a `3XNN` and a `4XNN` run with the same `VX`
and `NN`, exactly one skips. -/
theorem skip_immediate (s : chip8_t) (config : config_t) (rand X NN : Nat)
    (hr : InRange s) (hpc : s.PC + 1 < 4096) (hX : X < 16)
    (hlo : s.ram (s.PC + 1) = NN) :
    (s.ram s.PC = 0x30 + X →
      ∃ i, emulate_instruction s config rand =
        some { s with inst := i, PC := if s.V X = NN then s.PC + 4 else s.PC + 2 }) ∧
    (s.ram s.PC = 0x40 + X →
      ∃ i, emulate_instruction s config rand =
        some { s with inst := i, PC := if s.V X ≠ NN then s.PC + 4 else s.PC + 2 }) ∧
    (s.ram s.PC = 0x30 + X →
      ∀ (t : chip8_t) (rand2 : Nat), InRange t → t.PC + 1 < 4096 →
        t.ram t.PC = 0x40 + X → t.ram (t.PC + 1) = NN → t.V X = s.V X →
        ∃ s1 t1, emulate_instruction s config rand = some s1 ∧
          emulate_instruction t config rand2 = some t1 ∧
          ((s1.PC = s.PC + 4 ∧ t1.PC = t.PC + 2) ∨ (s1.PC = s.PC + 2 ∧ t1.PC = t.PC + 4))) := by
  refine ⟨fun hhi => ⟨_, step_3XNN s config rand X NN hr hpc hX hhi hlo⟩,
    fun hhi => ⟨_, step_4XNN s config rand X NN hr hpc hX hhi hlo⟩,
    fun hhi t rand2 ht hpc2 hhi2 hlo2 hv => ?_⟩
  refine ⟨_, _, step_3XNN s config rand X NN hr hpc hX hhi hlo,
    step_4XNN t config rand2 X NN ht hpc2 hX hhi2 hlo2, ?_⟩
  by_cases h : s.V X = NN
  · left
    exact ⟨by simp [h], by simp [hv, h]⟩
  · right
    exact ⟨by simp [h], by simp [hv, h]⟩

/-- C21 at concrete inputs: with `V1 = 2`, `3102` moves `PC` from `0x200` to
`0x204` and `4102` to `0x202`; `V1` and the stack depth stay as they were. -/
theorem skip_immediate_witness :
    (∃ s1, emulate_instruction (opcode_input 0x31 0x02) set_config_from_args 0 = some s1 ∧
      s1.PC = 0x204 ∧ s1.V 1 = 2 ∧ s1.stack_ptr = 1) ∧
    (∃ s1, emulate_instruction (opcode_input 0x41 0x02) set_config_from_args 0 = some s1 ∧
      s1.PC = 0x202 ∧ s1.V 1 = 2 ∧ s1.stack_ptr = 1) := by
  constructor
  · obtain ⟨i, h⟩ := (skip_immediate (opcode_input 0x31 0x02) set_config_from_args 0 1 0x02
      (inRange_opcode_input _ _ (by decide) (by decide)) (by decide) (by decide)
      (by decide)).1 (by decide)
    exact ⟨_, h, rfl, rfl, rfl⟩
  · obtain ⟨i, h⟩ := (skip_immediate (opcode_input 0x41 0x02) set_config_from_args 0 1 0x02
      (inRange_opcode_input _ _ (by decide) (by decide)) (by decide) (by decide)
      (by decide)).2.1 (by decide)
    exact ⟨_, h, rfl, rfl, rfl⟩

/-! ## Loading: `init_chip8` -/

/-- C22, refuted as stated: when the file cannot be opened `init_chip8` returns
`false` after it has copied the font into `ram[0..79]` (`ram[0]` goes from 0 to
`0xF0`), so a partly initialised state exists; and a readable image of 0 bytes,
which is within the size limit, is reported as a failure. -/
theorem init_chip8_refuted :
    (init_chip8 zeroed zeroed.rom_name none).1 = false ∧
    zeroed.ram 0 = 0 ∧
    (init_chip8 zeroed zeroed.rom_name none).2.ram 0 = 0xF0 ∧
    (init_chip8 zeroed zeroed.rom_name (some ⟨[], 0⟩)).1 = false := by
  decide

/-- C22, amended: for an image of `n` bytes with `1 ≤ n ≤ 3584` that opens and
reads in full, `init_chip8` returns `true` with `ram[0x200 + i] = image[i]` for
`i < n`, the font at `ram[0..79]` (glyph `d` at `5 * d .. 5 * d + 4`),
`PC = 0x200`, stack depth 0 and run state `RUNNING`.  For `n > 3584`, for a file
that cannot be opened and for a read that delivers fewer than the `n` bytes it
returns `false`; the state it leaves is the one it was given with the font
copied into `ram[0..79]`, and after a failed read with `ram[0x200 .. 0x200+n-1]`
possibly written: every other byte and every other field is as it was. -/
theorem init_chip8_load (c : chip8_t) (name : String) (image : List Nat) (delivered : Nat) :
    (1 ≤ image.length → image.length ≤ 3584 → image.length ≤ delivered →
      (init_chip8 c name (some ⟨image, delivered⟩)).1 = true ∧
      (∀ i, i < image.length →
        (init_chip8 c name (some ⟨image, delivered⟩)).2.ram (0x200 + i) = image.getD i 0) ∧
      (∀ a, a < 80 → (init_chip8 c name (some ⟨image, delivered⟩)).2.ram a = font.getD a 0) ∧
      (∀ d k, d < 16 → k < 5 →
        (init_chip8 c name (some ⟨image, delivered⟩)).2.ram (5 * d + k) =
          ((font.drop (5 * d)).take 5).getD k 0) ∧
      (∀ a, 80 ≤ a → (a < 0x200 ∨ 0x200 + image.length ≤ a) →
        (init_chip8 c name (some ⟨image, delivered⟩)).2.ram a = c.ram a) ∧
      (init_chip8 c name (some ⟨image, delivered⟩)).2.PC = 0x200 ∧
      (init_chip8 c name (some ⟨image, delivered⟩)).2.stack_ptr = 0 ∧
      (init_chip8 c name (some ⟨image, delivered⟩)).2.state = emulator_state_t.RUNNING ∧
      (init_chip8 c name (some ⟨image, delivered⟩)).2.V = c.V ∧
      (init_chip8 c name (some ⟨image, delivered⟩)).2.I = c.I ∧
      (init_chip8 c name (some ⟨image, delivered⟩)).2.display = c.display) ∧
    (3584 < image.length →
      init_chip8 c name (some ⟨image, delivered⟩) =
        (false, { c with ram := fun a => if a < 80 then font.getD a 0 else c.ram a })) ∧
    init_chip8 c name none =
      (false, { c with ram := fun a => if a < 80 then font.getD a 0 else c.ram a }) ∧
    (image.length ≤ 3584 → delivered < image.length →
      ∃ ram1, init_chip8 c name (some ⟨image, delivered⟩) = (false, { c with ram := ram1 }) ∧
        (∀ a, a < 80 → ram1 a = font.getD a 0) ∧
        (∀ a, 80 ≤ a → (a < 0x200 ∨ 0x200 + image.length ≤ a) → ram1 a = c.ram a)) := by
  have hfl : font.length = 80 := rfl
  refine ⟨fun h1 h2 h3 => ?_, fun h => ?_, ?_, fun h2 h3 => ?_⟩
  · have e1 : ¬ image.length > 4096 - 0x200 := by omega
    have e2 : ¬ (image.length = 0 ∨ image.length < image.length) := by omega
    have e3 : min delivered image.length = image.length := by omega
    have hinit : init_chip8 c name (some ⟨image, delivered⟩) =
        (true, { c with
          ram := fun a =>
            if 0x200 ≤ a ∧ a < 0x200 + image.length then image.getD (a - 0x200) 0
            else if a < 80 then font.getD a 0 else c.ram a
          state := emulator_state_t.RUNNING
          PC := 0x200
          rom_name := name
          stack_ptr := 0 }) := by
      simp only [init_chip8, if_neg e1, if_neg e2, hfl, e3]
    rw [hinit]
    refine ⟨rfl, fun i hi => ?_, fun a ha => ?_, fun d k hd hk => ?_, fun a ha hor => ?_,
      rfl, rfl, rfl, rfl, rfl, rfl⟩
    · show (if 0x200 ≤ 0x200 + i ∧ 0x200 + i < 0x200 + image.length
        then image.getD (0x200 + i - 0x200) 0
        else if 0x200 + i < 80 then font.getD (0x200 + i) 0 else c.ram (0x200 + i)) = _
      rw [if_pos (by omega), Nat.add_sub_cancel_left]
    · show (if 0x200 ≤ a ∧ a < 0x200 + image.length then image.getD (a - 0x200) 0
        else if a < 80 then font.getD a 0 else c.ram a) = _
      rw [if_neg (by omega), if_pos ha]
    · show (if 0x200 ≤ 5 * d + k ∧ 5 * d + k < 0x200 + image.length
        then image.getD (5 * d + k - 0x200) 0
        else if 5 * d + k < 80 then font.getD (5 * d + k) 0 else c.ram (5 * d + k)) = _
      rw [if_neg (by omega), if_pos (by omega)]
      interval_cases d <;> interval_cases k <;> rfl
    · show (if 0x200 ≤ a ∧ a < 0x200 + image.length then image.getD (a - 0x200) 0
        else if a < 80 then font.getD a 0 else c.ram a) = _
      rw [if_neg (by omega), if_neg (by omega)]
  · have e1 : image.length > 4096 - 0x200 := by omega
    simp only [init_chip8, if_pos e1, hfl]
  · simp only [init_chip8, hfl]
  · have e1 : ¬ image.length > 4096 - 0x200 := by omega
    have e2 : image.length = 0 ∨ delivered < image.length := by omega
    have e3 : min delivered image.length = delivered := by omega
    refine ⟨fun a => if 0x200 ≤ a ∧ a < 0x200 + delivered then image.getD (a - 0x200) 0
        else if a < 80 then font.getD a 0 else c.ram a, ?_, fun a ha => ?_, fun a ha hor => ?_⟩
    · simp only [init_chip8, if_neg e1, if_pos e2, hfl, e3]
    · show (if 0x200 ≤ a ∧ a < 0x200 + delivered then image.getD (a - 0x200) 0
        else if a < 80 then font.getD a 0 else c.ram a) = _
      rw [if_neg (by omega), if_pos ha]
    · show (if 0x200 ≤ a ∧ a < 0x200 + delivered then image.getD (a - 0x200) 0
        else if a < 80 then font.getD a 0 else c.ram a) = _
      rw [if_neg (by omega), if_neg (by omega)]

/-- C22 (amended) at concrete inputs: the image `61 02 71 05`, read in full,
loads at `0x200` with `PC = 0x200`; a missing file gives `false`; the same image
with only 2 of its 4 bytes delivered gives `false`. -/
theorem init_chip8_load_witness :
    (init_chip8 zeroed zeroed.rom_name (some ⟨[0x61, 0x02, 0x71, 0x05], 4⟩)).1 = true ∧
    (init_chip8 zeroed zeroed.rom_name (some ⟨[0x61, 0x02, 0x71, 0x05], 4⟩)).2.ram 0x202
      = 0x71 ∧
    (init_chip8 zeroed zeroed.rom_name (some ⟨[0x61, 0x02, 0x71, 0x05], 4⟩)).2.PC = 0x200 ∧
    (init_chip8 zeroed zeroed.rom_name none).1 = false ∧
    (init_chip8 zeroed zeroed.rom_name (some ⟨[0x61, 0x02, 0x71, 0x05], 2⟩)).1 = false := by
  have T := init_chip8_load zeroed zeroed.rom_name [0x61, 0x02, 0x71, 0x05] 4
  obtain ⟨h1, h2, -, -, -, h3, -⟩ := T.1 (by decide) (by decide) (by decide)
  obtain ⟨ram1, h4, -⟩ :=
    (init_chip8_load zeroed zeroed.rom_name [0x61, 0x02, 0x71, 0x05] 2).2.2.2
      (by decide) (by decide)
  exact ⟨h1, (h2 2 (by decide)).trans (by decide), h3, by rw [T.2.2.1], by rw [h4]⟩

/-- The state `init_chip8` leaves from the zeroed state of `main`, for an image
that reads in full, is the freshly loaded state `fresh image`, up to the stored
file name. -/
theorem init_chip8_fresh (name : String) (image : List Nat) (delivered : Nat)
    (h1 : 1 ≤ image.length) (h2 : image.length ≤ 3584) (h3 : image.length ≤ delivered) :
    init_chip8 zeroed name (some ⟨image, delivered⟩) =
      (true, { fresh image with rom_name := name }) := by
  have hfl : font.length = 80 := rfl
  have e1 : ¬ image.length > 4096 - 0x200 := by omega
  have e2 : ¬ (image.length = 0 ∨ image.length < image.length) := by omega
  have e3 : min delivered image.length = image.length := by omega
  simp only [init_chip8, if_neg e1, if_neg e2, hfl, e3]
  have hram : (fun a => if 0x200 ≤ a ∧ a < 0x200 + image.length then image.getD (a - 0x200) 0
      else if a < 80 then font.getD a 0 else zeroed.ram a) = (fresh image).ram := by
    funext a
    show _ = (if a < 0x200 then bytes_at 0 font a else bytes_at 0x200 image a)
    unfold bytes_at
    by_cases ha : a < 0x200
    · rw [if_neg (show ¬ (0x200 ≤ a ∧ a < 0x200 + image.length) by omega), if_pos ha,
        if_pos (Nat.zero_le a), Nat.sub_zero]
      by_cases hb : a < 80
      · rw [if_pos hb]
      · rw [if_neg hb, List.getD_eq_default font 0 (by rw [hfl]; omega)]
        rfl
    · rw [if_neg ha, if_pos (show 0x200 ≤ a by omega)]
      by_cases hb : a < 0x200 + image.length
      · rw [if_pos (show 0x200 ≤ a ∧ a < 0x200 + image.length from ⟨by omega, hb⟩)]
      · rw [if_neg (show ¬ (0x200 ≤ a ∧ a < 0x200 + image.length) by omega),
          if_neg (show ¬ a < 80 by omega), List.getD_eq_default image 0 (by omega)]
        rfl
  rw [hram]
  rfl

/-! ## Array accesses of one step -/

theorem exists_ite_some {α : Type} (p : Prop) [Decidable p] (a : α) (q : Option α)
    (h : ∃ t, q = some t) : ∃ t, (if p then some a else q) = some t := by
  split
  · exact ⟨a, rfl⟩
  · exact h

set_option maxHeartbeats 4000000 in
/-- The `switch` returns a state (no access outside an array, no division by
zero) when the sprite, BCD and register-block addresses `I .. I + 15` lie in
memory, the stack depth is between 1 and 11, the display is 64x32 and the key
index of `EX9E`/`EXA1` is at most 15. -/
theorem execute_defined (c : chip8_t) (config : config_t) (rand : Nat)
    (hX : c.inst.X < 16) (hN : c.inst.N < 16) (hI : c.I ≤ 4080)
    (hsp1 : 1 ≤ c.stack_ptr) (hsp2 : c.stack_ptr ≤ 11)
    (hw : config.window_width = 64) (hh : config.window_height = 32)
    (hkey : (c.inst.opcode >>> 12) &&& 0x0F = 0xE →
      c.inst.NN = 0x9E ∨ c.inst.NN = 0xA1 → c.V c.inst.X ≤ 15) :
    ∃ t, execute c config rand = some t := by
  have hop : (c.inst.opcode >>> 12) &&& 0x0F < 16 := by rw [field_op]; omega
  obtain ⟨d1, V1, hdraw, -⟩ := draw_sprite_64 config hw hh c.ram c.I (c.V c.inst.X % 64 % 256)
    (by omega) c.inst.N 0 (c.V c.inst.Y % 32 % 256) c.display (upd c.V 0xF 0) (by omega)
    (by omega)
  obtain ⟨ram1, hdump, -⟩ := reg_dump_eq c.V c.I (c.inst.X + 1) 0 c.ram (by omega)
  obtain ⟨V2, hload, -⟩ := reg_load_eq c.ram c.I (c.inst.X + 1) 0 c.V (by omega)
  have hcfg : ¬ ((64 : Nat) = 0 ∨ (32 : Nat) = 0) := by decide
  have hs0 : 0 < c.stack_ptr ∧ c.stack_ptr - 1 < 12 := ⟨by omega, by omega⟩
  have hs1 : c.stack_ptr < 12 := by omega
  have hb : c.I + 2 < 4096 := by omega
  unfold execute
  simp only []
  generalize (c.inst.opcode >>> 12) &&& 0x0F = op at hop hkey
  interval_cases op <;> simp only [↓reduceIte, Nat.reduceEqDiff]
  -- 0
  · split_ifs <;> exact ⟨_, rfl⟩
  · exact ⟨_, rfl⟩
  -- 2
  · rw [if_pos hs1]; exact ⟨_, rfl⟩
  · split_ifs <;> exact ⟨_, rfl⟩
  · split_ifs <;> exact ⟨_, rfl⟩
  · split_ifs <;> exact ⟨_, rfl⟩
  · exact ⟨_, rfl⟩
  · exact ⟨_, rfl⟩
  -- 8
  · repeat apply exists_ite_some
    exact ⟨_, rfl⟩
  · split_ifs <;> exact ⟨_, rfl⟩
  · exact ⟨_, rfl⟩
  · exact ⟨_, rfl⟩
  · exact ⟨_, rfl⟩
  -- D
  · rw [hw, hh, if_neg hcfg, hdraw]; exact ⟨_, rfl⟩
  -- E
  · by_cases h1 : c.inst.NN = 0x9E
    · have hk : c.V c.inst.X < 16 := by have := hkey rfl (Or.inl h1); omega
      rw [if_pos h1, if_pos hk]
      split_ifs <;> exact ⟨_, rfl⟩
    · rw [if_neg h1]
      by_cases h2 : c.inst.NN = 0xA1
      · have hk : c.V c.inst.X < 16 := by have := hkey rfl (Or.inr h2); omega
        rw [if_pos h2, if_pos hk]
        split_ifs <;> exact ⟨_, rfl⟩
      · rw [if_neg h2]; exact ⟨_, rfl⟩
  -- F
  · rw [hdump, hload]
    simp only [hb, ↓reduceIte]
    split
    · split <;> exact ⟨_, rfl⟩
    · repeat apply exists_ite_some
      exact ⟨_, rfl⟩

/-- C23: from a state with `PC ≤ 4094`, `I ≤ 4080`, a stack depth between 1 and
11, the 64x32 display and a key index `VX ≤ 15` when the opcode is `EX9E` or
`EXA1`, one step performs no access outside an array: the fetch decodes
register indices `X`, `Y ≤ 15` and the `switch` returns a state, which the
embedding does exactly when every `ram`, `stack`, `keypad` and `display` index
it uses is inside its array. -/
theorem step_accesses_in_range (s : chip8_t) (config : config_t) (rand : Nat)
    (hr : InRange s) (hpc : s.PC ≤ 4094) (hI : s.I ≤ 4080)
    (hsp1 : 1 ≤ s.stack_ptr) (hsp2 : s.stack_ptr ≤ 11)
    (hw : config.window_width = 64) (hh : config.window_height = 32)
    (hkey : s.ram s.PC / 16 = 0xE →
      s.ram (s.PC + 1) = 0x9E ∨ s.ram (s.PC + 1) = 0xA1 → s.V (s.ram s.PC % 16) ≤ 15) :
    ∃ c t, fetch_decode s = some c ∧ execute c config rand = some t ∧
      emulate_instruction s config rand = some t ∧
      c.PC = s.PC + 2 ∧ c.inst.X ≤ 15 ∧ c.inst.Y ≤ 15 ∧ c.inst.N ≤ 15 := by
  have h1 := hr.ram_lt s.PC
  have h2 := hr.ram_lt (s.PC + 1)
  have hfd := fetch_decode_eq s (s.ram s.PC / 16) (s.ram s.PC % 16) (s.ram (s.PC + 1)) hr
    (by omega) (by omega) (by omega) rfl
  obtain ⟨t, ht⟩ := execute_defined
    { s with
      inst := { opcode := 4096 * (s.ram s.PC / 16) + 256 * (s.ram s.PC % 16) + s.ram (s.PC + 1)
                NNN := 256 * (s.ram s.PC % 16) + s.ram (s.PC + 1)
                NN := s.ram (s.PC + 1)
                N := s.ram (s.PC + 1) % 16
                X := s.ram s.PC % 16
                Y := s.ram (s.PC + 1) / 16 }
      PC := s.PC + 2 } config rand
    (show s.ram s.PC % 16 < 16 by omega) (show s.ram (s.PC + 1) % 16 < 16 by omega)
    hI hsp1 hsp2 hw hh
    (fun hop hnn => hkey
      (by
        have := top_nibble (s.ram s.PC / 16) (s.ram s.PC % 16) (s.ram (s.PC + 1)) (by omega)
          (by omega) h2
        exact this.symm.trans hop)
      hnn)
  refine ⟨_, t, hfd, ht, ?_, rfl, ?_, ?_, ?_⟩
  · unfold emulate_instruction
    rw [hfd]
    exact ht
  · show s.ram s.PC % 16 ≤ 15
    omega
  · show s.ram (s.PC + 1) / 16 ≤ 15
    omega
  · show s.ram (s.PC + 1) % 16 ≤ 15
    omega

/-- C23 at a concrete input: `E19E` with `V1 = 2`, `I = 0x123` and depth 1
returns a state. -/
theorem step_accesses_in_range_witness :
    ∃ t, emulate_instruction (opcode_input 0xE1 0x9E) set_config_from_args 0 = some t := by
  obtain ⟨c, t, -, -, h, -⟩ := step_accesses_in_range (opcode_input 0xE1 0x9E)
    set_config_from_args 0 (inRange_opcode_input _ _ (by decide) (by decide)) (by decide)
    (by decide) (by decide) (by decide) rfl rfl (fun _ _ => by decide)
  exact ⟨t, h⟩

end Chip8
